import Mathlib

/-!
# Barony `opengl.cpp`: the numeric core

A shallow embedding of the vector/matrix algebra, the 4x4 inversion routine, the
project/unproject pair and the lightmap smoothing and sampling code of
`src/opengl.cpp`, together with the properties stated about them.

Conventions of the embedding:

* `float`/`double`/`real_t` values are rationals (`ℚ`): exact arithmetic, no rounding.
  Division by zero never occurs in a statement proved here without a hypothesis that
  excludes it. The definitions named `..._binary32` are the exception: they round every
  operation of `invertMatrix4x4` as the code does.
* `int` values are mathematical integers (`Int`). The smoothing loop has a second
  embedding with 32-bit wrap-around (`smoothBody32`, `updateLightmapSmoothed32`,
  `glDrawWorld32`) for the statements about the update rate, which depend on the width
  of `int`.
* C arrays are total maps from the index to the stored value; an assignment to one
  element is `Function.update`.
* output parameters become results; a function that writes through a pointer and
  returns the same pointer returns the written value.
* library functions (`cos`, `sin`, `sqrtf`, `tanf`) and the constant `PI` are arguments of
  the functions that call them; what a statement needs of them is a hypothesis.
-/

namespace Barony

/-! ## Data model -/

/-- The struct `vec4_t`: four float fields. -/
structure vec4 where
  x : ℚ
  y : ℚ
  z : ℚ
  w : ℚ
  deriving DecidableEq, Repr

/-- The struct `mat4x4_t`: four column vectors. -/
structure mat4x4 where
  x : vec4
  y : vec4
  z : vec4
  w : vec4
  deriving DecidableEq, Repr

/-- The constructor `vec4(float f)`: every field is `f`. -/
def vec4.ofScalar (f : ℚ) : vec4 := ⟨f, f, f, f⟩

/-- The constructor `mat4x4(float f)`: `f` on the diagonal. -/
def mat4x4.ofScalar (f : ℚ) : mat4x4 :=
  ⟨⟨f, 0, 0, 0⟩, ⟨0, f, 0, 0⟩, ⟨0, 0, f, 0⟩, ⟨0, 0, 0, f⟩⟩

/-! ## Vector algebra -/

def vec4_copy (v : vec4) : vec4 := ⟨v.x, v.y, v.z, v.w⟩

def mul_mat_vec4 (m : mat4x4) (v : vec4) : vec4 :=
  { x := m.x.x * v.x + m.y.x * v.y + m.z.x * v.z + m.w.x * v.w
    y := m.x.y * v.x + m.y.y * v.y + m.z.y * v.z + m.w.y * v.w
    z := m.x.z * v.x + m.y.z * v.y + m.z.z * v.z + m.w.z * v.w
    w := m.x.w * v.x + m.y.w * v.y + m.z.w * v.z + m.w.w * v.w }

def add_vec4 (a b : vec4) : vec4 := ⟨a.x + b.x, a.y + b.y, a.z + b.z, a.w + b.w⟩

def sub_vec4 (a b : vec4) : vec4 := ⟨a.x - b.x, a.y - b.y, a.z - b.z, a.w - b.w⟩

def mul_vec4 (a b : vec4) : vec4 := ⟨a.x * b.x, a.y * b.y, a.z * b.z, a.w * b.w⟩

def div_vec4 (a b : vec4) : vec4 := ⟨a.x / b.x, a.y / b.y, a.z / b.z, a.w / b.w⟩

def pow_vec4 (v : vec4) (f : ℚ) : vec4 := ⟨v.x * f, v.y * f, v.z * f, v.w * f⟩

def dot_vec4 (a b : vec4) : ℚ := a.x * b.x + a.y * b.y + a.z * b.z + a.w * b.w

/-! ## Matrix algebra -/

def mul_mat (m1 m2 : mat4x4) : mat4x4 :=
  { x := add_vec4
      (add_vec4 (pow_vec4 m1.x m2.x.x) (pow_vec4 m1.y m2.x.y))
      (add_vec4 (pow_vec4 m1.z m2.x.z) (pow_vec4 m1.w m2.x.w))
    y := add_vec4
      (add_vec4 (pow_vec4 m1.x m2.y.x) (pow_vec4 m1.y m2.y.y))
      (add_vec4 (pow_vec4 m1.z m2.y.z) (pow_vec4 m1.w m2.y.w))
    z := add_vec4
      (add_vec4 (pow_vec4 m1.x m2.z.x) (pow_vec4 m1.y m2.z.y))
      (add_vec4 (pow_vec4 m1.z m2.z.z) (pow_vec4 m1.w m2.z.w))
    w := add_vec4
      (add_vec4 (pow_vec4 m1.x m2.w.x) (pow_vec4 m1.y m2.w.y))
      (add_vec4 (pow_vec4 m1.z m2.w.z) (pow_vec4 m1.w m2.w.w)) }

def translate_mat (m : mat4x4) (v : vec4) : mat4x4 :=
  { x := m.x
    y := m.y
    z := m.z
    w := add_vec4 m.w
      (add_vec4 (add_vec4 (pow_vec4 m.x v.x) (pow_vec4 m.y v.y)) (pow_vec4 m.z v.z)) }

/-- The function `length_vec4`. The library function `sqrtf` is an argument. -/
def length_vec4 (sqrtf : ℚ → ℚ) (v : vec4) : ℚ :=
  sqrtf (v.x * v.x + v.y * v.y + v.z * v.z + v.w * v.w)

def normal_vec4 (sqrtf : ℚ → ℚ) (v : vec4) : vec4 :=
  let length := length_vec4 sqrtf v
  ⟨v.x / length, v.y / length, v.z / length, v.w / length⟩

/-- The function `rotate_mat`. The library functions `cos`, `sin` and `sqrtf` and the
constant `PI` are arguments. The local `rotate` starts as `mat4x4()`, the identity. -/
def rotate_mat (cos sin sqrtf : ℚ → ℚ) (PI : ℚ) (m : mat4x4) (angle : ℚ) (v : vec4) :
    mat4x4 :=
  let a := (angle / 180) * PI
  let c := cos a
  let s := sin a
  let axis := normal_vec4 sqrtf v
  let temp := pow_vec4 axis (1 - c)
  let rotate := mat4x4.ofScalar 1
  let rotate := { rotate with x := { rotate.x with x := c + temp.x * axis.x } }
  let rotate := { rotate with x := { rotate.x with y := temp.x * axis.y + s * axis.z } }
  let rotate := { rotate with x := { rotate.x with z := temp.x * axis.z - s * axis.y } }
  let rotate := { rotate with y := { rotate.y with x := temp.y * axis.x - s * axis.z } }
  let rotate := { rotate with y := { rotate.y with y := c + temp.y * axis.y } }
  let rotate := { rotate with y := { rotate.y with z := temp.y * axis.z + s * axis.x } }
  let rotate := { rotate with z := { rotate.z with x := temp.z * axis.x + s * axis.y } }
  let rotate := { rotate with z := { rotate.z with y := temp.z * axis.y - s * axis.x } }
  let rotate := { rotate with z := { rotate.z with z := c + temp.z * axis.z } }
  { x := add_vec4
      (add_vec4 (pow_vec4 m.x rotate.x.x) (pow_vec4 m.y rotate.x.y))
      (pow_vec4 m.z rotate.x.z)
    y := add_vec4
      (add_vec4 (pow_vec4 m.x rotate.y.x) (pow_vec4 m.y rotate.y.y))
      (pow_vec4 m.z rotate.y.z)
    z := add_vec4
      (add_vec4 (pow_vec4 m.x rotate.z.x) (pow_vec4 m.y rotate.z.y))
      (pow_vec4 m.z rotate.z.z)
    w := m.w }

/-- The local matrix `rotate` of `rotate_mat` after its nine assignments. -/
def rotate_mat_rotate (cos sin sqrtf : ℚ → ℚ) (PI : ℚ) (angle : ℚ) (v : vec4) : mat4x4 :=
  let a := (angle / 180) * PI
  let c := cos a
  let s := sin a
  let axis := normal_vec4 sqrtf v
  let temp := pow_vec4 axis (1 - c)
  let rotate := mat4x4.ofScalar 1
  let rotate := { rotate with x := { rotate.x with x := c + temp.x * axis.x } }
  let rotate := { rotate with x := { rotate.x with y := temp.x * axis.y + s * axis.z } }
  let rotate := { rotate with x := { rotate.x with z := temp.x * axis.z - s * axis.y } }
  let rotate := { rotate with y := { rotate.y with x := temp.y * axis.x - s * axis.z } }
  let rotate := { rotate with y := { rotate.y with y := c + temp.y * axis.y } }
  let rotate := { rotate with y := { rotate.y with z := temp.y * axis.z + s * axis.x } }
  let rotate := { rotate with z := { rotate.z with x := temp.z * axis.x + s * axis.y } }
  let rotate := { rotate with z := { rotate.z with y := temp.z * axis.y - s * axis.x } }
  let rotate := { rotate with z := { rotate.z with z := c + temp.z * axis.z } }
  rotate

/-- The function `perspective`. The library function `tanf` and the constant `PI` are
arguments. -/
def perspective (tanf : ℚ → ℚ) (PI : ℚ) (fov aspect near far : ℚ) : mat4x4 :=
  let h := tanf (fov / 360 * PI)
  let w := h * aspect
  let result := mat4x4.ofScalar 0
  let result := { result with x := { result.x with x := 1 / w } }
  let result := { result with y := { result.y with y := 1 / h } }
  let result := { result with z := { result.z with z := -(far + near) / (far - near) } }
  let result := { result with z := { result.z with w := -1 } }
  let result := { result with w := { result.w with z := -(2 * far * near) / (far - near) } }
  result

/-- The function `mat_from_array`: the `memcpy` of sixteen floats over the struct, whose
fields lie in the order `x.x, x.y, x.z, x.w, y.x, ...`. -/
def mat_from_array (matArray : Nat → ℚ) : mat4x4 :=
  { x := ⟨matArray 0, matArray 1, matArray 2, matArray 3⟩
    y := ⟨matArray 4, matArray 5, matArray 6, matArray 7⟩
    z := ⟨matArray 8, matArray 9, matArray 10, matArray 11⟩
    w := ⟨matArray 12, matArray 13, matArray 14, matArray 15⟩ }

/-- The local array `inv` of `invertMatrix4x4` after its sixteen assignments. -/
def invertMatrix4x4_inv (m : mat4x4) : Nat → ℚ
  | 0 => m.y.y * m.z.z * m.w.w -
      m.y.y * m.z.w * m.w.z -
      m.z.y * m.y.z * m.w.w +
      m.z.y * m.y.w * m.w.z +
      m.w.y * m.y.z * m.z.w -
      m.w.y * m.y.w * m.z.z
  | 4 => -m.y.x * m.z.z * m.w.w +
      m.y.x * m.z.w * m.w.z +
      m.z.x * m.y.z * m.w.w -
      m.z.x * m.y.w * m.w.z -
      m.w.x * m.y.z * m.z.w +
      m.w.x * m.y.w * m.z.z
  | 8 => m.y.x * m.z.y * m.w.w -
      m.y.x * m.z.w * m.w.y -
      m.z.x * m.y.y * m.w.w +
      m.z.x * m.y.w * m.w.y +
      m.w.x * m.y.y * m.z.w -
      m.w.x * m.y.w * m.z.y
  | 12 => -m.y.x * m.z.y * m.w.z +
      m.y.x * m.z.z * m.w.y +
      m.z.x * m.y.y * m.w.z -
      m.z.x * m.y.z * m.w.y -
      m.w.x * m.y.y * m.z.z +
      m.w.x * m.y.z * m.z.y
  | 1 => -m.x.y * m.z.z * m.w.w +
      m.x.y * m.z.w * m.w.z +
      m.z.y * m.x.z * m.w.w -
      m.z.y * m.x.w * m.w.z -
      m.w.y * m.x.z * m.z.w +
      m.w.y * m.x.w * m.z.z
  | 5 => m.x.x * m.z.z * m.w.w -
      m.x.x * m.z.w * m.w.z -
      m.z.x * m.x.z * m.w.w +
      m.z.x * m.x.w * m.w.z +
      m.w.x * m.x.z * m.z.w -
      m.w.x * m.x.w * m.z.z
  | 9 => -m.x.x * m.z.y * m.w.w +
      m.x.x * m.z.w * m.w.y +
      m.z.x * m.x.y * m.w.w -
      m.z.x * m.x.w * m.w.y -
      m.w.x * m.x.y * m.z.w +
      m.w.x * m.x.w * m.z.y
  | 13 => m.x.x * m.z.y * m.w.z -
      m.x.x * m.z.z * m.w.y -
      m.z.x * m.x.y * m.w.z +
      m.z.x * m.x.z * m.w.y +
      m.w.x * m.x.y * m.z.z -
      m.w.x * m.x.z * m.z.y
  | 2 => m.x.y * m.y.z * m.w.w -
      m.x.y * m.y.w * m.w.z -
      m.y.y * m.x.z * m.w.w +
      m.y.y * m.x.w * m.w.z +
      m.w.y * m.x.z * m.y.w -
      m.w.y * m.x.w * m.y.z
  | 6 => -m.x.x * m.y.z * m.w.w +
      m.x.x * m.y.w * m.w.z +
      m.y.x * m.x.z * m.w.w -
      m.y.x * m.x.w * m.w.z -
      m.w.x * m.x.z * m.y.w +
      m.w.x * m.x.w * m.y.z
  | 10 => m.x.x * m.y.y * m.w.w -
      m.x.x * m.y.w * m.w.y -
      m.y.x * m.x.y * m.w.w +
      m.y.x * m.x.w * m.w.y +
      m.w.x * m.x.y * m.y.w -
      m.w.x * m.x.w * m.y.y
  | 14 => -m.x.x * m.y.y * m.w.z +
      m.x.x * m.y.z * m.w.y +
      m.y.x * m.x.y * m.w.z -
      m.y.x * m.x.z * m.w.y -
      m.w.x * m.x.y * m.y.z +
      m.w.x * m.x.z * m.y.y
  | 3 => -m.x.y * m.y.z * m.z.w +
      m.x.y * m.y.w * m.z.z +
      m.y.y * m.x.z * m.z.w -
      m.y.y * m.x.w * m.z.z -
      m.z.y * m.x.z * m.y.w +
      m.z.y * m.x.w * m.y.z
  | 7 => m.x.x * m.y.z * m.z.w -
      m.x.x * m.y.w * m.z.z -
      m.y.x * m.x.z * m.z.w +
      m.y.x * m.x.w * m.z.z +
      m.z.x * m.x.z * m.y.w -
      m.z.x * m.x.w * m.y.z
  | 11 => -m.x.x * m.y.y * m.z.w +
      m.x.x * m.y.w * m.z.y +
      m.y.x * m.x.y * m.z.w -
      m.y.x * m.x.w * m.z.y -
      m.z.x * m.x.y * m.y.w +
      m.z.x * m.x.w * m.y.y
  | 15 => m.x.x * m.y.y * m.z.z -
      m.x.x * m.y.z * m.z.y -
      m.y.x * m.x.y * m.z.z +
      m.y.x * m.x.z * m.z.y +
      m.z.x * m.x.y * m.y.z -
      m.z.x * m.x.z * m.y.y
  | _ => 0

/-- The value `det` of `invertMatrix4x4` as first assigned, before the test `det == 0`. -/
def invertMatrix4x4_det (m : mat4x4) : ℚ :=
  m.x.x * invertMatrix4x4_inv m 0 + m.x.y * invertMatrix4x4_inv m 4 +
    m.x.z * invertMatrix4x4_inv m 8 + m.x.w * invertMatrix4x4_inv m 12

/-- The function `invertMatrix4x4`, in exact arithmetic. The array `invOut` is passed in
with the content it has before the call and returned with the content it has after it, next
to the `bool` result. The same function with the rounding of the code is
`invertMatrix4x4_binary32`. -/
def invertMatrix4x4 (m : mat4x4) (invOut : Nat → ℚ) : Bool × (Nat → ℚ) :=
  let inv := invertMatrix4x4_inv m
  let det := invertMatrix4x4_det m
  if det = 0 then
    (false, invOut)
  else
    let det := 1 / det
    (true, (List.range 16).foldl (fun out i => Function.update out i (inv i * det)) invOut)

/-! ## Binary floating point

The results of single `float` and `double` operations, for the statements that depend on
rounding. -/

/-- Rounding of a rational to the nearest integer, a tie going to the even one. -/
def roundHalfEven (q : ℚ) : Int :=
  if q - ⌊q⌋ < 1 / 2 then ⌊q⌋
  else if q - ⌊q⌋ > 1 / 2 then ⌊q⌋ + 1
  else if ⌊q⌋ % 2 = 0 then ⌊q⌋
  else ⌊q⌋ + 1

/-- Rounding to the nearest number with a significand of `p` bits, a tie going to the even
significand: the result of one floating point operation whose exact result is `q`, in
binary32 for `p = 24` and in binary64 for `p = 53`. Overflow and subnormal results are
left out. -/
def roundBinary (p : Nat) (q : ℚ) : ℚ :=
  if q = 0 then 0
  else
    (roundHalfEven (q / 2 ^ (Int.log 2 |q| - ((p : Int) - 1))) : ℚ) *
      2 ^ (Int.log 2 |q| - ((p : Int) - 1))

/-- The array `inv` of `invertMatrix4x4` with the rounding of the code: the operands are
`float`, so every product, sum and difference is rounded to binary32, from left to right,
and the `double` the result is stored in holds it unchanged. -/
def invertMatrix4x4_inv_binary32 (m : mat4x4) : Nat → ℚ
  | 0 =>
    let fl := roundBinary 24
    fl (fl (fl (fl (fl (fl (fl (m.y.y * m.z.z) * m.w.w) -
      fl (fl (m.y.y * m.z.w) * m.w.z)) -
      fl (fl (m.z.y * m.y.z) * m.w.w)) +
      fl (fl (m.z.y * m.y.w) * m.w.z)) +
      fl (fl (m.w.y * m.y.z) * m.z.w)) -
      fl (fl (m.w.y * m.y.w) * m.z.z))
  | 1 =>
    let fl := roundBinary 24
    fl (fl (fl (fl (fl (fl (fl (-m.x.y * m.z.z) * m.w.w) +
      fl (fl (m.x.y * m.z.w) * m.w.z)) +
      fl (fl (m.z.y * m.x.z) * m.w.w)) -
      fl (fl (m.z.y * m.x.w) * m.w.z)) -
      fl (fl (m.w.y * m.x.z) * m.z.w)) +
      fl (fl (m.w.y * m.x.w) * m.z.z))
  | 2 =>
    let fl := roundBinary 24
    fl (fl (fl (fl (fl (fl (fl (m.x.y * m.y.z) * m.w.w) -
      fl (fl (m.x.y * m.y.w) * m.w.z)) -
      fl (fl (m.y.y * m.x.z) * m.w.w)) +
      fl (fl (m.y.y * m.x.w) * m.w.z)) +
      fl (fl (m.w.y * m.x.z) * m.y.w)) -
      fl (fl (m.w.y * m.x.w) * m.y.z))
  | 3 =>
    let fl := roundBinary 24
    fl (fl (fl (fl (fl (fl (fl (-m.x.y * m.y.z) * m.z.w) +
      fl (fl (m.x.y * m.y.w) * m.z.z)) +
      fl (fl (m.y.y * m.x.z) * m.z.w)) -
      fl (fl (m.y.y * m.x.w) * m.z.z)) -
      fl (fl (m.z.y * m.x.z) * m.y.w)) +
      fl (fl (m.z.y * m.x.w) * m.y.z))
  | 4 =>
    let fl := roundBinary 24
    fl (fl (fl (fl (fl (fl (fl (-m.y.x * m.z.z) * m.w.w) +
      fl (fl (m.y.x * m.z.w) * m.w.z)) +
      fl (fl (m.z.x * m.y.z) * m.w.w)) -
      fl (fl (m.z.x * m.y.w) * m.w.z)) -
      fl (fl (m.w.x * m.y.z) * m.z.w)) +
      fl (fl (m.w.x * m.y.w) * m.z.z))
  | 5 =>
    let fl := roundBinary 24
    fl (fl (fl (fl (fl (fl (fl (m.x.x * m.z.z) * m.w.w) -
      fl (fl (m.x.x * m.z.w) * m.w.z)) -
      fl (fl (m.z.x * m.x.z) * m.w.w)) +
      fl (fl (m.z.x * m.x.w) * m.w.z)) +
      fl (fl (m.w.x * m.x.z) * m.z.w)) -
      fl (fl (m.w.x * m.x.w) * m.z.z))
  | 6 =>
    let fl := roundBinary 24
    fl (fl (fl (fl (fl (fl (fl (-m.x.x * m.y.z) * m.w.w) +
      fl (fl (m.x.x * m.y.w) * m.w.z)) +
      fl (fl (m.y.x * m.x.z) * m.w.w)) -
      fl (fl (m.y.x * m.x.w) * m.w.z)) -
      fl (fl (m.w.x * m.x.z) * m.y.w)) +
      fl (fl (m.w.x * m.x.w) * m.y.z))
  | 7 =>
    let fl := roundBinary 24
    fl (fl (fl (fl (fl (fl (fl (m.x.x * m.y.z) * m.z.w) -
      fl (fl (m.x.x * m.y.w) * m.z.z)) -
      fl (fl (m.y.x * m.x.z) * m.z.w)) +
      fl (fl (m.y.x * m.x.w) * m.z.z)) +
      fl (fl (m.z.x * m.x.z) * m.y.w)) -
      fl (fl (m.z.x * m.x.w) * m.y.z))
  | 8 =>
    let fl := roundBinary 24
    fl (fl (fl (fl (fl (fl (fl (m.y.x * m.z.y) * m.w.w) -
      fl (fl (m.y.x * m.z.w) * m.w.y)) -
      fl (fl (m.z.x * m.y.y) * m.w.w)) +
      fl (fl (m.z.x * m.y.w) * m.w.y)) +
      fl (fl (m.w.x * m.y.y) * m.z.w)) -
      fl (fl (m.w.x * m.y.w) * m.z.y))
  | 9 =>
    let fl := roundBinary 24
    fl (fl (fl (fl (fl (fl (fl (-m.x.x * m.z.y) * m.w.w) +
      fl (fl (m.x.x * m.z.w) * m.w.y)) +
      fl (fl (m.z.x * m.x.y) * m.w.w)) -
      fl (fl (m.z.x * m.x.w) * m.w.y)) -
      fl (fl (m.w.x * m.x.y) * m.z.w)) +
      fl (fl (m.w.x * m.x.w) * m.z.y))
  | 10 =>
    let fl := roundBinary 24
    fl (fl (fl (fl (fl (fl (fl (m.x.x * m.y.y) * m.w.w) -
      fl (fl (m.x.x * m.y.w) * m.w.y)) -
      fl (fl (m.y.x * m.x.y) * m.w.w)) +
      fl (fl (m.y.x * m.x.w) * m.w.y)) +
      fl (fl (m.w.x * m.x.y) * m.y.w)) -
      fl (fl (m.w.x * m.x.w) * m.y.y))
  | 11 =>
    let fl := roundBinary 24
    fl (fl (fl (fl (fl (fl (fl (-m.x.x * m.y.y) * m.z.w) +
      fl (fl (m.x.x * m.y.w) * m.z.y)) +
      fl (fl (m.y.x * m.x.y) * m.z.w)) -
      fl (fl (m.y.x * m.x.w) * m.z.y)) -
      fl (fl (m.z.x * m.x.y) * m.y.w)) +
      fl (fl (m.z.x * m.x.w) * m.y.y))
  | 12 =>
    let fl := roundBinary 24
    fl (fl (fl (fl (fl (fl (fl (-m.y.x * m.z.y) * m.w.z) +
      fl (fl (m.y.x * m.z.z) * m.w.y)) +
      fl (fl (m.z.x * m.y.y) * m.w.z)) -
      fl (fl (m.z.x * m.y.z) * m.w.y)) -
      fl (fl (m.w.x * m.y.y) * m.z.z)) +
      fl (fl (m.w.x * m.y.z) * m.z.y))
  | 13 =>
    let fl := roundBinary 24
    fl (fl (fl (fl (fl (fl (fl (m.x.x * m.z.y) * m.w.z) -
      fl (fl (m.x.x * m.z.z) * m.w.y)) -
      fl (fl (m.z.x * m.x.y) * m.w.z)) +
      fl (fl (m.z.x * m.x.z) * m.w.y)) +
      fl (fl (m.w.x * m.x.y) * m.z.z)) -
      fl (fl (m.w.x * m.x.z) * m.z.y))
  | 14 =>
    let fl := roundBinary 24
    fl (fl (fl (fl (fl (fl (fl (-m.x.x * m.y.y) * m.w.z) +
      fl (fl (m.x.x * m.y.z) * m.w.y)) +
      fl (fl (m.y.x * m.x.y) * m.w.z)) -
      fl (fl (m.y.x * m.x.z) * m.w.y)) -
      fl (fl (m.w.x * m.x.y) * m.y.z)) +
      fl (fl (m.w.x * m.x.z) * m.y.y))
  | 15 =>
    let fl := roundBinary 24
    fl (fl (fl (fl (fl (fl (fl (m.x.x * m.y.y) * m.z.z) -
      fl (fl (m.x.x * m.y.z) * m.z.y)) -
      fl (fl (m.y.x * m.x.y) * m.z.z)) +
      fl (fl (m.y.x * m.x.z) * m.z.y)) +
      fl (fl (m.z.x * m.x.y) * m.y.z)) -
      fl (fl (m.z.x * m.x.z) * m.y.y))
  | _ => 0

/-- The value `det` that `invertMatrix4x4` tests, with the rounding of the code: the four
products and three sums are `double` operations. -/
def invertMatrix4x4_det_binary32 (m : mat4x4) : ℚ :=
  let inv := invertMatrix4x4_inv_binary32 m
  let fl := roundBinary 53
  fl (fl (fl (fl (m.x.x * inv 0) + fl (m.x.y * inv 4)) + fl (m.x.z * inv 8)) +
    fl (m.x.w * inv 12))

/-- The function `invertMatrix4x4` with the rounding of the code: `1.0 / det` and
`inv[i] * det` are `double` operations, and the store to the `float` array rounds to
binary32. -/
def invertMatrix4x4_binary32 (m : mat4x4) (invOut : Nat → ℚ) : Bool × (Nat → ℚ) :=
  let inv := invertMatrix4x4_inv_binary32 m
  let det := invertMatrix4x4_det_binary32 m
  if det = 0 then (false, invOut)
  else
    let det := roundBinary 53 (1 / det)
    (true, (List.range 16).foldl
      (fun out i => Function.update out i (roundBinary 24 (roundBinary 53 (inv i * det))))
      invOut)

/-! ## Projection -/

def project (world : vec4) (model projview : mat4x4) (window : vec4) : vec4 :=
  let result := { world with w := 1 }
  let copy := vec4_copy result
  let result := mul_mat_vec4 model copy
  let copy := vec4_copy result
  let result := mul_mat_vec4 projview copy
  let half := vec4.ofScalar (1 / 2)
  let w := vec4.ofScalar result.w
  let result := div_vec4 result w
  let result := mul_vec4 result half
  let result := add_vec4 result half
  let result := { result with x := result.x * window.z + window.x }
  let result := { result with y := result.y * window.w + window.y }
  result

/-- The function `unproject`. The local array `invertedProjview` is not initialised in
the source; `stack` is the content it happens to have when the function is entered. -/
def unproject (screenCoords : vec4) (_model projview : mat4x4) (window : vec4)
    (stack : Nat → ℚ) : vec4 :=
  let result := screenCoords
  let result := { result with x := result.x - window.x }
  let result := { result with y := result.y - window.y }
  let result := { result with x := result.x / window.z }
  let result := { result with y := result.y / window.w }
  let half := vec4.ofScalar (1 / 2)
  let result := sub_vec4 result half
  let result := div_vec4 result half
  let invertedProjview := (invertMatrix4x4 projview stack).2
  let invertedProjviewMat := mat_from_array invertedProjview
  let copy := vec4_copy result
  let result := mul_mat_vec4 invertedProjviewMat copy
  let w := vec4.ofScalar result.w
  let result := div_vec4 result w
  result

/-- The top-left corner `worldCoords[0]` of the quad `glDrawEnemyBarSprite` draws. -/
def glDrawEnemyBarSprite_worldCoords0 (screenDistance : ℚ) (sprite_h sprite_w : Int) : vec4 :=
  ⟨screenDistance, ((Int.tdiv sprite_h 2 : Int) : ℚ), ((Int.tdiv sprite_w 2 : Int) : ℚ), 1⟩

/-- The screen-clamp block of `glDrawEnemyBarSprite`: the value of
`enemybar->glWorldOffsetY` after the block. `screenDistance`, `enemy_hp` and
`glWorldOffsetY` are the fields of `enemybar` before it, `sprite_h` and `sprite_w` the
height and width of the surface `sprite` (halved by integer division), `projMat4` and
`modelMat4` the matrices read from the graphics state, `window` the vector of the camera's
`winx`, `winy`, `winw`, `winh`; `stack` is passed on to `unproject`. The function `abs` is
the absolute value of a `float`. -/
def glDrawEnemyBarSprite_glWorldOffsetY (screenDistance : ℚ) (sprite_h sprite_w : Int)
    (enemy_hp : Int) (glWorldOffsetY : ℚ) (projMat4 modelMat4 : mat4x4) (window : vec4)
    (stack : Nat → ℚ) : ℚ :=
  let worldCoords0 : vec4 :=
    ⟨screenDistance, ((Int.tdiv sprite_h 2 : Int) : ℚ), ((Int.tdiv sprite_w 2 : Int) : ℚ), 1⟩
  let worldCoords2 : vec4 :=
    ⟨screenDistance, ((Int.tdiv (-sprite_h) 2 : Int) : ℚ), ((Int.tdiv sprite_w 2 : Int) : ℚ), 1⟩
  let projViewModel4 := mul_mat projMat4 modelMat4
  let identityMatrix := mat4x4.ofScalar 1
  if enemy_hp > 0 then
    let glWorldOffsetY : ℚ := 0
    let screenCoordinates := project worldCoords0 identityMatrix projViewModel4 window
    if screenCoordinates.y ≥ window.w + window.y ∧ projViewModel4.w.z ≥ 0 then
      let pixelOffset := |screenCoordinates.y - (window.w + window.y)|
      let screenCoordinates := { screenCoordinates with y := screenCoordinates.y - pixelOffset }
      let worldCoords2 := unproject screenCoordinates identityMatrix projViewModel4 window stack
      let glWorldOffsetY := worldCoords0.y - worldCoords2.y
      glWorldOffsetY
    else if false then
      let screenCoordinates := project worldCoords2 identityMatrix projViewModel4 window
      if screenCoordinates.y < window.y ∧ projViewModel4.w.z ≥ 0 then
        let pixelOffset := |window.y - screenCoordinates.y|
        let screenCoordinates := { screenCoordinates with y := screenCoordinates.y - pixelOffset }
        let worldCoords2b := unproject screenCoordinates identityMatrix projViewModel4 window stack
        let glWorldOffsetY := -(worldCoords2.y - worldCoords2b.y)
        glWorldOffsetY
      else
        glWorldOffsetY
    else
      glWorldOffsetY
  else
    glWorldOffsetY

/-! ## Lightmap sampling and smoothing

The fields `map.width` and `map.height` are the arguments `mapWidth` and `mapHeight`
(unsigned in the game's headers); `lightmap` and `lightmapSmoothed` are arrays of `int`,
the second one with a border of one cell on every side. -/

/-- The conversion of a `real_t` to `int`, as in `int u = x`: truncation toward zero. -/
def truncToInt (x : ℚ) : Int := if 0 ≤ x then ⌊x⌋ else ⌈x⌉

def getLightForEntity (mapWidth mapHeight : Nat) (lightmapSmoothed : Int → Int)
    (x y : ℚ) : ℚ :=
  if x < 0 ∨ y < 0 ∨ x ≥ mapWidth ∨ y ≥ mapHeight then
    1
  else
    let u : Int := truncToInt x
    let v : Int := truncToInt y
    let div : ℚ := 1 / 255
    ((min (max 0 (lightmapSmoothed ((v + 1) + (u + 1) * (mapHeight + 2)))) 255 : Int) : ℚ) * div

/-- The function `getLightAt`. The file-level variables `getLightAtModifier` and
`getLightAtAdder` it reads are arguments; `fullbright` is the debug console variable
`/fullbright` (off by default, compiled only into debug builds of the game). -/
def getLightAt (mapHeight : Nat) (lightmapSmoothed : Int → Int)
    (getLightAtModifier getLightAtAdder : ℚ) (fullbright : Bool) (x y : Int) : ℚ :=
  if fullbright then
    1
  else
    let index : Int := (y + 1) + (x + 1) * (mapHeight + 2)
    let l : ℚ := 0
    let l := l + lightmapSmoothed (index - 1 - (mapHeight + 2))
    let l := l + lightmapSmoothed (index - (mapHeight + 2))
    let l := l + lightmapSmoothed (index - 1)
    let l := l + lightmapSmoothed index
    let l := l * getLightAtModifier
    let l := l + getLightAtAdder
    let div : ℚ := 1 / (255 * 4)
    min (max 0 (l * div)) 1

/-- The body of the smoothing loop of `glDrawWorld`, after the adjustment of `v` and
`smoothindex`: `cvar_smoothingRate` is the console variable `/lightupdate` (default 1,
constant 1 in the editor). The `int` operations are taken over the integers; `smoothBody32`
is the same body with the wrap-around of 32-bit `int`. -/
def smoothBody (cvar_smoothingRate : Int) (lightmap lightmapSmoothed : Int → Int)
    (index smoothindex : Int) : Int → Int :=
  let difference := |lightmapSmoothed smoothindex - lightmap index|
  let smoothingRate := cvar_smoothingRate
  let smoothingRate :=
    if difference > 64 then smoothingRate * 4
    else if difference > 32 then smoothingRate * 2
    else smoothingRate
  if lightmapSmoothed smoothindex < lightmap index then
    Function.update lightmapSmoothed smoothindex
      (min (lightmap index) (lightmapSmoothed smoothindex + smoothingRate))
  else if lightmapSmoothed smoothindex > lightmap index then
    Function.update lightmapSmoothed smoothindex
      (max (lightmap index) (lightmapSmoothed smoothindex - smoothingRate))
  else
    lightmapSmoothed

/-- The smoothing loop `for ( ; index < size; ++index, ++v, ++smoothindex )`; the first
argument is the number `size - index` of iterations still to run. -/
def smoothLoop (mapHeight : Nat) (cvar_smoothingRate : Int) (lightmap : Int → Int) :
    Nat → Int → Int → Int → (Int → Int) → (Int → Int)
  | 0, _, _, _, lightmapSmoothed => lightmapSmoothed
  | n + 1, v, index, smoothindex, lightmapSmoothed =>
    let smoothindex := if v = mapHeight then smoothindex + 2 else smoothindex
    let v := if v = mapHeight then 0 else v
    let lightmapSmoothed :=
      smoothBody cvar_smoothingRate lightmap lightmapSmoothed index smoothindex
    smoothLoop mapHeight cvar_smoothingRate lightmap n (v + 1) (index + 1) (smoothindex + 1)
      lightmapSmoothed

/-- The block of `glDrawWorld` that updates `lightmapSmoothed` from `lightmap`. -/
def updateLightmapSmoothed (mapWidth mapHeight : Nat) (cvar_smoothingRate : Int)
    (lightmap lightmapSmoothed : Int → Int) : Int → Int :=
  let v : Int := 0
  let index : Int := 0
  let smoothindex : Int := 2 + mapHeight + 1
  let size : Int := mapWidth * mapHeight
  smoothLoop mapHeight cvar_smoothingRate lightmap (size - index).toNat v index smoothindex
    lightmapSmoothed

/-- The pairs `(index, smoothindex)` at which the smoothing loop runs its body, in order:
the loop of `smoothLoop` with the body replaced by a record of the two counters. -/
def smoothLoopVisits (mapHeight : Nat) : Nat → Int → Int → Int → List (Int × Int)
  | 0, _, _, _ => []
  | n + 1, v, index, smoothindex =>
    let smoothindex := if v = mapHeight then smoothindex + 2 else smoothindex
    let v := if v = mapHeight then 0 else v
    (index, smoothindex) ::
      smoothLoopVisits mapHeight n (v + 1) (index + 1) (smoothindex + 1)

/-- The pairs `(index, smoothindex)` visited by the smoothing block of `glDrawWorld`. -/
def updateLightmapVisits (mapWidth mapHeight : Nat) : List (Int × Int) :=
  let v : Int := 0
  let index : Int := 0
  let smoothindex : Int := 2 + mapHeight + 1
  let size : Int := mapWidth * mapHeight
  smoothLoopVisits mapHeight (size - index).toNat v index smoothindex

/-- The value of a 32-bit `int` operation whose exact result is `x`: the result reduced
modulo `2^32` into `[-2^31, 2^31)`, as the compiled code computes it. -/
def wrapInt32 (x : Int) : Int := (x + 2147483648) % 4294967296 - 2147483648

/-- The body of the smoothing loop with 32-bit `int` arithmetic: `smoothBody` with every
subtraction, `abs`, multiplication and addition reduced by `wrapInt32`. -/
def smoothBody32 (cvar_smoothingRate : Int) (lightmap lightmapSmoothed : Int → Int)
    (index smoothindex : Int) : Int → Int :=
  let difference := wrapInt32 |wrapInt32 (lightmapSmoothed smoothindex - lightmap index)|
  let smoothingRate := cvar_smoothingRate
  let smoothingRate :=
    if difference > 64 then wrapInt32 (smoothingRate * 4)
    else if difference > 32 then wrapInt32 (smoothingRate * 2)
    else smoothingRate
  if lightmapSmoothed smoothindex < lightmap index then
    Function.update lightmapSmoothed smoothindex
      (min (lightmap index) (wrapInt32 (lightmapSmoothed smoothindex + smoothingRate)))
  else if lightmapSmoothed smoothindex > lightmap index then
    Function.update lightmapSmoothed smoothindex
      (max (lightmap index) (wrapInt32 (lightmapSmoothed smoothindex - smoothingRate)))
  else
    lightmapSmoothed

/-- The smoothing loop with the body `smoothBody32`. -/
def smoothLoop32 (mapHeight : Nat) (cvar_smoothingRate : Int) (lightmap : Int → Int) :
    Nat → Int → Int → Int → (Int → Int) → (Int → Int)
  | 0, _, _, _, lightmapSmoothed => lightmapSmoothed
  | n + 1, v, index, smoothindex, lightmapSmoothed =>
    let smoothindex := if v = mapHeight then smoothindex + 2 else smoothindex
    let v := if v = mapHeight then 0 else v
    let lightmapSmoothed :=
      smoothBody32 cvar_smoothingRate lightmap lightmapSmoothed index smoothindex
    smoothLoop32 mapHeight cvar_smoothingRate lightmap n (v + 1) (index + 1) (smoothindex + 1)
      lightmapSmoothed

/-- The block of `glDrawWorld` that updates `lightmapSmoothed` from `lightmap`, with 32-bit
`int` arithmetic in the body. -/
def updateLightmapSmoothed32 (mapWidth mapHeight : Nat) (cvar_smoothingRate : Int)
    (lightmap lightmapSmoothed : Int → Int) : Int → Int :=
  let v : Int := 0
  let index : Int := 0
  let smoothindex : Int := 2 + mapHeight + 1
  let size : Int := mapWidth * mapHeight
  smoothLoop32 mapHeight cvar_smoothingRate lightmap (size - index).toNat v index smoothindex
    lightmapSmoothed

/-- The value one pass of `smoothBody32` leaves in a cell that held `s`, for raw value `r`. -/
def smoothCell32 (cvar_smoothingRate s r : Int) : Int :=
  smoothBody32 cvar_smoothingRate (fun _ => r) (fun _ => s) 0 0 0

/-- The fields of the camera `view_t` that the lighting code reads. -/
structure view_t where
  globalLightModifierActive : Bool
  globalLightModifier : ℚ

/-- The lighting part of `glDrawWorld`, from the assignment of `getLightAtModifier` to the
end of the smoothing loop. The result is the pair of the new `getLightAtModifier` and the
new `lightmapSmoothed`. -/
def glDrawWorld (camera : view_t) (mapWidth mapHeight : Nat) (cvar_smoothingRate : Int)
    (lightmap lightmapSmoothed : Int → Int) : ℚ × (Int → Int) :=
  let getLightAtModifier : ℚ :=
    if camera.globalLightModifierActive then camera.globalLightModifier else 1
  (getLightAtModifier,
    updateLightmapSmoothed mapWidth mapHeight cvar_smoothingRate lightmap lightmapSmoothed)

/-- The lighting part of `glDrawWorld` with 32-bit `int` arithmetic in the smoothing loop. -/
def glDrawWorld32 (camera : view_t) (mapWidth mapHeight : Nat) (cvar_smoothingRate : Int)
    (lightmap lightmapSmoothed : Int → Int) : ℚ × (Int → Int) :=
  let getLightAtModifier : ℚ :=
    if camera.globalLightModifierActive then camera.globalLightModifier else 1
  (getLightAtModifier,
    updateLightmapSmoothed32 mapWidth mapHeight cvar_smoothingRate lightmap lightmapSmoothed)

/-- The value one pass of the loop body leaves in a cell that held `s`, for raw value `r`. -/
def smoothCell (cvar_smoothingRate s r : Int) : Int :=
  smoothBody cvar_smoothingRate (fun _ => r) (fun _ => s) 0 0 0

/-- The index into `lightmapSmoothed` of the cell of column `u` and row `v`. -/
def smoothedIndex (mapHeight : Nat) (u v : Int) : Int := (v + 1) + (u + 1) * (mapHeight + 2)

/-- The four indices at which `getLightAt` reads `lightmapSmoothed`, in the order of the
four statements `l += lightmapSmoothed[...]`. -/
def getLightAt_reads (mapHeight : Nat) (x y : Int) : List Int :=
  let index : Int := (y + 1) + (x + 1) * (mapHeight + 2)
  [index - 1 - (mapHeight + 2), index - (mapHeight + 2), index - 1, index]

/-! ## The mathematical reading of a `mat4x4` -/

/-- The matrix a `mat4x4` stands for: the fields `x`, `y`, `z`, `w` are its columns. -/
def mat4x4.toMatrix (m : mat4x4) : Matrix (Fin 4) (Fin 4) ℚ :=
  Matrix.of ![![m.x.x, m.y.x, m.z.x, m.w.x],
              ![m.x.y, m.y.y, m.z.y, m.w.y],
              ![m.x.z, m.y.z, m.z.z, m.w.z],
              ![m.x.w, m.y.w, m.z.w, m.w.w]]

/-- The determinant of a `mat4x4`. -/
def mat4x4.det (m : mat4x4) : ℚ := m.toMatrix.det

/-- The column vector a `vec4` stands for. -/
def vec4.toVec (v : vec4) : Fin 4 → ℚ := ![v.x, v.y, v.z, v.w]

/-- The upper left 3x3 block of the matrix a `mat4x4` stands for. -/
def mat4x4.block3 (m : mat4x4) : Matrix (Fin 3) (Fin 3) ℚ :=
  Matrix.of ![![m.x.x, m.y.x, m.z.x],
              ![m.x.y, m.y.y, m.z.y],
              ![m.x.z, m.y.z, m.z.z]]

/-! ## Values read off the specification, and sample inputs -/

/-- The distance factor of the specification's update rule: 4 for a difference above 64,
2 for a difference above 32, 1 otherwise. -/
def specStepFactor (d : Int) : Int := if d > 64 then 4 else if d > 32 then 2 else 1

/-- The reading of `sampleBilinear` in which the emissive bias is added to the sum of the
four cells before the modifier is applied. -/
def sampleBilinear_biasFirst (mapHeight : Nat) (lightmapSmoothed : Int → Int)
    (modifier bias : ℚ) (x y : Int) : ℚ :=
  let index : Int := (y + 1) + (x + 1) * (mapHeight + 2)
  min (max 0 ((((lightmapSmoothed (index - 1 - (mapHeight + 2)) : ℚ) +
    lightmapSmoothed (index - (mapHeight + 2)) + lightmapSmoothed (index - 1) +
    lightmapSmoothed index) + bias) * modifier / 1020)) 1

/-- A matrix with determinant 6. -/
def exampleMatrix : mat4x4 := ⟨⟨2, 0, 0, 0⟩, ⟨1, 1, 0, 0⟩, ⟨0, 0, 3, 0⟩, ⟨1, 2, 3, 1⟩⟩

/-- A perspective projection (field of view 90 degrees, whose half angle has tangent 1,
aspect 4/3, near 1, far 100) of a view translated by 30 along `z`. -/
def exampleProjview : mat4x4 :=
  mul_mat (perspective (fun _ => 1) (22 / 7) 90 (4 / 3) 1 100)
    (translate_mat (mat4x4.ofScalar 1) ⟨0, 0, -30, 0⟩)

/-- The translation matrix `T(v)` of the specification: the identity with its fourth
column replaced by `(v.x, v.y, v.z, 1)`. -/
def translationMatrix (v : vec4) : mat4x4 :=
  ⟨⟨1, 0, 0, 0⟩, ⟨0, 1, 0, 0⟩, ⟨0, 0, 1, 0⟩, ⟨v.x, v.y, v.z, 1⟩⟩

/-- The cross-product matrix `[n]x` of a vector: `[n]x · u = n × u`. -/
def crossMatrix (n : vec4) : Matrix (Fin 3) (Fin 3) ℚ :=
  Matrix.of ![![0, -n.z, n.y],
              ![n.z, 0, -n.x],
              ![-n.y, n.x, 0]]

/-- The Rodrigues rotation block `c*I + (1-c)*n*n^T + s*[n]x` for the cosine `c`, the sine
`s` and the axis `n`. -/
def rodrigues3 (c s : ℚ) (n : vec4) : Matrix (Fin 3) (Fin 3) ℚ :=
  c • (1 : Matrix (Fin 3) (Fin 3) ℚ) + (1 - c) • Matrix.vecMulVec ![n.x, n.y, n.z] ![n.x, n.y, n.z] +
    s • crossMatrix n

/-- The Rodrigues rotation block extended with the fourth row and column `(0, 0, 0, 1)`,
as a `mat4x4` (entry `(i, j)` of the block is row `i` of column `j`). -/
def rodriguesMatrix (c s : ℚ) (n : vec4) : mat4x4 :=
  { x := ⟨rodrigues3 c s n 0 0, rodrigues3 c s n 1 0, rodrigues3 c s n 2 0, 0⟩
    y := ⟨rodrigues3 c s n 0 1, rodrigues3 c s n 1 1, rodrigues3 c s n 2 1, 0⟩
    z := ⟨rodrigues3 c s n 0 2, rodrigues3 c s n 1 2, rodrigues3 c s n 2 2, 0⟩
    w := ⟨0, 0, 0, 1⟩ }

/-- A perspective projection of a view pitched about the `x` axis (cosine 4/5, sine -3/5)
and translated by -10 along `z`. -/
def examplePitchedProjview : mat4x4 :=
  mul_mat
    (mul_mat (perspective (fun _ => 1) (22 / 7) 90 (4 / 3) 1 100)
      (rotate_mat (fun _ => 4 / 5) (fun _ => -3 / 5) (fun _ => 1) (22 / 7) (mat4x4.ofScalar 1)
        (-37) ⟨1, 0, 0, 0⟩))
    (translate_mat (mat4x4.ofScalar 1) ⟨0, 0, -10, 0⟩)

/-- The raw lightmap of the 3x3 scenario: 255 in the centre cell, 0 elsewhere. -/
def exampleRawCentre : Int → Int := fun i => if i = 4 then 255 else 0

/-- A matrix of determinant 0 with integer entries below `2^24`:
`4097 * 12297 = 4099 * 12291`. -/
def exampleSingularMatrix : mat4x4 :=
  ⟨⟨1, 0, 0, 0⟩, ⟨0, 4097, 0, 0⟩, ⟨0, 0, 4097, 4099⟩, ⟨0, 0, 12291, 12297⟩⟩

/-! ## Matrix lemmas -/

theorem invertMatrix4x4_det_eq (m : mat4x4) : invertMatrix4x4_det m = m.det := by
  simp only [mat4x4.det, mat4x4.toMatrix, invertMatrix4x4_det, invertMatrix4x4_inv]
  rw [Matrix.det_succ_row_zero]
  have h2 : (Fin.castSucc (2 : Fin 3) : Fin 4) = 2 := rfl
  have h3 : (Fin.succ (2 : Fin 3) : Fin 4) = 3 := rfl
  simp [Fin.sum_univ_succ, Matrix.det_fin_three, Matrix.submatrix, Fin.succAbove, h2, h3]
  ring

theorem invertMatrix4x4_loop (inv : Nat → ℚ) (det : ℚ) (out : Nat → ℚ) (i : Nat) :
    (List.range 16).foldl (fun out i => Function.update out i (inv i * det)) out i =
      if i < 16 then inv i * det else out i := by
  have h16 : List.range 16 = [0, 1, 2, 3, 4, 5, 6, 7, 8, 9, 10, 11, 12, 13, 14, 15] := by decide
  rw [h16]
  simp only [List.foldl_cons, List.foldl_nil, Function.update_apply]
  by_cases hi : i < 16
  · rw [if_pos hi]
    interval_cases i <;> simp
  · rw [if_neg hi]
    have h : 16 ≤ i := Nat.le_of_not_lt hi
    repeat rw [if_neg (by omega)]

theorem invertMatrix4x4_fst (m : mat4x4) (out : Nat → ℚ) :
    (invertMatrix4x4 m out).1 = !decide (m.det = 0) := by
  unfold invertMatrix4x4
  simp only [invertMatrix4x4_det_eq]
  by_cases h : m.det = 0 <;> simp [h]

theorem invertMatrix4x4_snd (m : mat4x4) (out : Nat → ℚ) (h : m.det ≠ 0) (i : Nat)
    (hi : i < 16) : (invertMatrix4x4 m out).2 i = invertMatrix4x4_inv m i * (1 / m.det) := by
  unfold invertMatrix4x4
  simp only [invertMatrix4x4_det_eq, if_neg h, invertMatrix4x4_loop, if_pos hi]

theorem mat_from_array_invert (m : mat4x4) (out : Nat → ℚ) (h : m.det ≠ 0) :
    mat_from_array (invertMatrix4x4 m out).2 =
      mat_from_array (fun i => invertMatrix4x4_inv m i * (1 / m.det)) := by
  simp only [mat_from_array]
  repeat rw [invertMatrix4x4_snd m out h _ (by norm_num)]

theorem mul_mat_assoc (a b c : mat4x4) :
    mul_mat (mul_mat a b) c = mul_mat a (mul_mat b c) := by
  simp only [mul_mat, add_vec4, pow_vec4, mat4x4.mk.injEq, vec4.mk.injEq]
  refine ⟨⟨?_, ?_, ?_, ?_⟩, ⟨?_, ?_, ?_, ?_⟩, ⟨?_, ?_, ?_, ?_⟩, ⟨?_, ?_, ?_, ?_⟩⟩ <;> ring

theorem mul_mat_vec4_mul_mat (a b : mat4x4) (v : vec4) :
    mul_mat_vec4 (mul_mat a b) v = mul_mat_vec4 a (mul_mat_vec4 b v) := by
  simp only [mul_mat, mul_mat_vec4, add_vec4, pow_vec4, vec4.mk.injEq]
  refine ⟨?_, ?_, ?_, ?_⟩ <;> ring

theorem mul_mat_vec4_one (v : vec4) : mul_mat_vec4 (mat4x4.ofScalar 1) v = v := by
  simp [mul_mat_vec4, mat4x4.ofScalar]

theorem mul_mat_ofScalar (c d : ℚ) :
    mul_mat (mat4x4.ofScalar c) (mat4x4.ofScalar d) = mat4x4.ofScalar (c * d) := by
  simp [mul_mat, mat4x4.ofScalar, add_vec4, pow_vec4]

/-- The array `inv` read as a matrix is the adjugate: right product. -/
theorem mul_mat_inv_right (m : mat4x4) :
    mul_mat m (mat_from_array (invertMatrix4x4_inv m)) = mat4x4.ofScalar (invertMatrix4x4_det m) := by
  simp only [mul_mat, mat_from_array, invertMatrix4x4_det, invertMatrix4x4_inv, add_vec4,
    pow_vec4, mat4x4.ofScalar, mat4x4.mk.injEq, vec4.mk.injEq]
  refine ⟨⟨?_, ?_, ?_, ?_⟩, ⟨?_, ?_, ?_, ?_⟩, ⟨?_, ?_, ?_, ?_⟩, ⟨?_, ?_, ?_, ?_⟩⟩ <;> ring

/-- The array `inv` read as a matrix is the adjugate: left product. -/
theorem mul_mat_inv_left (m : mat4x4) :
    mul_mat (mat_from_array (invertMatrix4x4_inv m)) m = mat4x4.ofScalar (invertMatrix4x4_det m) := by
  simp only [mul_mat, mat_from_array, invertMatrix4x4_det, invertMatrix4x4_inv, add_vec4,
    pow_vec4, mat4x4.ofScalar, mat4x4.mk.injEq, vec4.mk.injEq]
  refine ⟨⟨?_, ?_, ?_, ?_⟩, ⟨?_, ?_, ?_, ?_⟩, ⟨?_, ?_, ?_, ?_⟩, ⟨?_, ?_, ?_, ?_⟩⟩ <;> ring

theorem mat_from_array_scale_right (a : Nat → ℚ) (c : ℚ) :
    mat_from_array (fun i => a i * c) = mul_mat (mat_from_array a) (mat4x4.ofScalar c) := by
  simp [mul_mat, mat_from_array, mat4x4.ofScalar, add_vec4, pow_vec4]

theorem mat_from_array_scale_left (a : Nat → ℚ) (c : ℚ) :
    mat_from_array (fun i => a i * c) = mul_mat (mat4x4.ofScalar c) (mat_from_array a) := by
  simp [mul_mat, mat_from_array, mat4x4.ofScalar, add_vec4, pow_vec4, mul_comm]

theorem mul_mat_invert_right (m : mat4x4) (out : Nat → ℚ) (h : m.det ≠ 0) :
    mul_mat m (mat_from_array (invertMatrix4x4 m out).2) = mat4x4.ofScalar 1 := by
  rw [mat_from_array_invert m out h, mat_from_array_scale_right, ← mul_mat_assoc,
    mul_mat_inv_right, mul_mat_ofScalar, invertMatrix4x4_det_eq, mul_one_div_cancel h]

theorem mul_mat_invert_left (m : mat4x4) (out : Nat → ℚ) (h : m.det ≠ 0) :
    mul_mat (mat_from_array (invertMatrix4x4 m out).2) m = mat4x4.ofScalar 1 := by
  rw [mat_from_array_invert m out h, mat_from_array_scale_left, mul_mat_assoc,
    mul_mat_inv_left, mul_mat_ofScalar, invertMatrix4x4_det_eq, one_div_mul_cancel h]

/-! ## Rounding lemmas -/

theorem int_log_two_eq (q : ℚ) (e : Int) (hq : 0 < q) (h1 : (2 : ℚ) ^ e ≤ q)
    (h2 : q < (2 : ℚ) ^ (e + 1)) : Int.log 2 q = e := by
  have ha : e ≤ Int.log 2 q :=
    (Int.zpow_le_iff_le_log (by norm_num) hq).1 (by exact_mod_cast h1)
  have hb : Int.log 2 q < e + 1 :=
    (Int.lt_zpow_iff_log_lt (by norm_num) hq).1 (by exact_mod_cast h2)
  omega

theorem roundBinary_zero (p : Nat) : roundBinary p 0 = 0 := by
  simp [roundBinary]

theorem roundBinary_eval (p : Nat) (q : ℚ) (e f : Int) (hq : q ≠ 0)
    (h1 : (2 : ℚ) ^ e ≤ |q|) (h2 : |q| < (2 : ℚ) ^ (e + 1))
    (hf1 : (f : ℚ) ≤ q / 2 ^ (e - ((p : Int) - 1)))
    (hf2 : q / 2 ^ (e - ((p : Int) - 1)) < f + 1) :
    roundBinary p q =
      ((if q / 2 ^ (e - ((p : Int) - 1)) - f < 1 / 2 then f
        else if q / 2 ^ (e - ((p : Int) - 1)) - f > 1 / 2 then f + 1
        else if f % 2 = 0 then f
        else f + 1 : Int) : ℚ) * 2 ^ (e - ((p : Int) - 1)) := by
  have hlog : Int.log 2 |q| = e := int_log_two_eq |q| e (abs_pos.2 hq) h1 h2
  have hfl : ⌊q / 2 ^ (e - ((p : Int) - 1))⌋ = f := Int.floor_eq_iff.2 ⟨hf1, hf2⟩
  simp only [roundBinary, if_neg hq, hlog, roundHalfEven, hfl]

theorem exampleSingular_round_a : roundBinary 24 16785409 = 16785408 := by
  rw [roundBinary_eval 24 16785409 24 8392704 (by norm_num) (by norm_num) (by norm_num)
    (by norm_num) (by norm_num)]
  norm_num

theorem exampleSingular_round_b : roundBinary 24 206410162176 = 206410153984 := by
  rw [roundBinary_eval 24 206410162176 37 12598276 (by norm_num) (by norm_num) (by norm_num)
    (by norm_num) (by norm_num)]
  norm_num

theorem exampleSingular_round_c : roundBinary 24 16793603 = 16793604 := by
  rw [roundBinary_eval 24 16793603 24 8396801 (by norm_num) (by norm_num) (by norm_num)
    (by norm_num) (by norm_num)]
  norm_num

theorem exampleSingular_round_d : roundBinary 24 206410186764 = 206410186752 := by
  rw [roundBinary_eval 24 206410186764 37 12598278 (by norm_num) (by norm_num) (by norm_num)
    (by norm_num) (by norm_num)]
  norm_num

theorem exampleSingular_round_e : roundBinary 24 (-32768) = (-32768) := by
  rw [roundBinary_eval 24 (-32768) 15 (-8388608) (by norm_num) (by norm_num) (by norm_num)
    (by norm_num) (by norm_num)]
  norm_num

theorem exampleSingular_round_f : roundBinary 53 (-32768) = (-32768) := by
  rw [roundBinary_eval 53 (-32768) 15 (-4503599627370496) (by norm_num) (by norm_num) (by norm_num)
    (by norm_num) (by norm_num)]
  norm_num

theorem exampleSingularMatrix_det : exampleSingularMatrix.det = 0 := by
  rw [← invertMatrix4x4_det_eq]
  norm_num [exampleSingularMatrix, invertMatrix4x4_det, invertMatrix4x4_inv]

theorem invertMatrix4x4_inv_binary32_zero (m : mat4x4) :
    invertMatrix4x4_inv_binary32 m 0 =
      roundBinary 24 (roundBinary 24 (roundBinary 24 (roundBinary 24 (roundBinary 24
        (roundBinary 24 (roundBinary 24 (m.y.y * m.z.z) * m.w.w) -
          roundBinary 24 (roundBinary 24 (m.y.y * m.z.w) * m.w.z)) -
          roundBinary 24 (roundBinary 24 (m.z.y * m.y.z) * m.w.w)) +
          roundBinary 24 (roundBinary 24 (m.z.y * m.y.w) * m.w.z)) +
          roundBinary 24 (roundBinary 24 (m.w.y * m.y.z) * m.z.w)) -
          roundBinary 24 (roundBinary 24 (m.w.y * m.y.w) * m.z.z)) := rfl

theorem exampleSingular_inv_binary32 :
    invertMatrix4x4_inv_binary32 exampleSingularMatrix 0 = -32768 := by
  rw [invertMatrix4x4_inv_binary32_zero]
  simp only [exampleSingularMatrix]
  norm_num [roundBinary_zero, exampleSingular_round_a, exampleSingular_round_b,
    exampleSingular_round_c, exampleSingular_round_d, exampleSingular_round_e]

theorem exampleSingular_det_binary32 :
    invertMatrix4x4_det_binary32 exampleSingularMatrix = -32768 := by
  simp only [invertMatrix4x4_det_binary32]
  rw [exampleSingular_inv_binary32]
  norm_num [exampleSingularMatrix, roundBinary_zero, exampleSingular_round_f]

/-! ## Projection lemmas -/

theorem mul_mat_vec4_pow (m : mat4x4) (v : vec4) (f : ℚ) :
    mul_mat_vec4 m (pow_vec4 v f) = pow_vec4 (mul_mat_vec4 m v) f := by
  simp only [mul_mat_vec4, pow_vec4, vec4.mk.injEq]
  refine ⟨?_, ?_, ?_, ?_⟩ <;> ring

/-- Undoing the viewport and the `[0,1]` mapping of `project` gives back the
perspective-divided clip vector. -/
theorem unproject_ndc (c window : vec4) (hc : c.w ≠ 0) (hw : window.z ≠ 0) (hh : window.w ≠ 0) :
    div_vec4 (sub_vec4
      { x := ((c.x / c.w * (1 / 2) + 1 / 2) * window.z + window.x - window.x) / window.z
        y := ((c.y / c.w * (1 / 2) + 1 / 2) * window.w + window.y - window.y) / window.w
        z := c.z / c.w * (1 / 2) + 1 / 2
        w := c.w / c.w * (1 / 2) + 1 / 2 } (vec4.ofScalar (1 / 2))) (vec4.ofScalar (1 / 2)) =
      pow_vec4 c (1 / c.w) := by
  simp only [div_vec4, sub_vec4, pow_vec4, vec4.ofScalar, vec4.mk.injEq]
  refine ⟨?_, ?_, ?_, ?_⟩ <;> field_simp <;> ring

theorem project_eq (p : vec4) (model projview : mat4x4) (window : vec4) :
    project p model projview window =
      { x := ((mul_mat_vec4 projview (mul_mat_vec4 model ⟨p.x, p.y, p.z, 1⟩)).x /
            (mul_mat_vec4 projview (mul_mat_vec4 model ⟨p.x, p.y, p.z, 1⟩)).w * (1 / 2) + 1 / 2) *
            window.z + window.x
        y := ((mul_mat_vec4 projview (mul_mat_vec4 model ⟨p.x, p.y, p.z, 1⟩)).y /
            (mul_mat_vec4 projview (mul_mat_vec4 model ⟨p.x, p.y, p.z, 1⟩)).w * (1 / 2) + 1 / 2) *
            window.w + window.y
        z := (mul_mat_vec4 projview (mul_mat_vec4 model ⟨p.x, p.y, p.z, 1⟩)).z /
            (mul_mat_vec4 projview (mul_mat_vec4 model ⟨p.x, p.y, p.z, 1⟩)).w * (1 / 2) + 1 / 2
        w := (mul_mat_vec4 projview (mul_mat_vec4 model ⟨p.x, p.y, p.z, 1⟩)).w /
            (mul_mat_vec4 projview (mul_mat_vec4 model ⟨p.x, p.y, p.z, 1⟩)).w * (1 / 2) + 1 / 2 } :=
  rfl

theorem unproject_eq (s : vec4) (model projview : mat4x4) (window : vec4) (stack : Nat → ℚ) :
    unproject s model projview window stack =
      div_vec4
        (mul_mat_vec4 (mat_from_array (invertMatrix4x4 projview stack).2)
          (div_vec4 (sub_vec4 ⟨(s.x - window.x) / window.z, (s.y - window.y) / window.w, s.z, s.w⟩
            (vec4.ofScalar (1 / 2))) (vec4.ofScalar (1 / 2))))
        (vec4.ofScalar (mul_mat_vec4 (mat_from_array (invertMatrix4x4 projview stack).2)
          (div_vec4 (sub_vec4 ⟨(s.x - window.x) / window.z, (s.y - window.y) / window.w, s.z, s.w⟩
            (vec4.ofScalar (1 / 2))) (vec4.ofScalar (1 / 2)))).w) :=
  rfl

theorem roundtrip_aux (p : vec4) (projview : mat4x4) (window : vec4) (stack : Nat → ℚ)
    (hdet : projview.det ≠ 0) (hw : window.z ≠ 0) (hh : window.w ≠ 0)
    (hc : (mul_mat_vec4 projview ⟨p.x, p.y, p.z, 1⟩).w ≠ 0) :
    unproject (project p (mat4x4.ofScalar 1) projview window) (mat4x4.ofScalar 1) projview
      window stack = ⟨p.x, p.y, p.z, 1⟩ := by
  have hinv : mul_mat_vec4 (mat_from_array (invertMatrix4x4 projview stack).2)
      (mul_mat_vec4 projview ⟨p.x, p.y, p.z, 1⟩) = ⟨p.x, p.y, p.z, 1⟩ := by
    rw [← mul_mat_vec4_mul_mat, mul_mat_invert_left projview stack hdet, mul_mat_vec4_one]
  rw [unproject_eq, project_eq, mul_mat_vec4_one]
  rw [unproject_ndc _ window hc hw hh, mul_mat_vec4_pow, hinv]
  simp only [pow_vec4, div_vec4, vec4.ofScalar, vec4.mk.injEq]
  refine ⟨?_, ?_, ?_, ?_⟩ <;> field_simp

/-! ## Lightmap lemmas -/

theorem smoothBody_self (rate : Int) (lm ls : Int → Int) (index si : Int) :
    smoothBody rate lm ls index si si = smoothCell rate (ls si) (lm index) := by
  simp only [smoothBody, smoothCell]
  split_ifs <;> simp

theorem smoothBody_other (rate : Int) (lm ls : Int → Int) (index si j : Int) (h : j ≠ si) :
    smoothBody rate lm ls index si j = ls j := by
  simp only [smoothBody]
  split_ifs <;> simp [Function.update_noteq h]

theorem pair_unique (M a b a' b' : Nat) (hb : b < M) (hb' : b' < M)
    (h : a * M + b = a' * M + b') : a = a' ∧ b = b' := by
  have hM : 0 < M := by omega
  have h1 : (a * M + b) / M = a := by
    rw [Nat.add_comm, Nat.add_mul_div_right _ _ hM, Nat.div_eq_of_lt hb, Nat.zero_add]
  have h2 : (a' * M + b') / M = a' := by
    rw [Nat.add_comm, Nat.add_mul_div_right _ _ hM, Nat.div_eq_of_lt hb', Nat.zero_add]
  have ha : a = a' := by rw [← h1, ← h2, h]
  subst ha
  exact ⟨rfl, by omega⟩

theorem smoothedIndex_inj (H a b a' b' : Nat) (hb : b < H) (hb' : b' < H)
    (h : smoothedIndex H a b = smoothedIndex H a' b') : a = a' ∧ b = b' := by
  simp only [smoothedIndex] at h
  have h' : (a + 1) * (H + 2) + (b + 1) = (a' + 1) * (H + 2) + (b' + 1) := by
    have : (((a + 1) * (H + 2) + (b + 1) : Nat) : Int) = (((a' + 1) * (H + 2) + (b' + 1) : Nat) : Int) := by
      push_cast; linarith
    exact_mod_cast this
  have := pair_unique (H + 2) (a + 1) (b + 1) (a' + 1) (b' + 1) (by omega) (by omega) h'
  omega

/-- The state at the top of an iteration: `index = u * H + v` with `v ≤ H`. -/
theorem smoothLoop_spec (H : Nat) (hH : 0 < H) (rate : Int) (lm : Int → Int) (n : Nat) :
    ∀ (u v : Nat) (ls : Int → Int), v ≤ H →
      (∀ a b : Nat, b < H → u * H + v ≤ a * H + b → a * H + b < u * H + v + n →
        smoothLoop H rate lm n v ((u * H + v : Nat) : Int) (smoothedIndex H u v) ls
            (smoothedIndex H a b) =
          smoothCell rate (ls (smoothedIndex H a b)) (lm ((a * H + b : Nat) : Int))) ∧
      (∀ j : Int, (∀ a b : Nat, b < H → u * H + v ≤ a * H + b → a * H + b < u * H + v + n →
          j ≠ smoothedIndex H a b) →
        smoothLoop H rate lm n v ((u * H + v : Nat) : Int) (smoothedIndex H u v) ls j = ls j) := by
  induction n with
  | zero =>
    intro u v ls _
    exact ⟨fun a b _ h1 h2 => absurd h2 (by omega), fun j _ => rfl⟩
  | succ n ih =>
    intro u v ls hv
    -- the cell processed by this iteration
    obtain ⟨u', v', hv', hidx, hsi, hvv⟩ : ∃ u' v' : Nat, v' < H ∧ u' * H + v' = u * H + v ∧
        (if (v : Int) = H then smoothedIndex H u v + 2 else smoothedIndex H u v) =
          smoothedIndex H u' v' ∧ (if (v : Int) = H then (0 : Int) else v) = v' := by
      by_cases h : v = H
      · refine ⟨u + 1, 0, hH, ?_, ?_, ?_⟩
        · subst h; ring
        · subst h; simp [smoothedIndex]; ring
        · subst h; simp
      · have hne : ¬ ((v : Int) = H) := by exact_mod_cast h
        refine ⟨u, v, by omega, rfl, ?_, ?_⟩
        · rw [if_neg hne]
        · rw [if_neg hne]
    have hstep : ∀ j, smoothLoop H rate lm (n + 1) v ((u * H + v : Nat) : Int)
        (smoothedIndex H u v) ls j =
        smoothLoop H rate lm n ((v' + 1 : Nat) : Int) ((u' * H + (v' + 1) : Nat) : Int)
          (smoothedIndex H u' (v' + 1 : Nat))
          (smoothBody rate lm ls ((u' * H + v' : Nat) : Int) (smoothedIndex H u' v')) j := by
      intro j
      simp only [smoothLoop]
      rw [hsi, hvv, ← hidx]
      have e1 : (v' : Int) + 1 = ((v' + 1 : Nat) : Int) := by push_cast; rfl
      have e2 : ((u' * H + v' : Nat) : Int) + 1 = ((u' * H + (v' + 1) : Nat) : Int) := by
        push_cast; ring
      have e3 : smoothedIndex H u' v' + 1 = smoothedIndex H u' ((v' + 1 : Nat) : Int) := by
        simp only [smoothedIndex]; push_cast; ring
      rw [e1, e2, e3]
    obtain ⟨iha, ihb⟩ := ih u' (v' + 1)
      (smoothBody rate lm ls ((u' * H + v' : Nat) : Int) (smoothedIndex H u' v')) (by omega)
    constructor
    · intro a b hb h1 h2
      rw [hstep]
      by_cases hk : a * H + b = u' * H + v'
      · obtain ⟨rfl, rfl⟩ := pair_unique H a b u' v' hb hv' hk
        rw [ihb, smoothBody_self]
        intro a2 b2 hb2 h3 _ heq
        have := smoothedIndex_inj H a b a2 b2 hb hb2 heq
        obtain ⟨rfl, rfl⟩ := this
        omega
      · rw [iha a b hb (by omega) (by omega), smoothBody_other]
        intro heq
        have := smoothedIndex_inj H a b u' v' hb hv' heq
        obtain ⟨rfl, rfl⟩ := this
        exact hk rfl
    · intro j hj
      rw [hstep, ihb, smoothBody_other]
      · exact hj u' v' hv' (by omega) (by omega)
      · intro a b hb h1 h2
        exact hj a b hb (by omega) (by omega)

theorem smoothCell_eq (rate s r : Int) :
    smoothCell rate s r =
      if s < r then
        min r (s + if |s - r| > 64 then rate * 4 else if |s - r| > 32 then rate * 2 else rate)
      else if s > r then
        max r (s - if |s - r| > 64 then rate * 4 else if |s - r| > 32 then rate * 2 else rate)
      else s := by
  simp only [smoothCell, smoothBody]
  split_ifs <;> simp

theorem smoothCell_between (rate s r : Int) (hrate : 1 ≤ rate) :
    min s r ≤ smoothCell rate s r ∧ smoothCell rate s r ≤ max s r := by
  rw [smoothCell_eq]
  rcases abs_cases (s - r) with ⟨h, _⟩ | ⟨h, _⟩ <;> rw [h] <;> split_ifs <;> omega

theorem smoothCell_self (rate r : Int) : smoothCell rate r r = r := by
  rw [smoothCell_eq]; simp

theorem smoothCell_moved (rate s r : Int) (hrate : 0 ≤ rate) :
    smoothCell rate s r =
      if s ≤ r then
        s + min |s - r| (rate * if |s - r| > 64 then 4 else if |s - r| > 32 then 2 else 1)
      else
        s - min |s - r| (rate * if |s - r| > 64 then 4 else if |s - r| > 32 then 2 else 1) := by
  rw [smoothCell_eq]
  rcases abs_cases (s - r) with ⟨h, _⟩ | ⟨h, _⟩ <;> rw [h] <;> split_ifs <;> omega

theorem smoothCell_dist (rate s r : Int) (hrate : 1 ≤ rate) :
    |smoothCell rate s r - r| ≤ max (|s - r| - 1) 0 ∧
      (s ≤ r → smoothCell rate s r ≤ r) ∧ (r ≤ s → r ≤ smoothCell rate s r) := by
  rw [smoothCell_eq]
  rcases abs_cases (s - r) with ⟨h, _⟩ | ⟨h, _⟩ <;> rw [h] <;> split_ifs <;>
    refine ⟨?_, ?_, ?_⟩ <;> first | omega | (rw [abs_le]; omega)

theorem cell_index_lt (W H u v : Nat) (hu : u < W) (hv : v < H) : u * H + v < W * H := by
  have h1 : (u + 1) * H ≤ W * H := Nat.mul_le_mul_right H hu
  have h2 : (u + 1) * H = u * H + H := by ring
  omega

theorem updateLightmapSmoothed_eq_loop (W H : Nat) (rate : Int) (lm ls : Int → Int) :
    updateLightmapSmoothed W H rate lm ls =
      smoothLoop H rate lm (W * H + 0) ((0 : Nat) : Int) ((0 * H + 0 : Nat) : Int)
        (smoothedIndex H ((0 : Nat) : Int) ((0 : Nat) : Int)) ls := by
  have e0 : (2 + (H : Int) + 1) = smoothedIndex H ((0 : Nat) : Int) ((0 : Nat) : Int) := by
    simp only [smoothedIndex]; push_cast; ring
  have e1 : ((W : Int) * H - 0).toNat = W * H + 0 := by
    rw [sub_zero]; exact_mod_cast Int.toNat_natCast (W * H)
  simp only [updateLightmapSmoothed]
  rw [e1, e0]
  simp

theorem updateLightmapSmoothed_cell (W H : Nat) (rate : Int) (lm ls : Int → Int) (u v : Nat)
    (hu : u < W) (hv : v < H) :
    updateLightmapSmoothed W H rate lm ls (smoothedIndex H u v) =
      smoothCell rate (ls (smoothedIndex H u v)) (lm (u * H + v)) := by
  have hH : 0 < H := by omega
  have h := (smoothLoop_spec H hH rate lm (W * H + 0) 0 0 ls (Nat.zero_le _)).1 u v hv
    (by omega) (by have := cell_index_lt W H u v hu hv; omega)
  rw [updateLightmapSmoothed_eq_loop, h]
  push_cast
  rfl

theorem updateLightmapSmoothed_other (W H : Nat) (rate : Int) (lm ls : Int → Int) (j : Int)
    (hj : ∀ u v : Nat, u < W → v < H → j ≠ smoothedIndex H u v) :
    updateLightmapSmoothed W H rate lm ls j = ls j := by
  rcases Nat.eq_zero_or_pos H with hH | hH
  · subst hH
    rw [updateLightmapSmoothed_eq_loop]
    simp [smoothLoop]
  · rw [updateLightmapSmoothed_eq_loop]
    refine (smoothLoop_spec H hH rate lm (W * H + 0) 0 0 ls (Nat.zero_le _)).2 j ?_
    intro a b hb _ h2
    refine hj a b ?_ hb
    have h3 : a * H < W * H := by omega
    exact Nat.lt_of_mul_lt_mul_right h3

theorem wrapInt32_of_range (x : Int) (h1 : -2147483648 ≤ x) (h2 : x < 2147483648) :
    wrapInt32 x = x := by
  unfold wrapInt32
  omega

theorem smoothBody32_self (rate : Int) (lm ls : Int → Int) (index si : Int) :
    smoothBody32 rate lm ls index si si = smoothCell32 rate (ls si) (lm index) := by
  simp only [smoothBody32, smoothCell32]
  split_ifs <;> simp

theorem smoothBody32_other (rate : Int) (lm ls : Int → Int) (index si j : Int) (h : j ≠ si) :
    smoothBody32 rate lm ls index si j = ls j := by
  simp only [smoothBody32]
  split_ifs <;> simp [Function.update_noteq h]

/-- The state of the 32-bit loop at the top of an iteration: `index = u * H + v` with
`v ≤ H`. -/
theorem smoothLoop32_spec (H : Nat) (hH : 0 < H) (rate : Int) (lm : Int → Int) (n : Nat) :
    ∀ (u v : Nat) (ls : Int → Int), v ≤ H →
      (∀ a b : Nat, b < H → u * H + v ≤ a * H + b → a * H + b < u * H + v + n →
        smoothLoop32 H rate lm n v ((u * H + v : Nat) : Int) (smoothedIndex H u v) ls
            (smoothedIndex H a b) =
          smoothCell32 rate (ls (smoothedIndex H a b)) (lm ((a * H + b : Nat) : Int))) ∧
      (∀ j : Int, (∀ a b : Nat, b < H → u * H + v ≤ a * H + b → a * H + b < u * H + v + n →
          j ≠ smoothedIndex H a b) →
        smoothLoop32 H rate lm n v ((u * H + v : Nat) : Int) (smoothedIndex H u v) ls j =
          ls j) := by
  induction n with
  | zero =>
    intro u v ls _
    exact ⟨fun a b _ h1 h2 => absurd h2 (by omega), fun j _ => rfl⟩
  | succ n ih =>
    intro u v ls hv
    obtain ⟨u', v', hv', hidx, hsi, hvv⟩ : ∃ u' v' : Nat, v' < H ∧ u' * H + v' = u * H + v ∧
        (if (v : Int) = H then smoothedIndex H u v + 2 else smoothedIndex H u v) =
          smoothedIndex H u' v' ∧ (if (v : Int) = H then (0 : Int) else v) = v' := by
      by_cases h : v = H
      · refine ⟨u + 1, 0, hH, ?_, ?_, ?_⟩
        · subst h; ring
        · subst h; simp [smoothedIndex]; ring
        · subst h; simp
      · have hne : ¬ ((v : Int) = H) := by exact_mod_cast h
        refine ⟨u, v, by omega, rfl, ?_, ?_⟩
        · rw [if_neg hne]
        · rw [if_neg hne]
    have hstep : ∀ j, smoothLoop32 H rate lm (n + 1) v ((u * H + v : Nat) : Int)
        (smoothedIndex H u v) ls j =
        smoothLoop32 H rate lm n ((v' + 1 : Nat) : Int) ((u' * H + (v' + 1) : Nat) : Int)
          (smoothedIndex H u' (v' + 1 : Nat))
          (smoothBody32 rate lm ls ((u' * H + v' : Nat) : Int) (smoothedIndex H u' v')) j := by
      intro j
      simp only [smoothLoop32]
      rw [hsi, hvv, ← hidx]
      have e1 : (v' : Int) + 1 = ((v' + 1 : Nat) : Int) := by push_cast; rfl
      have e2 : ((u' * H + v' : Nat) : Int) + 1 = ((u' * H + (v' + 1) : Nat) : Int) := by
        push_cast; ring
      have e3 : smoothedIndex H u' v' + 1 = smoothedIndex H u' ((v' + 1 : Nat) : Int) := by
        simp only [smoothedIndex]; push_cast; ring
      rw [e1, e2, e3]
    obtain ⟨iha, ihb⟩ := ih u' (v' + 1)
      (smoothBody32 rate lm ls ((u' * H + v' : Nat) : Int) (smoothedIndex H u' v')) (by omega)
    constructor
    · intro a b hb h1 h2
      rw [hstep]
      by_cases hk : a * H + b = u' * H + v'
      · obtain ⟨rfl, rfl⟩ := pair_unique H a b u' v' hb hv' hk
        rw [ihb, smoothBody32_self]
        intro a2 b2 hb2 h3 _ heq
        have := smoothedIndex_inj H a b a2 b2 hb hb2 heq
        obtain ⟨rfl, rfl⟩ := this
        omega
      · rw [iha a b hb (by omega) (by omega), smoothBody32_other]
        intro heq
        have := smoothedIndex_inj H a b u' v' hb hv' heq
        obtain ⟨rfl, rfl⟩ := this
        exact hk rfl
    · intro j hj
      rw [hstep, ihb, smoothBody32_other]
      · exact hj u' v' hv' (by omega) (by omega)
      · intro a b hb h1 h2
        exact hj a b hb (by omega) (by omega)

theorem updateLightmapSmoothed32_eq_loop (W H : Nat) (rate : Int) (lm ls : Int → Int) :
    updateLightmapSmoothed32 W H rate lm ls =
      smoothLoop32 H rate lm (W * H + 0) ((0 : Nat) : Int) ((0 * H + 0 : Nat) : Int)
        (smoothedIndex H ((0 : Nat) : Int) ((0 : Nat) : Int)) ls := by
  have e0 : (2 + (H : Int) + 1) = smoothedIndex H ((0 : Nat) : Int) ((0 : Nat) : Int) := by
    simp only [smoothedIndex]; push_cast; ring
  have e1 : ((W : Int) * H - 0).toNat = W * H + 0 := by
    rw [sub_zero]; exact_mod_cast Int.toNat_natCast (W * H)
  simp only [updateLightmapSmoothed32]
  rw [e1, e0]
  simp

theorem updateLightmapSmoothed32_cell (W H : Nat) (rate : Int) (lm ls : Int → Int) (u v : Nat)
    (hu : u < W) (hv : v < H) :
    updateLightmapSmoothed32 W H rate lm ls (smoothedIndex H u v) =
      smoothCell32 rate (ls (smoothedIndex H u v)) (lm (u * H + v)) := by
  have hH : 0 < H := by omega
  have h := (smoothLoop32_spec H hH rate lm (W * H + 0) 0 0 ls (Nat.zero_le _)).1 u v hv
    (by omega) (by have := cell_index_lt W H u v hu hv; omega)
  rw [updateLightmapSmoothed32_eq_loop, h]
  push_cast
  rfl

theorem updateLightmapSmoothed32_other (W H : Nat) (rate : Int) (lm ls : Int → Int) (j : Int)
    (hj : ∀ u v : Nat, u < W → v < H → j ≠ smoothedIndex H u v) :
    updateLightmapSmoothed32 W H rate lm ls j = ls j := by
  rcases Nat.eq_zero_or_pos H with hH | hH
  · subst hH
    rw [updateLightmapSmoothed32_eq_loop]
    simp [smoothLoop32]
  · rw [updateLightmapSmoothed32_eq_loop]
    refine (smoothLoop32_spec H hH rate lm (W * H + 0) 0 0 ls (Nat.zero_le _)).2 j ?_
    intro a b hb _ h2
    refine hj a b ?_ hb
    have h3 : a * H < W * H := by omega
    exact Nat.lt_of_mul_lt_mul_right h3

theorem smoothCell32_eq (rate s r : Int) :
    smoothCell32 rate s r =
      if s < r then
        min r (wrapInt32 (s +
          if wrapInt32 |wrapInt32 (s - r)| > 64 then wrapInt32 (rate * 4)
          else if wrapInt32 |wrapInt32 (s - r)| > 32 then wrapInt32 (rate * 2) else rate))
      else if s > r then
        max r (wrapInt32 (s -
          if wrapInt32 |wrapInt32 (s - r)| > 64 then wrapInt32 (rate * 4)
          else if wrapInt32 |wrapInt32 (s - r)| > 32 then wrapInt32 (rate * 2) else rate))
      else s := by
  simp only [smoothCell32, smoothBody32]
  split_ifs <;> simp

/-- Where no 32-bit operation of the loop body overflows, the 32-bit body computes the value
of the body over the integers. -/
theorem smoothCell32_eq_smoothCell (rate s r : Int) (hrate : 0 ≤ rate)
    (hd : |s - r| < 2 ^ 31) (hs1 : -2 ^ 31 ≤ s - rate * 4) (hs2 : s + rate * 4 < 2 ^ 31) :
    smoothCell32 rate s r = smoothCell rate s r := by
  have hd' := abs_lt.1 hd
  have hw1 : wrapInt32 (s - r) = s - r := wrapInt32_of_range _ (by omega) (by omega)
  have hw2 : wrapInt32 |s - r| = |s - r| :=
    wrapInt32_of_range _ (by have := abs_nonneg (s - r); omega) (by omega)
  have hw3 : wrapInt32 (rate * 4) = rate * 4 := wrapInt32_of_range _ (by omega) (by omega)
  have hw4 : wrapInt32 (rate * 2) = rate * 2 := wrapInt32_of_range _ (by omega) (by omega)
  rw [smoothCell32_eq, smoothCell_eq, hw1, hw2, hw3, hw4]
  split_ifs <;> first | rfl | rw [wrapInt32_of_range _ (by omega) (by omega)]

theorem iterate32_cell (W H : Nat) (rate : Int) (lm : Int → Int) (u v : Nat)
    (hu : u < W) (hv : v < H) (n : Nat) (ls : Int → Int) :
    (updateLightmapSmoothed32 W H rate lm)^[n + 1] ls (smoothedIndex H u v) =
      smoothCell32 rate ((updateLightmapSmoothed32 W H rate lm)^[n] ls (smoothedIndex H u v))
        (lm (u * H + v)) := by
  rw [Function.iterate_succ_apply', updateLightmapSmoothed32_cell W H rate lm _ u v hu hv]

/-- Where no 32-bit operation overflows for the first value of a cell and for its raw value,
the cell stays between the two and its distance to the raw value falls by at least one per
update. -/
theorem iterate32_dist (W H : Nat) (rate : Int) (lm : Int → Int) (u v : Nat) (hrate : 1 ≤ rate)
    (hu : u < W) (hv : v < H) (ls : Int → Int)
    (hd : |ls (smoothedIndex H u v) - lm (u * H + v)| < 2 ^ 31)
    (hs : -2 ^ 31 ≤ ls (smoothedIndex H u v) - rate * 4 ∧
      ls (smoothedIndex H u v) + rate * 4 < 2 ^ 31)
    (hr : -2 ^ 31 ≤ lm (u * H + v) - rate * 4 ∧ lm (u * H + v) + rate * 4 < 2 ^ 31) (n : Nat) :
    min (ls (smoothedIndex H u v)) (lm (u * H + v)) ≤
        (updateLightmapSmoothed32 W H rate lm)^[n] ls (smoothedIndex H u v) ∧
      (updateLightmapSmoothed32 W H rate lm)^[n] ls (smoothedIndex H u v) ≤
        max (ls (smoothedIndex H u v)) (lm (u * H + v)) ∧
      |(updateLightmapSmoothed32 W H rate lm)^[n] ls (smoothedIndex H u v) - lm (u * H + v)| ≤
        max (|ls (smoothedIndex H u v) - lm (u * H + v)| - n) 0 := by
  induction n with
  | zero => simp
  | succ n ih =>
    obtain ⟨i1, i2, i3⟩ := ih
    have hd0 := abs_nonneg (ls (smoothedIndex H u v) - lm (u * H + v))
    have hdn : |(updateLightmapSmoothed32 W H rate lm)^[n] ls (smoothedIndex H u v) -
        lm (u * H + v)| < 2 ^ 31 := by omega
    rw [iterate32_cell W H rate lm u v hu hv,
      smoothCell32_eq_smoothCell rate _ _ (by omega) hdn (by omega) (by omega)]
    have h := smoothCell_dist rate
      ((updateLightmapSmoothed32 W H rate lm)^[n] ls (smoothedIndex H u v)) (lm (u * H + v))
      hrate
    have hb := smoothCell_between rate
      ((updateLightmapSmoothed32 W H rate lm)^[n] ls (smoothedIndex H u v)) (lm (u * H + v))
      hrate
    push_cast
    omega

theorem iterate32_reaches_raw (W H : Nat) (rate : Int) (lm ls : Int → Int) (u v : Nat)
    (hrate : 1 ≤ rate) (hu : u < W) (hv : v < H)
    (hd : |ls (smoothedIndex H u v) - lm (u * H + v)| < 2 ^ 31)
    (hs : -2 ^ 31 ≤ ls (smoothedIndex H u v) - rate * 4 ∧
      ls (smoothedIndex H u v) + rate * 4 < 2 ^ 31)
    (hr : -2 ^ 31 ≤ lm (u * H + v) - rate * 4 ∧ lm (u * H + v) + rate * 4 < 2 ^ 31) (n : Nat)
    (hn : |ls (smoothedIndex H u v) - lm (u * H + v)| ≤ n) :
    (updateLightmapSmoothed32 W H rate lm)^[n] ls (smoothedIndex H u v) = lm (u * H + v) := by
  have h := (iterate32_dist W H rate lm u v hrate hu hv ls hd hs hr n).2.2
  have h0 : |(updateLightmapSmoothed32 W H rate lm)^[n] ls (smoothedIndex H u v) -
      lm (u * H + v)| ≤ 0 := by omega
  have := abs_nonpos_iff.1 h0
  omega

theorem exampleMatrix_det : exampleMatrix.det ≠ 0 := by
  rw [← invertMatrix4x4_det_eq]
  norm_num [exampleMatrix, invertMatrix4x4_det, invertMatrix4x4_inv]

theorem exampleProjview_det : exampleProjview.det ≠ 0 := by
  rw [← invertMatrix4x4_det_eq]
  norm_num [exampleProjview, invertMatrix4x4_det, invertMatrix4x4_inv, perspective,
    translate_mat, mul_mat, mat4x4.ofScalar, add_vec4, pow_vec4]

/-! ## The claims -/

/-- Claim C1: for every matrix `m` with non-zero determinant, `invertMatrix4x4` returns
`true`, and the array it writes, read back by `mat_from_array`, is a two-sided inverse of
`m` under `mul_mat`. -/
theorem invertMatrix4x4_two_sided_inverse (m : mat4x4) (invOut : Nat → ℚ) (h : m.det ≠ 0) :
    (invertMatrix4x4 m invOut).1 = true ∧
      mul_mat m (mat_from_array (invertMatrix4x4 m invOut).2) = mat4x4.ofScalar 1 ∧
      mul_mat (mat_from_array (invertMatrix4x4 m invOut).2) m = mat4x4.ofScalar 1 := by
  refine ⟨?_, mul_mat_invert_right m invOut h, mul_mat_invert_left m invOut h⟩
  rw [invertMatrix4x4_fst]
  simp [h]

/-- Claim C1 at `exampleMatrix`, whose determinant is 6. -/
theorem invertMatrix4x4_two_sided_inverse_witness :
    exampleMatrix.det ≠ 0 ∧
      (invertMatrix4x4 exampleMatrix (fun _ => 0)).1 = true ∧
      mul_mat exampleMatrix (mat_from_array (invertMatrix4x4 exampleMatrix (fun _ => 0)).2) =
        mat4x4.ofScalar 1 ∧
      mul_mat (mat_from_array (invertMatrix4x4 exampleMatrix (fun _ => 0)).2) exampleMatrix =
        mat4x4.ofScalar 1 :=
  ⟨exampleMatrix_det,
    invertMatrix4x4_two_sided_inverse exampleMatrix (fun _ => 0) exampleMatrix_det⟩

/-- Claim C2, as stated, fails: the matrix `exampleSingularMatrix` has determinant 0, and
the value the code tests, computed with the rounding of its `float` products, is `-32768`,
so that `invertMatrix4x4` returns `true`, where it returns `false` in exact arithmetic. -/
theorem invertMatrix4x4_false_iff_det_zero_counterexample :
    exampleSingularMatrix.det = 0 ∧
      invertMatrix4x4_det_binary32 exampleSingularMatrix = -32768 ∧
      (invertMatrix4x4_binary32 exampleSingularMatrix (fun _ => 0)).1 = true ∧
      (invertMatrix4x4 exampleSingularMatrix (fun _ => 0)).1 = false := by
  refine ⟨exampleSingularMatrix_det, exampleSingular_det_binary32, ?_, ?_⟩
  · simp only [invertMatrix4x4_binary32]
    rw [exampleSingular_det_binary32]
    norm_num
  · rw [invertMatrix4x4_fst, exampleSingularMatrix_det]
    simp

/-- Claim C2, amended: in exact arithmetic, `invertMatrix4x4` returns `false` exactly when
the determinant is 0; the value it tests is the determinant; it returns `false` for a
matrix with a zero row or a zero column, and for the zero matrix; and when it returns
`false` the output array is left as it was. -/
theorem invertMatrix4x4_false_iff_det_zero (m : mat4x4) (invOut : Nat → ℚ) :
    ((invertMatrix4x4 m invOut).1 = false ↔ m.det = 0) ∧
      (m.x.x * invertMatrix4x4_inv m 0 + m.x.y * invertMatrix4x4_inv m 4 +
        m.x.z * invertMatrix4x4_inv m 8 + m.x.w * invertMatrix4x4_inv m 12 = m.det) ∧
      ((∃ i, ∀ j, m.toMatrix i j = 0) → (invertMatrix4x4 m invOut).1 = false) ∧
      ((∃ j, ∀ i, m.toMatrix i j = 0) → (invertMatrix4x4 m invOut).1 = false) ∧
      (invertMatrix4x4 (mat4x4.ofScalar 0) invOut).1 = false ∧
      ((invertMatrix4x4 m invOut).1 = false → (invertMatrix4x4 m invOut).2 = invOut) := by
  have hiff : ∀ a : mat4x4, (invertMatrix4x4 a invOut).1 = false ↔ a.det = 0 := by
    intro a
    rw [invertMatrix4x4_fst]
    simp
  refine ⟨hiff m, invertMatrix4x4_det_eq m, ?_, ?_, ?_, ?_⟩
  · rintro ⟨i, hi⟩
    exact (hiff m).2 (Matrix.det_eq_zero_of_row_eq_zero i hi)
  · rintro ⟨j, hj⟩
    exact (hiff m).2 (Matrix.det_eq_zero_of_column_eq_zero j hj)
  · refine (hiff _).2 ?_
    rw [← invertMatrix4x4_det_eq]
    simp [invertMatrix4x4_det, invertMatrix4x4_inv, mat4x4.ofScalar]
  · intro hf
    have hd : invertMatrix4x4_det m = 0 := by
      rw [invertMatrix4x4_det_eq]; exact (hiff m).1 hf
    simp [invertMatrix4x4, hd]

/-- Claim C2, amended, at a matrix whose second row is zero, with an output array that holds 7 everywhere. -/
theorem invertMatrix4x4_false_iff_det_zero_witness :
    (invertMatrix4x4 ⟨⟨1, 0, 2, 3⟩, ⟨4, 0, 5, 6⟩, ⟨7, 0, 8, 9⟩, ⟨1, 0, 1, 2⟩⟩ (fun _ => 7)).1 = false ∧
      (invertMatrix4x4 ⟨⟨1, 0, 2, 3⟩, ⟨4, 0, 5, 6⟩, ⟨7, 0, 8, 9⟩, ⟨1, 0, 1, 2⟩⟩ (fun _ => 7)).2 =
        fun _ => 7 :=
  have h := invertMatrix4x4_false_iff_det_zero
    ⟨⟨1, 0, 2, 3⟩, ⟨4, 0, 5, 6⟩, ⟨7, 0, 8, 9⟩, ⟨1, 0, 1, 2⟩⟩ (fun _ => 7)
  have hrow := h.2.2.1 ⟨1, by intro j; fin_cases j <;> rfl⟩
  ⟨hrow, h.2.2.2.2.2 hrow⟩

/-- Claim C3: with the identity as model, a projview of non-zero determinant and a viewport
of non-zero width and height, if the `w` component of `projview · (p.x, p.y, p.z, 1)` is
positive then `unproject (project p)` is `(p.x, p.y, p.z, 1)`, which is `p` when `p.w = 1`. -/
theorem unproject_project_roundtrip (p : vec4) (projview : mat4x4) (window : vec4)
    (stack : Nat → ℚ) (hdet : projview.det ≠ 0) (hw : window.z ≠ 0) (hh : window.w ≠ 0)
    (hpos : 0 < (mul_mat_vec4 projview ⟨p.x, p.y, p.z, 1⟩).w) :
    unproject (project p (mat4x4.ofScalar 1) projview window) (mat4x4.ofScalar 1) projview
        window stack = ⟨p.x, p.y, p.z, 1⟩ ∧
      (p.w = 1 →
        unproject (project p (mat4x4.ofScalar 1) projview window) (mat4x4.ofScalar 1) projview
          window stack = p) := by
  have h := roundtrip_aux p projview window stack hdet hw hh (ne_of_gt hpos)
  refine ⟨h, fun hp => ?_⟩
  rw [h, ← hp]

/-- Claim C3 at the point `(10, 5, 20)`, the viewport `(0, 0, 800, 600)` and `exampleProjview`. -/
theorem unproject_project_roundtrip_witness :
    exampleProjview.det ≠ 0 ∧ (800 : ℚ) ≠ 0 ∧ (600 : ℚ) ≠ 0 ∧
      0 < (mul_mat_vec4 exampleProjview ⟨10, 5, 20, 1⟩).w ∧
      unproject (project ⟨10, 5, 20, 1⟩ (mat4x4.ofScalar 1) exampleProjview ⟨0, 0, 800, 600⟩)
        (mat4x4.ofScalar 1) exampleProjview ⟨0, 0, 800, 600⟩ (fun _ => 0) = ⟨10, 5, 20, 1⟩ :=
  have hpos : 0 < (mul_mat_vec4 exampleProjview ⟨10, 5, 20, 1⟩).w := by
    norm_num [exampleProjview, mul_mat_vec4, perspective, translate_mat, mul_mat,
      mat4x4.ofScalar, add_vec4, pow_vec4]
  ⟨exampleProjview_det, by norm_num, by norm_num, hpos,
    (unproject_project_roundtrip ⟨10, 5, 20, 1⟩ exampleProjview ⟨0, 0, 800, 600⟩ (fun _ => 0)
      exampleProjview_det (by norm_num) (by norm_num) hpos).1⟩

/-- Claim C4, as stated, fails: at the update rate 2147483647 the 32-bit product
`smoothingRate * 4` is `-4`, and a cell with smoothed value 0 and raw value 200 goes to
`-4`, below both and outside `[0,255]`. -/
theorem lightmap_update32_no_overshoot_counterexample :
    (1 : Int) ≤ 2147483647 ∧
      updateLightmapSmoothed32 1 1 2147483647 (fun _ => 200) (fun _ => 0)
        (smoothedIndex 1 0 0) = -4 ∧
      ¬ (min (0 : Int) 200 ≤
        updateLightmapSmoothed32 1 1 2147483647 (fun _ => 200) (fun _ => 0)
          (smoothedIndex 1 0 0)) := by
  decide

/-- Claim C4, amended: one pass of the smoothing loop, in 32-bit arithmetic, with an update
rate of at least 1 leaves a cell between its previous smoothed value `s` and its raw value
`r`, provided that no operation of the loop body overflows: `|s - r| < 2^31`,
`-2^31 ≤ s - 4 * rate` and `s + 4 * rate < 2^31`. Then a cell equal to its raw value stays
there, and values in `[0,255]` stay in `[0,255]`. -/
theorem lightmap_update32_no_overshoot (W H : Nat) (rate : Int) (lm ls : Int → Int) (u v : Nat)
    (hrate : 1 ≤ rate) (hu : u < W) (hv : v < H)
    (hd : |ls (smoothedIndex H u v) - lm (u * H + v)| < 2 ^ 31)
    (hs : -2 ^ 31 ≤ ls (smoothedIndex H u v) - rate * 4 ∧
      ls (smoothedIndex H u v) + rate * 4 < 2 ^ 31) :
    min (ls (smoothedIndex H u v)) (lm (u * H + v)) ≤
        updateLightmapSmoothed32 W H rate lm ls (smoothedIndex H u v) ∧
      updateLightmapSmoothed32 W H rate lm ls (smoothedIndex H u v) ≤
        max (ls (smoothedIndex H u v)) (lm (u * H + v)) ∧
      (ls (smoothedIndex H u v) = lm (u * H + v) →
        updateLightmapSmoothed32 W H rate lm ls (smoothedIndex H u v) = lm (u * H + v)) ∧
      (0 ≤ ls (smoothedIndex H u v) ∧ ls (smoothedIndex H u v) ≤ 255 ∧
        0 ≤ lm (u * H + v) ∧ lm (u * H + v) ≤ 255 →
        0 ≤ updateLightmapSmoothed32 W H rate lm ls (smoothedIndex H u v) ∧
          updateLightmapSmoothed32 W H rate lm ls (smoothedIndex H u v) ≤ 255) := by
  rw [updateLightmapSmoothed32_cell W H rate lm ls u v hu hv,
    smoothCell32_eq_smoothCell rate _ _ (by omega) hd hs.1 hs.2]
  have h := smoothCell_between rate (ls (smoothedIndex H u v)) (lm (u * H + v)) hrate
  refine ⟨h.1, h.2, ?_, ?_⟩
  · intro he
    rw [he, smoothCell_self]
  · rintro ⟨h1, h2, h3, h4⟩
    omega

/-- Claim C4, amended, on a map of one cell with smoothed value 0, raw value 200 and
rate 3. -/
theorem lightmap_update32_no_overshoot_witness :
    (1 : Int) ≤ 3 ∧ 0 < 1 ∧ 0 < 1 ∧
      |(fun _ => 0 : Int → Int) (smoothedIndex 1 (0 : Nat) (0 : Nat)) -
        (fun _ => 200 : Int → Int) ((0 : Nat) * (1 : Nat) + (0 : Nat))| < 2 ^ 31 ∧
      (-2 ^ 31 ≤ (fun _ => 0 : Int → Int) (smoothedIndex 1 (0 : Nat) (0 : Nat)) - 3 * 4 ∧
        (fun _ => 0 : Int → Int) (smoothedIndex 1 (0 : Nat) (0 : Nat)) + 3 * 4 < 2 ^ 31) ∧
      min ((fun _ => 0 : Int → Int) (smoothedIndex 1 (0 : Nat) (0 : Nat)))
          ((fun _ => 200 : Int → Int) ((0 : Nat) * (1 : Nat) + (0 : Nat))) ≤
        updateLightmapSmoothed32 1 1 3 (fun _ => 200) (fun _ => 0)
          (smoothedIndex 1 (0 : Nat) (0 : Nat)) ∧
      updateLightmapSmoothed32 1 1 3 (fun _ => 200) (fun _ => 0)
          (smoothedIndex 1 (0 : Nat) (0 : Nat)) ≤
        max ((fun _ => 0 : Int → Int) (smoothedIndex 1 (0 : Nat) (0 : Nat)))
          ((fun _ => 200 : Int → Int) ((0 : Nat) * (1 : Nat) + (0 : Nat))) :=
  have h := lightmap_update32_no_overshoot 1 1 3 (fun _ => 200) (fun _ => 0) 0 0
    (by decide) (by decide) (by decide) (by decide) (by decide)
  ⟨by decide, by decide, by decide, by decide, by decide, h.1, h.2.1⟩

/-- Claim C5: with the default update rate 1, one pass of the smoothing loop moves every
cell toward its raw value by exactly `min(|s - r|, k)`, where `k` is 4 for a difference
above 64, 2 for a difference above 32 and 1 otherwise; from smoothed 0 and raw 200 the
new value is 4. -/
theorem lightmap_update_step_default_rate (W H : Nat) (lm ls : Int → Int) (u v : Nat)
    (hu : u < W) (hv : v < H) :
    updateLightmapSmoothed W H 1 lm ls (smoothedIndex H u v) =
        (if ls (smoothedIndex H u v) ≤ lm (u * H + v) then
          ls (smoothedIndex H u v) +
            min |ls (smoothedIndex H u v) - lm (u * H + v)|
              (specStepFactor |ls (smoothedIndex H u v) - lm (u * H + v)|)
        else
          ls (smoothedIndex H u v) -
            min |ls (smoothedIndex H u v) - lm (u * H + v)|
              (specStepFactor |ls (smoothedIndex H u v) - lm (u * H + v)|)) ∧
      (ls (smoothedIndex H u v) = 0 → lm (u * H + v) = 200 →
        updateLightmapSmoothed W H 1 lm ls (smoothedIndex H u v) = 4) := by
  rw [updateLightmapSmoothed_cell W H 1 lm ls u v hu hv]
  constructor
  · rw [smoothCell_moved 1 _ _ (by decide)]
    simp only [specStepFactor, one_mul]
  · intro h0 h200
    rw [h0, h200]
    decide

/-- Claim C5 on a map of one cell with smoothed value 0 and raw value 200. -/
theorem lightmap_update_step_default_rate_witness :
    0 < 1 ∧ 0 < 1 ∧
      updateLightmapSmoothed 1 1 1 (fun _ => 200) (fun _ => 0)
        (smoothedIndex 1 (0 : Nat) (0 : Nat)) = 4 :=
  ⟨by decide, by decide,
    (lightmap_update_step_default_rate 1 1 (fun _ => 200) (fun _ => 0) 0 0
      (by decide) (by decide)).2 rfl rfl⟩

/-- Claim C6, as stated, fails: with the global light modifier active and equal to 1/2,
rate 1, smoothed 0 and raw 200, the cell moves by 4, not by
`min(|delta|, 1 * 4 * (1/2)) = 2`, in 32-bit arithmetic as over the integers. -/
theorem lightmap_update32_step_ignores_modifier_counterexample :
    ((|(glDrawWorld32 ⟨true, 1 / 2⟩ 1 1 1 (fun _ => 200) (fun _ => 0)).2 (smoothedIndex 1 0 0) -
        0| : Int) : ℚ) ≠
        min |(0 : ℚ) - 200| (1 * 4 * (⟨true, 1 / 2⟩ : view_t).globalLightModifier) ∧
      ((|(glDrawWorld ⟨true, 1 / 2⟩ 1 1 1 (fun _ => 200) (fun _ => 0)).2 (smoothedIndex 1 0 0) -
        0| : Int) : ℚ) ≠
        min |(0 : ℚ) - 200| (1 * 4 * (⟨true, 1 / 2⟩ : view_t).globalLightModifier) := by
  have h : (glDrawWorld32 ⟨true, 1 / 2⟩ 1 1 1 (fun _ => 200) (fun _ => 0)).2
      (smoothedIndex 1 0 0) = 4 := by decide
  have h2 : (glDrawWorld ⟨true, 1 / 2⟩ 1 1 1 (fun _ => 200) (fun _ => 0)).2
      (smoothedIndex 1 0 0) = 4 := by decide
  rw [h, h2]
  norm_num

/-- Claim C6, amended: the smoothing loop of `glDrawWorld` does not read the camera. Whether
the global light modifier is active or not, the distance a cell moves toward its raw value
in one update is `min(|delta|, rate * k)` with `k` the distance factor 4, 2 or 1, for every
update rate that is not negative and for which no 32-bit operation of the loop body
overflows: `|s - r| < 2^31`, `-2^31 ≤ s - 4 * rate` and `s + 4 * rate < 2^31`. The modifier
only becomes `getLightAtModifier`. -/
theorem lightmap_update32_step_ignores_modifier (camera : view_t) (W H : Nat) (rate : Int)
    (lm ls : Int → Int) (u v : Nat) (hrate : 0 ≤ rate) (hu : u < W) (hv : v < H)
    (hd : |ls (smoothedIndex H u v) - lm (u * H + v)| < 2 ^ 31)
    (hs : -2 ^ 31 ≤ ls (smoothedIndex H u v) - rate * 4 ∧
      ls (smoothedIndex H u v) + rate * 4 < 2 ^ 31) :
    (glDrawWorld32 camera W H rate lm ls).2 (smoothedIndex H u v) =
        (if ls (smoothedIndex H u v) ≤ lm (u * H + v) then
          ls (smoothedIndex H u v) +
            min |ls (smoothedIndex H u v) - lm (u * H + v)|
              (rate * specStepFactor |ls (smoothedIndex H u v) - lm (u * H + v)|)
        else
          ls (smoothedIndex H u v) -
            min |ls (smoothedIndex H u v) - lm (u * H + v)|
              (rate * specStepFactor |ls (smoothedIndex H u v) - lm (u * H + v)|)) ∧
      (glDrawWorld32 camera W H rate lm ls).2 = updateLightmapSmoothed32 W H rate lm ls ∧
      (glDrawWorld32 camera W H rate lm ls).1 =
        (if camera.globalLightModifierActive then camera.globalLightModifier else 1) := by
  refine ⟨?_, rfl, rfl⟩
  show updateLightmapSmoothed32 W H rate lm ls (smoothedIndex H u v) = _
  rw [updateLightmapSmoothed32_cell W H rate lm ls u v hu hv,
    smoothCell32_eq_smoothCell rate _ _ hrate hd hs.1 hs.2, smoothCell_moved rate _ _ hrate]
  simp only [specStepFactor]

/-- Claim C6, amended, on a map of one cell with the global light modifier active at 1/2. -/
theorem lightmap_update32_step_ignores_modifier_witness :
    (0 : Int) ≤ 1 ∧ 0 < 1 ∧ 0 < 1 ∧
      |(fun _ => 0 : Int → Int) (smoothedIndex 1 (0 : Nat) (0 : Nat)) -
        (fun _ => 200 : Int → Int) ((0 : Nat) * (1 : Nat) + (0 : Nat))| < 2 ^ 31 ∧
      (-2 ^ 31 ≤ (fun _ => 0 : Int → Int) (smoothedIndex 1 (0 : Nat) (0 : Nat)) - 1 * 4 ∧
        (fun _ => 0 : Int → Int) (smoothedIndex 1 (0 : Nat) (0 : Nat)) + 1 * 4 < 2 ^ 31) ∧
      (glDrawWorld32 ⟨true, 1 / 2⟩ 1 1 1 (fun _ => 200) (fun _ => 0)).2
        (smoothedIndex 1 (0 : Nat) (0 : Nat)) = 4 :=
  ⟨by decide, by decide, by decide, by decide, by decide,
    (lightmap_update32_step_ignores_modifier ⟨true, 1 / 2⟩ 1 1 1 (fun _ => 200) (fun _ => 0) 0 0
      (by decide) (by decide) (by decide) (by decide) (by decide)).1.trans (by decide)⟩

theorem iterate_cell (W H : Nat) (rate : Int) (lm : Int → Int) (u v : Nat)
    (hu : u < W) (hv : v < H) (n : Nat) (ls : Int → Int) :
    (updateLightmapSmoothed W H rate lm)^[n + 1] ls (smoothedIndex H u v) =
      smoothCell rate ((updateLightmapSmoothed W H rate lm)^[n] ls (smoothedIndex H u v))
        (lm (u * H + v)) := by
  rw [Function.iterate_succ_apply', updateLightmapSmoothed_cell W H rate lm _ u v hu hv]

theorem iterate_dist (W H : Nat) (rate : Int) (lm : Int → Int) (u v : Nat) (hrate : 1 ≤ rate)
    (hu : u < W) (hv : v < H) (ls : Int → Int) (n : Nat) :
    |(updateLightmapSmoothed W H rate lm)^[n] ls (smoothedIndex H u v) - lm (u * H + v)| ≤
      max (|ls (smoothedIndex H u v) - lm (u * H + v)| - n) 0 := by
  induction n with
  | zero => simp
  | succ n ih =>
    rw [iterate_cell W H rate lm u v hu hv]
    have h := (smoothCell_dist rate
      ((updateLightmapSmoothed W H rate lm)^[n] ls (smoothedIndex H u v)) (lm (u * H + v))
      hrate).1
    push_cast
    omega

/-- Claim C7, as stated, fails: at the update rate `2^30` the 32-bit product
`smoothingRate * 4` is 0, and a cell with smoothed value 0 and raw value 200 stays at 0 on
every update: its distance to the raw value never decreases, and after 200 updates it is
not 200. -/
theorem lightmap_update32_converges_counterexample :
    (1 : Int) ≤ 1073741824 ∧
      (∀ n : Nat, (updateLightmapSmoothed32 1 1 1073741824 (fun _ => 200))^[n] (fun _ => 0)
        (smoothedIndex 1 (0 : Nat) (0 : Nat)) = 0) ∧
      (updateLightmapSmoothed32 1 1 1073741824 (fun _ => 200))^[200] (fun _ => 0)
        (smoothedIndex 1 (0 : Nat) (0 : Nat)) ≠ 200 := by
  have hall : ∀ n : Nat, (updateLightmapSmoothed32 1 1 1073741824 (fun _ => 200))^[n]
      (fun _ => 0) (smoothedIndex 1 (0 : Nat) (0 : Nat)) = 0 := by
    intro n
    induction n with
    | zero => rfl
    | succ n ih =>
      rw [iterate32_cell 1 1 1073741824 (fun _ => 200) 0 0 (by decide) (by decide), ih]
      decide
  refine ⟨by decide, hall, ?_⟩
  rw [hall 200]
  decide

/-- Claim C7, amended: with the raw value `r` held constant, an update rate of at least 1
and no overflow in the 32-bit operations of the loop body (`|s0 - r| < 2^31`, and
`-2^31 ≤ x - 4 * rate` and `x + 4 * rate < 2^31` for `x` the first smoothed value `s0` and
for `x = r`), every update strictly decreases the distance of the cell to its raw value
while that distance is not zero and never moves the cell past the raw value; after any
`n ≥ |s0 - r|` updates the cell equals its raw value. -/
theorem lightmap_update32_converges (W H : Nat) (rate : Int) (lm ls : Int → Int) (u v : Nat)
    (hrate : 1 ≤ rate) (hu : u < W) (hv : v < H)
    (hd : |ls (smoothedIndex H u v) - lm (u * H + v)| < 2 ^ 31)
    (hs : -2 ^ 31 ≤ ls (smoothedIndex H u v) - rate * 4 ∧
      ls (smoothedIndex H u v) + rate * 4 < 2 ^ 31)
    (hr : -2 ^ 31 ≤ lm (u * H + v) - rate * 4 ∧ lm (u * H + v) + rate * 4 < 2 ^ 31) :
    (∀ n : Nat,
        ((updateLightmapSmoothed32 W H rate lm)^[n] ls (smoothedIndex H u v) ≠ lm (u * H + v) →
          |(updateLightmapSmoothed32 W H rate lm)^[n + 1] ls (smoothedIndex H u v) -
              lm (u * H + v)| <
            |(updateLightmapSmoothed32 W H rate lm)^[n] ls (smoothedIndex H u v) -
              lm (u * H + v)|) ∧
        ((updateLightmapSmoothed32 W H rate lm)^[n] ls (smoothedIndex H u v) ≤ lm (u * H + v) →
          (updateLightmapSmoothed32 W H rate lm)^[n + 1] ls (smoothedIndex H u v) ≤
            lm (u * H + v)) ∧
        (lm (u * H + v) ≤ (updateLightmapSmoothed32 W H rate lm)^[n] ls (smoothedIndex H u v) →
          lm (u * H + v) ≤
            (updateLightmapSmoothed32 W H rate lm)^[n + 1] ls (smoothedIndex H u v))) ∧
      (∀ n : Nat, |ls (smoothedIndex H u v) - lm (u * H + v)| ≤ n →
        (updateLightmapSmoothed32 W H rate lm)^[n] ls (smoothedIndex H u v) =
          lm (u * H + v)) := by
  constructor
  · intro n
    obtain ⟨i1, i2, i3⟩ := iterate32_dist W H rate lm u v hrate hu hv ls hd hs hr n
    have hd0 := abs_nonneg (ls (smoothedIndex H u v) - lm (u * H + v))
    have hdn : |(updateLightmapSmoothed32 W H rate lm)^[n] ls (smoothedIndex H u v) -
        lm (u * H + v)| < 2 ^ 31 := by omega
    rw [iterate32_cell W H rate lm u v hu hv,
      smoothCell32_eq_smoothCell rate _ _ (by omega) hdn (by omega) (by omega)]
    have hd1 := smoothCell_dist rate
      ((updateLightmapSmoothed32 W H rate lm)^[n] ls (smoothedIndex H u v)) (lm (u * H + v))
      hrate
    refine ⟨?_, hd1.2.1, hd1.2.2⟩
    intro hne
    have hpos : 0 < |(updateLightmapSmoothed32 W H rate lm)^[n] ls (smoothedIndex H u v) -
        lm (u * H + v)| := abs_pos.2 (sub_ne_zero.2 hne)
    have := hd1.1
    omega
  · intro n hn
    exact iterate32_reaches_raw W H rate lm ls u v hrate hu hv hd hs hr n hn

/-- Claim C7, amended, on a map of one cell with smoothed value 0 and raw value 3, after
five updates. -/
theorem lightmap_update32_converges_witness :
    (1 : Int) ≤ 1 ∧ 0 < 1 ∧ 0 < 1 ∧
      |(fun _ => 0 : Int → Int) (smoothedIndex 1 (0 : Nat) (0 : Nat)) -
        (fun _ => 3 : Int → Int) ((0 : Nat) * (1 : Nat) + (0 : Nat))| < 2 ^ 31 ∧
      (-2 ^ 31 ≤ (fun _ => 0 : Int → Int) (smoothedIndex 1 (0 : Nat) (0 : Nat)) - 1 * 4 ∧
        (fun _ => 0 : Int → Int) (smoothedIndex 1 (0 : Nat) (0 : Nat)) + 1 * 4 < 2 ^ 31) ∧
      (-2 ^ 31 ≤ (fun _ => 3 : Int → Int) ((0 : Nat) * (1 : Nat) + (0 : Nat)) - 1 * 4 ∧
        (fun _ => 3 : Int → Int) ((0 : Nat) * (1 : Nat) + (0 : Nat)) + 1 * 4 < 2 ^ 31) ∧
      (updateLightmapSmoothed32 1 1 1 (fun _ => 3))^[5] (fun _ => 0)
        (smoothedIndex 1 (0 : Nat) (0 : Nat)) = 3 :=
  ⟨by decide, by decide, by decide, by decide, by decide, by decide,
    (lightmap_update32_converges 1 1 1 (fun _ => 3) (fun _ => 0) 0 0
      (by decide) (by decide) (by decide) (by decide) (by decide) (by decide)).2 5
      (by decide)⟩

/-- Claim C8, as stated, fails: with all cells 0, modifier 1/2 and bias 510 the code
returns 1/2, while adding the bias before scaling by the modifier gives 1/4. -/
theorem getLightAt_bias_before_modifier_counterexample :
    getLightAt 1 (fun _ => 0) (1 / 2) 510 false 0 0 ≠
      sampleBilinear_biasFirst 1 (fun _ => 0) (1 / 2) 510 0 0 := by
  norm_num [getLightAt, sampleBilinear_biasFirst]

/-- Claim C8, amended: `getLightAt` at `(x, y)` sums the four smoothed cells at the padded
indices `index-1-(H+2)`, `index-(H+2)`, `index-1` and `index`, where
`index = (y+1) + (x+1)*(H+2)`, scales that sum by the modifier, then adds the emissive
bias, divides by `255*4` and clamps to `[0,1]`. -/
theorem getLightAt_formula (H : Nat) (ls : Int → Int) (modifier bias : ℚ) (x y : Int) :
    getLightAt H ls modifier bias false x y =
      min (max 0
        ((((ls ((y + 1) + (x + 1) * (H + 2) - 1 - (H + 2)) : ℚ) +
              ls ((y + 1) + (x + 1) * (H + 2) - (H + 2)) +
              ls ((y + 1) + (x + 1) * (H + 2) - 1) +
              ls ((y + 1) + (x + 1) * (H + 2))) * modifier + bias) / 1020)) 1 := by
  simp only [getLightAt, zero_add]
  norm_num
  ring_nf

/-- Claim C9: `getLightAt` and `getLightForEntity` return a shade in `[0,1]` for every
content of the smoothed grid, every modifier and adder, and every point. -/
theorem sampling_in_unit_interval (W H : Nat) (ls : Int → Int) (modifier adder : ℚ)
    (fullbright : Bool) (x y : Int) (px py : ℚ) :
    (0 ≤ getLightAt H ls modifier adder fullbright x y ∧
        getLightAt H ls modifier adder fullbright x y ≤ 1) ∧
      (0 ≤ getLightForEntity W H ls px py ∧ getLightForEntity W H ls px py ≤ 1) := by
  constructor
  · unfold getLightAt
    split_ifs
    · exact ⟨zero_le_one, le_refl _⟩
    · exact ⟨le_min (le_max_left _ _) zero_le_one, min_le_right _ _⟩
  · unfold getLightForEntity
    split_ifs
    · exact ⟨zero_le_one, le_refl _⟩
    · have h0 : (0 : Int) ≤ min (max 0 (ls (truncToInt py + 1 + (truncToInt px + 1) * (H + 2)))) 255 := by
        omega
      have h1 : min (max 0 (ls (truncToInt py + 1 + (truncToInt px + 1) * (H + 2)))) 255 ≤ (255 : Int) := by
        omega
      have h0' : (0 : ℚ) ≤ ((min (max 0 (ls (truncToInt py + 1 + (truncToInt px + 1) * (H + 2)))) 255 : Int) : ℚ) := by
        exact_mod_cast h0
      have h1' : ((min (max 0 (ls (truncToInt py + 1 + (truncToInt px + 1) * (H + 2)))) 255 : Int) : ℚ) ≤ 255 := by
        exact_mod_cast h1
      constructor
      · positivity
      · simp only []
        linarith

/-- Claim C10: `getLightForEntity` returns exactly 1 for every point outside the grid,
whatever the grid holds: the result does not depend on any cell. -/
theorem getLightForEntity_outside (W H : Nat) (ls : Int → Int) (x y : ℚ)
    (hout : x < 0 ∨ y < 0 ∨ x ≥ W ∨ y ≥ H) :
    getLightForEntity W H ls x y = 1 ∧
      ∀ ls2 : Int → Int, getLightForEntity W H ls2 x y = getLightForEntity W H ls x y := by
  have h : ∀ g : Int → Int, getLightForEntity W H g x y = 1 := by
    intro g
    unfold getLightForEntity
    rw [if_pos hout]
  exact ⟨h ls, fun ls2 => by rw [h ls2, h ls]⟩

/-- Claim C10 at `x = width + 5` on a map of width 3. -/
theorem getLightForEntity_outside_witness :
    ((3 : ℚ) + 5 < 0 ∨ (1 : ℚ) < 0 ∨ (3 : ℚ) + 5 ≥ (3 : Nat) ∨ (1 : ℚ) ≥ (3 : Nat)) ∧
      getLightForEntity 3 3 (fun _ => 0) (3 + 5) 1 = 1 :=
  ⟨by norm_num,
    (getLightForEntity_outside 3 3 (fun _ => 0) (3 + 5) 1 (by norm_num)).1⟩

theorem getLightForEntity_inside (W H : Nat) (ls : Int → Int) (x y : ℚ)
    (hx0 : 0 ≤ x) (hy0 : 0 ≤ y) (hxW : x < W) (hyH : y < H) :
    getLightForEntity W H ls x y =
      ((min (max 0 (ls (smoothedIndex H (truncToInt x) (truncToInt y)))) 255 : Int) : ℚ) *
        (1 / 255) := by
  have hin : ¬ (x < 0 ∨ y < 0 ∨ x ≥ W ∨ y ≥ H) := by
    rintro (h | h | h | h)
    · exact absurd h (not_lt.2 hx0)
    · exact absurd h (not_lt.2 hy0)
    · exact absurd hxW (not_lt.2 h)
    · exact absurd hyH (not_lt.2 h)
  unfold getLightForEntity
  rw [if_neg hin]
  rfl

theorem truncToInt_bounds (x : ℚ) (n : Nat) (h0 : 0 ≤ x) (hn : x < n) :
    0 ≤ truncToInt x ∧ truncToInt x < n ∧ truncToInt x = ⌊x⌋ := by
  have e : truncToInt x = ⌊x⌋ := by simp [truncToInt, h0]
  rw [e]
  refine ⟨Int.floor_nonneg.2 h0, ?_, rfl⟩
  have : ⌊x⌋ < ((n : Int)) := by
    rw [Int.floor_lt]
    exact_mod_cast hn
  exact this

theorem padded_index_bounds (W H : Nat) (a b : Int) (ha0 : 0 ≤ a) (haW : a ≤ W)
    (hb0 : 0 ≤ b) (hbH : b ≤ H) :
    (H : Int) + 3 ≤ (b + 1) + (a + 1) * (H + 2) ∧
      (b + 1) + (a + 1) * (H + 2) < ((W : Int) + 2) * (H + 2) := by
  have h1 : (a + 1) * ((H : Int) + 2) ≤ ((W : Int) + 1) * (H + 2) :=
    mul_le_mul_of_nonneg_right (by omega) (by omega)
  have h2 : (0 + 1) * ((H : Int) + 2) ≤ (a + 1) * (H + 2) :=
    mul_le_mul_of_nonneg_right (by omega) (by omega)
  have h3 : ((W : Int) + 2) * (H + 2) = ((W : Int) + 1) * (H + 2) + (H + 2) := by ring
  constructor
  · linarith
  · linarith

/-- Claim C11, as stated, fails: after one update from smoothed 0 with raw 255 the sample
at the cell is 4/255, not raw/255, and two smoothed grids give two different samples. -/
theorem getLightForEntity_unsmoothed_counterexample :
    getLightForEntity 1 1 (updateLightmapSmoothed 1 1 1 (fun _ => 255) (fun _ => 0)) 0 0 ≠
        (((fun _ => 255 : Int → Int) (0 * 1 + 0) : Int) : ℚ) / 255 ∧
      getLightForEntity 1 1 (fun _ => 0) 0 0 ≠ getLightForEntity 1 1 (fun _ => 255) 0 0 := by
  have ht : truncToInt 0 = 0 := by simp [truncToInt]
  have h4 : updateLightmapSmoothed 1 1 1 (fun _ => 255) (fun _ => 0) (smoothedIndex 1 0 0) = 4 := by
    decide
  constructor
  · rw [getLightForEntity_inside 1 1 _ 0 0 (le_refl _) (le_refl _) (by norm_num) (by norm_num),
      ht, h4]
    norm_num
  · rw [getLightForEntity_inside 1 1 _ 0 0 (le_refl _) (le_refl _) (by norm_num) (by norm_num),
      getLightForEntity_inside 1 1 _ 0 0 (le_refl _) (le_refl _) (by norm_num) (by norm_num)]
    norm_num

/-- Claim C11, amended: for every in-bounds point `getLightForEntity` is a single-cell read
of the smoothed grid `lightmapSmoothed`: its result is the value of the one padded cell
`(trunc y + 1) + (trunc x + 1) * (H + 2)`, clamped to `[0,255]` and scaled by `1/255`. It
depends on no other cell, and it is `r/255` whenever that smoothed cell holds a value `r`
in `[0,255]`, so it is `raw/255` once the cell has reached its raw value. -/
theorem getLightForEntity_reads_smoothed_cell (W H : Nat) (ls : Int → Int) (x y : ℚ)
    (hx0 : 0 ≤ x) (hy0 : 0 ≤ y) (hxW : x < W) (hyH : y < H) :
    getLightForEntity W H ls x y =
        ((min (max 0 (ls ((truncToInt y + 1) + (truncToInt x + 1) * (H + 2)))) 255 : Int) : ℚ) /
          255 ∧
      (∀ ls2 : Int → Int,
        ls2 ((truncToInt y + 1) + (truncToInt x + 1) * (H + 2)) =
            ls ((truncToInt y + 1) + (truncToInt x + 1) * (H + 2)) →
          getLightForEntity W H ls2 x y = getLightForEntity W H ls x y) ∧
      (∀ r : Int, 0 ≤ r → r ≤ 255 →
        ls ((truncToInt y + 1) + (truncToInt x + 1) * (H + 2)) = r →
          getLightForEntity W H ls x y = (r : ℚ) / 255) := by
  have h := fun g => getLightForEntity_inside W H g x y hx0 hy0 hxW hyH
  simp only [smoothedIndex] at h
  refine ⟨?_, ?_, ?_⟩
  · rw [h ls]; ring
  · intro ls2 h2
    rw [h ls2, h ls, h2]
  · intro r hr0 hr255 hr
    rw [h ls, hr]
    have e : min (max 0 r) 255 = r := by omega
    rw [e]; ring

/-- Claim C11, amended, at the point `(1/2, 1/2)` of a map of one cell. -/
theorem getLightForEntity_reads_smoothed_cell_witness :
    (0 : ℚ) ≤ 1 / 2 ∧ (0 : ℚ) ≤ 1 / 2 ∧ (1 / 2 : ℚ) < (1 : Nat) ∧ (1 / 2 : ℚ) < (1 : Nat) ∧
      getLightForEntity 1 1 (fun _ => 100) (1 / 2) (1 / 2) = ((100 : Int) : ℚ) / 255 :=
  ⟨by norm_num, by norm_num, by norm_num, by norm_num,
    (getLightForEntity_reads_smoothed_cell 1 1 (fun _ => 100) (1 / 2) (1 / 2) (by norm_num)
      (by norm_num) (by norm_num) (by norm_num)).2.2 100 (by decide) (by decide) rfl⟩

/-- Claim C12: for a map of width `W ≥ 1` and height `H ≥ 1` and a vertex `0 ≤ x ≤ W`,
`0 ≤ y ≤ H`, the four indices `getLightAt` reads lie in `[0, (W+2)*(H+2))`, and
`getLightAt` depends on no other cell; for an in-bounds point the index
`getLightForEntity` reads lies in that range and it depends on no other cell. -/
theorem sampling_indices_in_bounds (W H : Nat) (_hW : 1 ≤ W) (_hH : 1 ≤ H) (x y : Int)
    (hx0 : 0 ≤ x) (hxW : x ≤ W) (hy0 : 0 ≤ y) (hyH : y ≤ H) (px py : ℚ)
    (hpx0 : 0 ≤ px) (hpxW : px < W) (hpy0 : 0 ≤ py) (hpyH : py < H) :
    (∀ i ∈ getLightAt_reads H x y, 0 ≤ i ∧ i < ((W : Int) + 2) * (H + 2)) ∧
      (∀ (ls ls2 : Int → Int) (modifier adder : ℚ) (fullbright : Bool),
        (∀ i ∈ getLightAt_reads H x y, ls2 i = ls i) →
          getLightAt H ls2 modifier adder fullbright x y =
            getLightAt H ls modifier adder fullbright x y) ∧
      (0 ≤ (truncToInt py + 1) + (truncToInt px + 1) * (H + 2) ∧
        (truncToInt py + 1) + (truncToInt px + 1) * (H + 2) < ((W : Int) + 2) * (H + 2)) ∧
      (∀ ls ls2 : Int → Int,
        ls2 ((truncToInt py + 1) + (truncToInt px + 1) * (H + 2)) =
            ls ((truncToInt py + 1) + (truncToInt px + 1) * (H + 2)) →
          getLightForEntity W H ls2 px py = getLightForEntity W H ls px py) := by
  have hb := padded_index_bounds W H x y hx0 hxW hy0 hyH
  have htx := truncToInt_bounds px W hpx0 hpxW
  have hty := truncToInt_bounds py H hpy0 hpyH
  have hp := padded_index_bounds W H (truncToInt px) (truncToInt py) htx.1 (by omega) hty.1
    (by omega)
  refine ⟨?_, ?_, ⟨by omega, hp.2⟩, ?_⟩
  · intro i hi
    simp only [getLightAt_reads, List.mem_cons, List.mem_singleton, List.not_mem_nil,
      or_false] at hi
    rcases hi with rfl | rfl | rfl | rfl <;> constructor <;> omega
  · intro ls ls2 modifier adder fullbright hagree
    have h1 := hagree _ (by simp [getLightAt_reads] : (y + 1) + (x + 1) * ((H : Int) + 2) - 1 - (H + 2) ∈ getLightAt_reads H x y)
    have h2 := hagree _ (by simp [getLightAt_reads] : (y + 1) + (x + 1) * ((H : Int) + 2) - (H + 2) ∈ getLightAt_reads H x y)
    have h3 := hagree _ (by simp [getLightAt_reads] : (y + 1) + (x + 1) * ((H : Int) + 2) - 1 ∈ getLightAt_reads H x y)
    have h4 := hagree _ (by simp [getLightAt_reads] : (y + 1) + (x + 1) * ((H : Int) + 2) ∈ getLightAt_reads H x y)
    simp only [getLightAt, h1, h2, h3, h4]
  · intro ls ls2 h2
    have h := fun g => getLightForEntity_inside W H g px py hpx0 hpy0 hpxW hpyH
    simp only [smoothedIndex] at h
    rw [h ls2, h ls, h2]

/-- Claim C12 at the far corner vertex `(3, 3)` and the point `(5/2, 5/2)` of a 3x3 map. -/
theorem sampling_indices_in_bounds_witness :
    1 ≤ 3 ∧ 1 ≤ 3 ∧
      (∀ i ∈ getLightAt_reads 3 3 3, 0 ≤ i ∧ i < (((3 : Nat) : Int) + 2) * (((3 : Nat) : Int) + 2)) ∧
      getLightAt_reads 3 3 3 = [18, 19, 23, 24] :=
  ⟨by decide, by decide,
    (sampling_indices_in_bounds 3 3 (by decide) (by decide) 3 3 (by decide) (by decide)
      (by decide) (by decide) (5 / 2) (5 / 2) (by norm_num) (by norm_num) (by norm_num)
      (by norm_num)).1,
    by decide⟩

theorem mul_mat_toMatrix (a b : mat4x4) :
    (mul_mat a b).toMatrix = a.toMatrix * b.toMatrix := by
  ext i j
  fin_cases i <;> fin_cases j <;>
    simp [mat4x4.toMatrix, mul_mat, add_vec4, pow_vec4, Matrix.mul_apply, Fin.sum_univ_succ] <;>
    ring

theorem mul_mat_vec4_toVec (a : mat4x4) (v : vec4) :
    (mul_mat_vec4 a v).toVec = a.toMatrix.mulVec v.toVec := by
  ext i
  fin_cases i <;>
    simp [mat4x4.toMatrix, vec4.toVec, mul_mat_vec4, Matrix.mulVec, Matrix.dotProduct,
      Fin.sum_univ_succ] <;>
    ring

theorem mul_mat_one_left (m : mat4x4) : mul_mat (mat4x4.ofScalar 1) m = m := by
  simp [mul_mat, mat4x4.ofScalar, add_vec4, pow_vec4]

theorem mul_mat_one_right (m : mat4x4) : mul_mat m (mat4x4.ofScalar 1) = m := by
  simp [mul_mat, mat4x4.ofScalar, add_vec4, pow_vec4]

theorem ofScalar_toMatrix_apply (f : ℚ) (i j : Fin 4) :
    (mat4x4.ofScalar f).toMatrix i j = if i = j then f else 0 := by
  fin_cases i <;> fin_cases j <;> rfl

/-- Claim C13: `mul_mat` is the 4x4 matrix product in the column-major convention of
`mul_mat_vec4`: transforming by `mul_mat A B` is transforming by `B` and then by `A`,
`mul_mat_vec4 A v` is the sum of the columns of `A` weighted by the components of `v`,
both are the standard product of the matrices they stand for, and `mul_mat` is
associative. -/
theorem mul_mat_standard_product (A B C : mat4x4) (v : vec4) :
    mul_mat_vec4 (mul_mat A B) v = mul_mat_vec4 A (mul_mat_vec4 B v) ∧
      mul_mat_vec4 A v =
        add_vec4 (add_vec4 (pow_vec4 A.x v.x) (pow_vec4 A.y v.y))
          (add_vec4 (pow_vec4 A.z v.z) (pow_vec4 A.w v.w)) ∧
      (mul_mat A B).toMatrix = A.toMatrix * B.toMatrix ∧
      (mul_mat_vec4 A v).toVec = A.toMatrix.mulVec v.toVec ∧
      mul_mat (mul_mat A B) C = mul_mat A (mul_mat B C) := by
  refine ⟨mul_mat_vec4_mul_mat A B v, ?_, mul_mat_toMatrix A B, mul_mat_vec4_toVec A v,
    mul_mat_assoc A B C⟩
  simp only [mul_mat_vec4, add_vec4, pow_vec4, vec4.mk.injEq]
  refine ⟨?_, ?_, ?_, ?_⟩ <;> ring

/-- Claim C14: the identity `mat4x4(1)` is a left and right unit of `mul_mat`, and
`mat4x4(f)` has `f` on the diagonal and 0 in the twelve other entries. -/
theorem identity_unit_of_mul_mat (M : mat4x4) (f : ℚ) :
    mul_mat (mat4x4.ofScalar 1) M = M ∧ mul_mat M (mat4x4.ofScalar 1) = M ∧
      mat4x4.ofScalar f = ⟨⟨f, 0, 0, 0⟩, ⟨0, f, 0, 0⟩, ⟨0, 0, f, 0⟩, ⟨0, 0, 0, f⟩⟩ ∧
      (∀ i j, (mat4x4.ofScalar f).toMatrix i j = if i = j then f else 0) :=
  ⟨mul_mat_one_left M, mul_mat_one_right M, rfl, ofScalar_toMatrix_apply f⟩

/-- Claim C15: `translate_mat M v` keeps the first three columns of `M`, equals
`mul_mat M (T v)` for the translation matrix `T v`, and does not depend on `v.w`. -/
theorem translate_mat_eq_mul_translation (M : mat4x4) (v : vec4) (w2 : ℚ) :
    (translate_mat M v).x = M.x ∧ (translate_mat M v).y = M.y ∧ (translate_mat M v).z = M.z ∧
      translate_mat M v = mul_mat M (translationMatrix v) ∧
      translate_mat M { v with w := w2 } = translate_mat M v := by
  refine ⟨rfl, rfl, rfl, ?_, rfl⟩
  simp only [translate_mat, mul_mat, translationMatrix, add_vec4, pow_vec4, mat4x4.mk.injEq]
  refine ⟨?_, ?_, ?_, ?_⟩
  · cases M.x; simp
  · cases M.y; simp
  · cases M.z; simp
  · simp only [vec4.mk.injEq]
    refine ⟨?_, ?_, ?_, ?_⟩ <;> ring

theorem rodriguesMatrix_eq (c s : ℚ) (n : vec4) :
    rodriguesMatrix c s n =
      { x := ⟨c + (1 - c) * (n.x * n.x), (1 - c) * (n.y * n.x) + s * n.z,
              (1 - c) * (n.z * n.x) + s * -n.y, 0⟩
        y := ⟨(1 - c) * (n.x * n.y) + s * -n.z, c + (1 - c) * (n.y * n.y),
              (1 - c) * (n.z * n.y) + s * n.x, 0⟩
        z := ⟨(1 - c) * (n.x * n.z) + s * n.y, (1 - c) * (n.y * n.z) + s * -n.x,
              c + (1 - c) * (n.z * n.z), 0⟩
        w := ⟨0, 0, 0, 1⟩ } := by
  simp [rodriguesMatrix, rodrigues3, crossMatrix, Matrix.vecMulVec, Matrix.one_apply]

theorem rotate_mat_eq (cos sin sqrtf : ℚ → ℚ) (PI : ℚ) (m : mat4x4) (angle : ℚ) (v : vec4) :
    rotate_mat cos sin sqrtf PI m angle v =
      mul_mat m (rodriguesMatrix (cos (angle / 180 * PI)) (sin (angle / 180 * PI))
        (normal_vec4 sqrtf v)) := by
  rw [rodriguesMatrix_eq]
  simp only [rotate_mat, mul_mat, add_vec4, pow_vec4, mat4x4.ofScalar, mat4x4.mk.injEq,
    vec4.mk.injEq]
  refine ⟨⟨?_, ?_, ?_, ?_⟩, ⟨?_, ?_, ?_, ?_⟩, ⟨?_, ?_, ?_, ?_⟩, ?_⟩
  iterate 12 ring
  simp

theorem normal_vec4_unit (sqrtf : ℚ → ℚ) (v : vec4) (hw : v.w = 0)
    (hlen : length_vec4 sqrtf v ≠ 0)
    (hsq : length_vec4 sqrtf v * length_vec4 sqrtf v =
      v.x * v.x + v.y * v.y + v.z * v.z + v.w * v.w) :
    (normal_vec4 sqrtf v).x * (normal_vec4 sqrtf v).x +
      (normal_vec4 sqrtf v).y * (normal_vec4 sqrtf v).y +
      (normal_vec4 sqrtf v).z * (normal_vec4 sqrtf v).z = 1 ∧ (normal_vec4 sqrtf v).w = 0 := by
  simp only [normal_vec4]
  rw [hw] at hsq ⊢
  constructor
  · field_simp
    linarith
  · simp

theorem rotate_mat_trivial (cos sin sqrtf : ℚ → ℚ) (PI : ℚ) (m : mat4x4) (angle : ℚ) (v : vec4)
    (hc : cos (angle / 180 * PI) = 1) (hs : sin (angle / 180 * PI) = 0) :
    rotate_mat cos sin sqrtf PI m angle v = m := by
  simp only [rotate_mat, hc, hs, add_vec4, pow_vec4, mat4x4.ofScalar]
  cases m with
  | mk mx my mz mw =>
    cases mx; cases my; cases mz
    simp

/-- Claim C16: for an axis `v` with `v.w = 0` and non-zero length, `rotate_mat m angle v`
is `mul_mat m R`, where `R` is the Rodrigues matrix `c*I + (1-c)*n*n^T + s*[n]x` of the
normalized axis `n` (a unit vector), `c` and `s` the cosine and sine of the angle in
radians, extended with the fourth row and column `(0, 0, 0, 1)`; the fourth column of the
result is the fourth column of `m`. -/
theorem rotate_mat_eq_mul_rodrigues (cos sin sqrtf : ℚ → ℚ) (PI : ℚ) (m : mat4x4) (angle : ℚ)
    (v : vec4) (hw : v.w = 0) (hlen : length_vec4 sqrtf v ≠ 0)
    (hsq : length_vec4 sqrtf v * length_vec4 sqrtf v =
      v.x * v.x + v.y * v.y + v.z * v.z + v.w * v.w) :
    rotate_mat cos sin sqrtf PI m angle v =
        mul_mat m (rodriguesMatrix (cos (angle / 180 * PI)) (sin (angle / 180 * PI))
          (normal_vec4 sqrtf v)) ∧
      (normal_vec4 sqrtf v).x * (normal_vec4 sqrtf v).x +
        (normal_vec4 sqrtf v).y * (normal_vec4 sqrtf v).y +
        (normal_vec4 sqrtf v).z * (normal_vec4 sqrtf v).z = 1 ∧
      (rotate_mat cos sin sqrtf PI m angle v).w = m.w :=
  ⟨rotate_mat_eq cos sin sqrtf PI m angle v, (normal_vec4_unit sqrtf v hw hlen hsq).1, rfl⟩

/-- Claim C16 at the axis `(3, 4, 0, 0)` of length 5, with cosine 3/5 and sine 4/5. -/
theorem rotate_mat_eq_mul_rodrigues_witness :
    (⟨3, 4, 0, 0⟩ : vec4).w = 0 ∧ length_vec4 (fun _ => 5) ⟨3, 4, 0, 0⟩ ≠ 0 ∧
      rotate_mat (fun _ => 3 / 5) (fun _ => 4 / 5) (fun _ => 5) (22 / 7) exampleMatrix 90
          ⟨3, 4, 0, 0⟩ =
        mul_mat exampleMatrix (rodriguesMatrix (3 / 5) (4 / 5) (normal_vec4 (fun _ => 5) ⟨3, 4, 0, 0⟩)) :=
  ⟨rfl, by norm_num [length_vec4],
    (rotate_mat_eq_mul_rodrigues (fun _ => 3 / 5) (fun _ => 4 / 5) (fun _ => 5) (22 / 7)
      exampleMatrix 90 ⟨3, 4, 0, 0⟩ rfl (by norm_num [length_vec4])
      (by norm_num [length_vec4])).1⟩

/-- Claim C17: taking the cosine of a full turn as 1 and its sine as 0, `rotate_mat` of the
identity by 360 degrees about any axis of non-zero length, the three principal axes among
them, is the identity; and taking the cosine of 0 as 1 and its sine as 0, `rotate_mat m 0`
is `m` for every `m`. -/
theorem rotate_mat_full_turn (cos sin sqrtf : ℚ → ℚ) (PI : ℚ) (m : mat4x4) (v : vec4)
    (_hlen : length_vec4 sqrtf v ≠ 0) (_hone : sqrtf 1 ≠ 0)
    (hc360 : cos (360 / 180 * PI) = 1) (hs360 : sin (360 / 180 * PI) = 0)
    (hc0 : cos (0 / 180 * PI) = 1) (hs0 : sin (0 / 180 * PI) = 0) :
    rotate_mat cos sin sqrtf PI (mat4x4.ofScalar 1) 360 v = mat4x4.ofScalar 1 ∧
      rotate_mat cos sin sqrtf PI (mat4x4.ofScalar 1) 360 ⟨1, 0, 0, 0⟩ = mat4x4.ofScalar 1 ∧
      rotate_mat cos sin sqrtf PI (mat4x4.ofScalar 1) 360 ⟨0, 1, 0, 0⟩ = mat4x4.ofScalar 1 ∧
      rotate_mat cos sin sqrtf PI (mat4x4.ofScalar 1) 360 ⟨0, 0, 1, 0⟩ = mat4x4.ofScalar 1 ∧
      rotate_mat cos sin sqrtf PI m 0 v = m :=
  ⟨rotate_mat_trivial cos sin sqrtf PI _ 360 v hc360 hs360,
    rotate_mat_trivial cos sin sqrtf PI _ 360 _ hc360 hs360,
    rotate_mat_trivial cos sin sqrtf PI _ 360 _ hc360 hs360,
    rotate_mat_trivial cos sin sqrtf PI _ 360 _ hc360 hs360,
    rotate_mat_trivial cos sin sqrtf PI m 0 v hc0 hs0⟩

/-- Claim C17 at the axis `(0, 3, 4, 0)` and `exampleMatrix`, with a cosine that is 1 and a
sine that is 0 at 0 and at the full turn. -/
theorem rotate_mat_full_turn_witness :
    length_vec4 (fun q => if q = 25 then 5 else 1) ⟨0, 3, 4, 0⟩ ≠ 0 ∧
      rotate_mat (fun a => if a = 0 ∨ a = 2 * (22 / 7) then 1 else 3 / 5)
          (fun a => if a = 0 ∨ a = 2 * (22 / 7) then 0 else 4 / 5)
          (fun q => if q = 25 then 5 else 1) (22 / 7) (mat4x4.ofScalar 1) 360 ⟨0, 3, 4, 0⟩ =
        mat4x4.ofScalar 1 ∧
      rotate_mat (fun a => if a = 0 ∨ a = 2 * (22 / 7) then 1 else 3 / 5)
          (fun a => if a = 0 ∨ a = 2 * (22 / 7) then 0 else 4 / 5)
          (fun q => if q = 25 then 5 else 1) (22 / 7) exampleMatrix 0 ⟨0, 3, 4, 0⟩ =
        exampleMatrix :=
  have h := rotate_mat_full_turn (fun a => if a = 0 ∨ a = 2 * (22 / 7) then 1 else 3 / 5)
    (fun a => if a = 0 ∨ a = 2 * (22 / 7) then 0 else 4 / 5)
    (fun q => if q = 25 then 5 else 1) (22 / 7) exampleMatrix ⟨0, 3, 4, 0⟩
    (by norm_num [length_vec4]) (by norm_num) (by norm_num) (by norm_num) (by norm_num)
    (by norm_num)
  ⟨by norm_num [length_vec4], h.1, h.2.2.2.2⟩

theorem perspective_eq (tanf : ℚ → ℚ) (PI fov aspect near far : ℚ) :
    perspective tanf PI fov aspect near far =
      { x := ⟨1 / (tanf (fov / 360 * PI) * aspect), 0, 0, 0⟩
        y := ⟨0, 1 / tanf (fov / 360 * PI), 0, 0⟩
        z := ⟨0, 0, -(far + near) / (far - near), -1⟩
        w := ⟨0, 0, -(2 * far * near) / (far - near), 0⟩ } :=
  rfl

/-- Claim C18: for `far ≠ near`, with `h = tan(fov / 360 * PI)` and `w = h * aspect`, the
matrix `perspective` returns has `x.x = 1/w`, `y.y = 1/h`, `z.z = -(far+near)/(far-near)`,
`w.z = -2*far*near/(far-near)`, one further entry equal to -1, and 0 in the eleven
remaining entries, `w.w` among them. -/
theorem perspective_entries (tanf : ℚ → ℚ) (PI fov aspect near far : ℚ) (_hfn : far ≠ near) :
    (perspective tanf PI fov aspect near far).x.x = 1 / (tanf (fov / 360 * PI) * aspect) ∧
      (perspective tanf PI fov aspect near far).y.y = 1 / tanf (fov / 360 * PI) ∧
      (perspective tanf PI fov aspect near far).z.z = -(far + near) / (far - near) ∧
      (perspective tanf PI fov aspect near far).w.z = -2 * far * near / (far - near) ∧
      (perspective tanf PI fov aspect near far).z.w = -1 ∧
      (perspective tanf PI fov aspect near far).x.y = 0 ∧
      (perspective tanf PI fov aspect near far).x.z = 0 ∧
      (perspective tanf PI fov aspect near far).x.w = 0 ∧
      (perspective tanf PI fov aspect near far).y.x = 0 ∧
      (perspective tanf PI fov aspect near far).y.z = 0 ∧
      (perspective tanf PI fov aspect near far).y.w = 0 ∧
      (perspective tanf PI fov aspect near far).z.x = 0 ∧
      (perspective tanf PI fov aspect near far).z.y = 0 ∧
      (perspective tanf PI fov aspect near far).w.x = 0 ∧
      (perspective tanf PI fov aspect near far).w.y = 0 ∧
      (perspective tanf PI fov aspect near far).w.w = 0 := by
  rw [perspective_eq]
  refine ⟨rfl, rfl, rfl, ?_, rfl, rfl, rfl, rfl, rfl, rfl, rfl, rfl, rfl, rfl, rfl, rfl⟩
  show -(2 * far * near) / (far - near) = -2 * far * near / (far - near)
  ring

/-- Claim C18 at field of view 90, aspect 4/3, near 1, far 100. -/
theorem perspective_entries_witness :
    (100 : ℚ) ≠ 1 ∧
      (perspective (fun _ => 1) (22 / 7) 90 (4 / 3) 1 100).w.z = -2 * 100 * 1 / (100 - 1) ∧
      (perspective (fun _ => 1) (22 / 7) 90 (4 / 3) 1 100).w.w = 0 :=
  have h := perspective_entries (fun _ => 1) (22 / 7) 90 (4 / 3) 1 100 (by norm_num)
  ⟨by norm_num, h.2.2.2.1, h.2.2.2.2.2.2.2.2.2.2.2.2.2.2.2⟩

/-- Claim C19, as stated, fails: for near 1 and far 100 the third row of the `w` column of
the perspective matrix is -200/99, not -1. -/
theorem perspective_divide_driver_counterexample :
    (perspective (fun _ => 1) (22 / 7) 90 (4 / 3) 1 100).w.z ≠ -1 := by
  rw [perspective_eq]
  norm_num

/-- Claim C19, amended: in the matrix `perspective` returns, the entry -1 that drives the
perspective divide is the fourth row of the `z` column (the `w` component of column `z`):
it makes the `w` component of a transformed point equal to minus the `z` component of
the point. The third row of the `w` column is `-(2*far*near)/(far-near)`. -/
theorem perspective_divide_driver (tanf : ℚ → ℚ) (PI fov aspect near far : ℚ) (p : vec4) :
    (perspective tanf PI fov aspect near far).z.w = -1 ∧
      (perspective tanf PI fov aspect near far).w.z = -(2 * far * near) / (far - near) ∧
      (mul_mat_vec4 (perspective tanf PI fov aspect near far) p).w = -p.z := by
  rw [perspective_eq]
  refine ⟨rfl, rfl, ?_⟩
  simp [mul_mat_vec4]

/-- Claim C20: `project` computes, with `c = projview · (model · (p.x, p.y, p.z, 1))` and
the viewport `(X, Y, W, H)`, the point `x = (c.x/c.w*0.5 + 0.5)*W + X`,
`y = (c.y/c.w*0.5 + 0.5)*H + Y`, `z = c.z/c.w*0.5 + 0.5`, `w = c.w/c.w*0.5 + 0.5`; the `w`
component of the input is not used. -/
theorem project_formula (p : vec4) (model projview : mat4x4) (window : vec4) (w2 : ℚ) :
    project p model projview window =
        { x := ((mul_mat_vec4 projview (mul_mat_vec4 model ⟨p.x, p.y, p.z, 1⟩)).x /
              (mul_mat_vec4 projview (mul_mat_vec4 model ⟨p.x, p.y, p.z, 1⟩)).w * (1 / 2) +
              1 / 2) * window.z + window.x
          y := ((mul_mat_vec4 projview (mul_mat_vec4 model ⟨p.x, p.y, p.z, 1⟩)).y /
              (mul_mat_vec4 projview (mul_mat_vec4 model ⟨p.x, p.y, p.z, 1⟩)).w * (1 / 2) +
              1 / 2) * window.w + window.y
          z := (mul_mat_vec4 projview (mul_mat_vec4 model ⟨p.x, p.y, p.z, 1⟩)).z /
              (mul_mat_vec4 projview (mul_mat_vec4 model ⟨p.x, p.y, p.z, 1⟩)).w * (1 / 2) + 1 / 2
          w := (mul_mat_vec4 projview (mul_mat_vec4 model ⟨p.x, p.y, p.z, 1⟩)).w /
              (mul_mat_vec4 projview (mul_mat_vec4 model ⟨p.x, p.y, p.z, 1⟩)).w * (1 / 2) +
              1 / 2 } ∧
      project { p with w := w2 } model projview window = project p model projview window :=
  ⟨project_eq p model projview window, rfl⟩

/-- Claim C21: `unproject` gives the same result for any two model matrices, while
`project` does depend on its model matrix. -/
theorem unproject_ignores_model (s : vec4) (m1 m2 projview : mat4x4) (window : vec4)
    (stack : Nat → ℚ) :
    unproject s m1 projview window stack = unproject s m2 projview window stack ∧
      project ⟨1, 0, 0, 1⟩ (mat4x4.ofScalar 1) (mat4x4.ofScalar 1) ⟨0, 0, 800, 600⟩ ≠
        project ⟨1, 0, 0, 1⟩ (translationMatrix ⟨1, 0, 0, 0⟩) (mat4x4.ofScalar 1)
          ⟨0, 0, 800, 600⟩ := by
  refine ⟨rfl, ?_⟩
  rw [project_eq, project_eq]
  norm_num [mul_mat_vec4, mat4x4.ofScalar, translationMatrix]

/-- Claim C22, the code at a singular `projview` (the zero matrix): `invertMatrix4x4` returns `false`
and leaves the array as it was, and `unproject` goes on to return a point computed from
that array: two contents of the uninitialised array give two different points. -/
theorem unproject_singular_uses_stack :
    (invertMatrix4x4 (mat4x4.ofScalar 0) (fun i => if i % 5 = 0 then 1 else 0)).1 = false ∧
      unproject ⟨400, 300, 1, 1⟩ (mat4x4.ofScalar 1) (mat4x4.ofScalar 0) ⟨0, 0, 800, 600⟩
        (fun i => if i % 5 = 0 then 1 else 0) = ⟨0, 0, 1, 1⟩ ∧
      unproject ⟨400, 300, 1, 1⟩ (mat4x4.ofScalar 1) (mat4x4.ofScalar 0) ⟨0, 0, 800, 600⟩
        (fun i => if i % 5 = 0 ∨ i = 12 then 1 else 0) = ⟨1, 0, 1, 1⟩ := by
  have hd : invertMatrix4x4_det (mat4x4.ofScalar 0) = 0 := by
    simp [invertMatrix4x4_det, invertMatrix4x4_inv, mat4x4.ofScalar]
  have h2 : ∀ out : Nat → ℚ, (invertMatrix4x4 (mat4x4.ofScalar 0) out).2 = out := by
    intro out
    simp [invertMatrix4x4, hd]
  refine ⟨by simp [invertMatrix4x4, hd], ?_, ?_⟩
  · rw [unproject_eq, h2]
    norm_num [mat_from_array, mul_mat_vec4, div_vec4, sub_vec4, vec4.ofScalar]
  · rw [unproject_eq, h2]
    norm_num [mat_from_array, mul_mat_vec4, div_vec4, sub_vec4, vec4.ofScalar]

theorem project_unproject (s : vec4) (projview : mat4x4) (window : vec4) (stack : Nat → ℚ)
    (hdet : projview.det ≠ 0) (hw : window.z ≠ 0) (hh : window.w ≠ 0) (hs : s.w = 1)
    (hu : (unproject s (mat4x4.ofScalar 1) projview window stack).w = 1) :
    project (unproject s (mat4x4.ofScalar 1) projview window stack) (mat4x4.ofScalar 1)
      projview window = s := by
  rw [unproject_eq] at hu ⊢
  generalize hndc : div_vec4 (sub_vec4 ⟨(s.x - window.x) / window.z, (s.y - window.y) / window.w,
    s.z, s.w⟩ (vec4.ofScalar (1 / 2))) (vec4.ofScalar (1 / 2)) = ndc at hu ⊢
  generalize hq : mul_mat_vec4 (mat_from_array (invertMatrix4x4 projview stack).2) ndc = q
    at hu ⊢
  have hqw : q.w ≠ 0 := by
    intro h0
    simp [div_vec4, vec4.ofScalar, h0] at hu
  have hpq : mul_mat_vec4 projview q = ndc := by
    rw [← hq, ← mul_mat_vec4_mul_mat, mul_mat_invert_right projview stack hdet,
      mul_mat_vec4_one]
  have hin : (⟨(div_vec4 q (vec4.ofScalar q.w)).x, (div_vec4 q (vec4.ofScalar q.w)).y,
      (div_vec4 q (vec4.ofScalar q.w)).z, 1⟩ : vec4) = pow_vec4 q (1 / q.w) := by
    simp only [div_vec4, vec4.ofScalar, pow_vec4, vec4.mk.injEq]
    refine ⟨?_, ?_, ?_, ?_⟩ <;> field_simp
  rw [project_eq, mul_mat_vec4_one, hin, mul_mat_vec4_pow, hpq, ← hndc]
  cases s with
  | mk sx sy sz sw =>
    simp only at hs
    subst hs
    simp only [pow_vec4, div_vec4, sub_vec4, vec4.ofScalar, vec4.mk.injEq]
    refine ⟨?_, ?_, ?_, ?_⟩ <;> field_simp <;> ring


theorem examplePitchedProjview_eq :
    examplePitchedProjview =
      ⟨⟨3 / 4, 0, 0, 0⟩, ⟨0, 4 / 5, 101 / 165, 3 / 5⟩, ⟨0, 3 / 5, -404 / 495, -4 / 5⟩,
        ⟨0, -6, 608 / 99, 8⟩⟩ := by
  norm_num [examplePitchedProjview, perspective, rotate_mat, normal_vec4, length_vec4,
    translate_mat, mul_mat, mat4x4.ofScalar, add_vec4, pow_vec4]

theorem examplePitchedProjview_det : examplePitchedProjview.det ≠ 0 := by
  rw [← invertMatrix4x4_det_eq, examplePitchedProjview_eq]
  norm_num [invertMatrix4x4_det, invertMatrix4x4_inv]

/-- The clamp block for a live target, unfolded. -/
theorem glWorldOffsetY_live (screenDistance : ℚ) (sprite_h sprite_w enemy_hp : Int)
    (glWorldOffsetY : ℚ) (projMat4 modelMat4 : mat4x4) (window : vec4) (stack : Nat → ℚ)
    (hlive : enemy_hp > 0) :
    glDrawEnemyBarSprite_glWorldOffsetY screenDistance sprite_h sprite_w enemy_hp
        glWorldOffsetY projMat4 modelMat4 window stack =
      if (project (glDrawEnemyBarSprite_worldCoords0 screenDistance sprite_h sprite_w)
            (mat4x4.ofScalar 1) (mul_mat projMat4 modelMat4) window).y ≥ window.w + window.y ∧
          (mul_mat projMat4 modelMat4).w.z ≥ 0 then
        (glDrawEnemyBarSprite_worldCoords0 screenDistance sprite_h sprite_w).y -
          (unproject
            { project (glDrawEnemyBarSprite_worldCoords0 screenDistance sprite_h sprite_w)
                (mat4x4.ofScalar 1) (mul_mat projMat4 modelMat4) window with
              y := window.y + window.w }
            (mat4x4.ofScalar 1) (mul_mat projMat4 modelMat4) window stack).y
      else 0 := by
  unfold glDrawEnemyBarSprite_glWorldOffsetY
  simp only [if_pos hlive]
  by_cases htrig : (project (glDrawEnemyBarSprite_worldCoords0 screenDistance sprite_h sprite_w)
      (mat4x4.ofScalar 1) (mul_mat projMat4 modelMat4) window).y ≥ window.w + window.y ∧
      (mul_mat projMat4 modelMat4).w.z ≥ 0
  · have h1 := htrig
    simp only [glDrawEnemyBarSprite_worldCoords0] at h1
    rw [if_pos htrig, if_pos h1]
    have habs : ∀ a b : ℚ, a ≥ b → a - |a - b| = b := by
      intro a b hab
      rw [abs_of_nonneg (sub_nonneg.2 hab)]
      ring
    rw [habs _ _ h1.1, add_comm window.w window.y]
    rfl
  · have h1 := htrig
    simp only [glDrawEnemyBarSprite_worldCoords0] at h1
    rw [if_neg htrig, if_neg h1]
    simp


theorem examplePitched_project (stack : Nat → ℚ) :
    project (glDrawEnemyBarSprite_worldCoords0 0 80 10) (mat4x4.ofScalar 1)
        (mul_mat examplePitchedProjview (mat4x4.ofScalar 1)) ⟨0, 0, 800, 600⟩ =
      ⟨400, 4275 / 7, 75 / 77, 1⟩ ∧
    unproject ⟨400, 600, 75 / 77, 1⟩ (mat4x4.ofScalar 1)
        (mul_mat examplePitchedProjview (mat4x4.ofScalar 1)) ⟨0, 0, 800, 600⟩ stack =
      ⟨0, 196 / 5, 22 / 5, 1⟩ := by
  have hone : mul_mat examplePitchedProjview (mat4x4.ofScalar 1) = examplePitchedProjview := by
    simp [mul_mat, mat4x4.ofScalar, add_vec4, pow_vec4]
  rw [hone]
  constructor
  · rw [project_eq, mul_mat_vec4_one, examplePitchedProjview_eq]
    norm_num [glDrawEnemyBarSprite_worldCoords0, mul_mat_vec4, Int.tdiv]
  · have hp : project ⟨0, 196 / 5, 22 / 5, 1⟩ (mat4x4.ofScalar 1) examplePitchedProjview
        ⟨0, 0, 800, 600⟩ = ⟨400, 600, 75 / 77, 1⟩ := by
      rw [project_eq, mul_mat_vec4_one, examplePitchedProjview_eq]
      norm_num [mul_mat_vec4]
    have hr := roundtrip_aux ⟨0, 196 / 5, 22 / 5, 1⟩ examplePitchedProjview ⟨0, 0, 800, 600⟩
      stack examplePitchedProjview_det (by norm_num) (by norm_num)
      (by rw [examplePitchedProjview_eq]; norm_num [mul_mat_vec4])
    rw [hp] at hr
    exact hr

theorem examplePitched_offset (stack : Nat → ℚ) :
    glDrawEnemyBarSprite_glWorldOffsetY 0 80 10 1 0 examplePitchedProjview (mat4x4.ofScalar 1)
      ⟨0, 0, 800, 600⟩ stack = 4 / 5 := by
  have hw : (mul_mat examplePitchedProjview (mat4x4.ofScalar 1)).w.z = 608 / 99 := by
    rw [examplePitchedProjview_eq]
    norm_num [mul_mat, mat4x4.ofScalar, add_vec4, pow_vec4]
  rw [glWorldOffsetY_live _ _ _ _ _ _ _ _ _ (by decide), (examplePitched_project stack).1, hw,
    if_pos (by norm_num)]
  have h2 := (examplePitched_project stack).2
  simp only [] at h2 ⊢
  norm_num
  rw [h2]
  norm_num [glDrawEnemyBarSprite_worldCoords0, Int.tdiv]


/-- Claim C23: for a live target, with `s` the projection of the top-left corner and the
bound `window.y + window.w` (the viewport's `y` plus its height): if `s.y` reaches the bound
and `PVM.w.z ≥ 0`, subtracting the pixel offset makes the screen `y` equal to the bound, and
the stored offset is `corner.y` minus the `y` of `unproject` at `s` with its `y` replaced by
the bound; in every other case the stored offset is 0. -/
theorem screen_clamp_offset (screenDistance : ℚ) (sprite_h sprite_w enemy_hp : Int)
    (glWorldOffsetY : ℚ) (projMat4 modelMat4 : mat4x4) (window : vec4) (stack : Nat → ℚ)
    (hlive : enemy_hp > 0) :
    ((project (glDrawEnemyBarSprite_worldCoords0 screenDistance sprite_h sprite_w)
            (mat4x4.ofScalar 1) (mul_mat projMat4 modelMat4) window).y ≥ window.w + window.y ∧
          (mul_mat projMat4 modelMat4).w.z ≥ 0 →
        (project (glDrawEnemyBarSprite_worldCoords0 screenDistance sprite_h sprite_w)
              (mat4x4.ofScalar 1) (mul_mat projMat4 modelMat4) window).y -
            |(project (glDrawEnemyBarSprite_worldCoords0 screenDistance sprite_h sprite_w)
              (mat4x4.ofScalar 1) (mul_mat projMat4 modelMat4) window).y -
              (window.w + window.y)| = window.y + window.w ∧
          glDrawEnemyBarSprite_glWorldOffsetY screenDistance sprite_h sprite_w enemy_hp
              glWorldOffsetY projMat4 modelMat4 window stack =
            (glDrawEnemyBarSprite_worldCoords0 screenDistance sprite_h sprite_w).y -
              (unproject
                { project (glDrawEnemyBarSprite_worldCoords0 screenDistance sprite_h sprite_w)
                    (mat4x4.ofScalar 1) (mul_mat projMat4 modelMat4) window with
                  y := window.y + window.w }
                (mat4x4.ofScalar 1) (mul_mat projMat4 modelMat4) window stack).y) ∧
      (¬ ((project (glDrawEnemyBarSprite_worldCoords0 screenDistance sprite_h sprite_w)
            (mat4x4.ofScalar 1) (mul_mat projMat4 modelMat4) window).y ≥ window.w + window.y ∧
          (mul_mat projMat4 modelMat4).w.z ≥ 0) →
        glDrawEnemyBarSprite_glWorldOffsetY screenDistance sprite_h sprite_w enemy_hp
          glWorldOffsetY projMat4 modelMat4 window stack = 0) := by
  rw [glWorldOffsetY_live _ _ _ _ _ _ _ _ _ hlive]
  constructor
  · intro htrig
    rw [if_pos htrig, abs_of_nonneg (sub_nonneg.2 htrig.1)]
    exact ⟨by ring, rfl⟩
  · intro hno
    rw [if_neg hno]

/-- Claim C23 for a target with 1 hit point, a sprite of 10 by 80, the pitched view
`examplePitchedProjview` and the viewport `(0, 0, 800, 600)`: the corner projects to
`y = 4275/7`, above the bound 600, and the stored offset is 4/5. -/
theorem screen_clamp_offset_witness :
    (1 : Int) > 0 ∧
      glDrawEnemyBarSprite_glWorldOffsetY 0 80 10 1 7 examplePitchedProjview (mat4x4.ofScalar 1)
        ⟨0, 0, 800, 600⟩ (fun _ => 0) =
      (glDrawEnemyBarSprite_worldCoords0 0 80 10).y -
        (unproject
          { project (glDrawEnemyBarSprite_worldCoords0 0 80 10) (mat4x4.ofScalar 1)
              (mul_mat examplePitchedProjview (mat4x4.ofScalar 1)) ⟨0, 0, 800, 600⟩ with
            y := (⟨0, 0, 800, 600⟩ : vec4).y + (⟨0, 0, 800, 600⟩ : vec4).w }
          (mat4x4.ofScalar 1) (mul_mat examplePitchedProjview (mat4x4.ofScalar 1))
          ⟨0, 0, 800, 600⟩ (fun _ => 0)).y :=
  ⟨by decide,
    ((screen_clamp_offset 0 80 10 1 7 examplePitchedProjview (mat4x4.ofScalar 1)
      ⟨0, 0, 800, 600⟩ (fun _ => 0) (by decide)).1
      (by
        rw [(examplePitched_project (fun _ => 0)).1, examplePitchedProjview_eq]
        norm_num [mul_mat, mat4x4.ofScalar, add_vec4, pow_vec4])).2⟩

/-- Claim C24, as stated, fails: with the pitched view `examplePitchedProjview` (non-zero
determinant), the viewport `(0, 0, 800, 600)` and the corner `(0, 40, 5)`, the correction
triggers and the offset is 4/5, but the corner displaced by the offset in `y` only projects
to the screen `y = 104775/172`, still above the bound 600. -/
theorem screen_clamp_keeps_visible_counterexample :
    (mul_mat examplePitchedProjview (mat4x4.ofScalar 1)).det ≠ 0 ∧
      (project (glDrawEnemyBarSprite_worldCoords0 0 80 10) (mat4x4.ofScalar 1)
          (mul_mat examplePitchedProjview (mat4x4.ofScalar 1)) ⟨0, 0, 800, 600⟩).y ≥
        (⟨0, 0, 800, 600⟩ : vec4).w + (⟨0, 0, 800, 600⟩ : vec4).y ∧
      (mul_mat examplePitchedProjview (mat4x4.ofScalar 1)).w.z ≥ 0 ∧
      (project
          ⟨(glDrawEnemyBarSprite_worldCoords0 0 80 10).x,
            (glDrawEnemyBarSprite_worldCoords0 0 80 10).y -
              glDrawEnemyBarSprite_glWorldOffsetY 0 80 10 1 0 examplePitchedProjview
                (mat4x4.ofScalar 1) ⟨0, 0, 800, 600⟩ (fun _ => 0),
            (glDrawEnemyBarSprite_worldCoords0 0 80 10).z, 1⟩
          (mat4x4.ofScalar 1) (mul_mat examplePitchedProjview (mat4x4.ofScalar 1))
          ⟨0, 0, 800, 600⟩).y >
        (⟨0, 0, 800, 600⟩ : vec4).y + (⟨0, 0, 800, 600⟩ : vec4).w := by
  have hone : mul_mat examplePitchedProjview (mat4x4.ofScalar 1) = examplePitchedProjview := by
    simp [mul_mat, mat4x4.ofScalar, add_vec4, pow_vec4]
  refine ⟨by rw [hone]; exact examplePitchedProjview_det, ?_, ?_, ?_⟩
  · rw [(examplePitched_project (fun _ => 0)).1]
    norm_num
  · rw [hone, examplePitchedProjview_eq]
    norm_num
  · rw [examplePitched_offset, hone, project_eq, mul_mat_vec4_one, examplePitchedProjview_eq]
    norm_num [glDrawEnemyBarSprite_worldCoords0, mul_mat_vec4, Int.tdiv]

/-- Claim C24, amended: when the correction triggers for a live target, with a `PVM` of
non-zero determinant, a viewport of non-zero width and height and a non-zero clip `w` of the
corner, and the point `unproject` returns differs from the corner in `y` only (same `x`
and `z`, `w = 1`), the corner displaced by the offset in world `y` only projects to a screen
`y` equal to the bound `window.y + window.w`. -/
theorem screen_clamp_keeps_visible (screenDistance : ℚ) (sprite_h sprite_w enemy_hp : Int)
    (glWorldOffsetY : ℚ) (projMat4 modelMat4 : mat4x4) (window : vec4) (stack : Nat → ℚ)
    (hlive : enemy_hp > 0) (hdet : (mul_mat projMat4 modelMat4).det ≠ 0)
    (hw : window.z ≠ 0) (hh : window.w ≠ 0)
    (htrig : (project (glDrawEnemyBarSprite_worldCoords0 screenDistance sprite_h sprite_w)
        (mat4x4.ofScalar 1) (mul_mat projMat4 modelMat4) window).y ≥ window.w + window.y ∧
      (mul_mat projMat4 modelMat4).w.z ≥ 0)
    (hcw : (mul_mat_vec4 (mul_mat projMat4 modelMat4)
      (glDrawEnemyBarSprite_worldCoords0 screenDistance sprite_h sprite_w)).w ≠ 0)
    (hsame :
      (unproject
          { project (glDrawEnemyBarSprite_worldCoords0 screenDistance sprite_h sprite_w)
              (mat4x4.ofScalar 1) (mul_mat projMat4 modelMat4) window with
            y := window.y + window.w }
          (mat4x4.ofScalar 1) (mul_mat projMat4 modelMat4) window stack).x =
        (glDrawEnemyBarSprite_worldCoords0 screenDistance sprite_h sprite_w).x ∧
      (unproject
          { project (glDrawEnemyBarSprite_worldCoords0 screenDistance sprite_h sprite_w)
              (mat4x4.ofScalar 1) (mul_mat projMat4 modelMat4) window with
            y := window.y + window.w }
          (mat4x4.ofScalar 1) (mul_mat projMat4 modelMat4) window stack).z =
        (glDrawEnemyBarSprite_worldCoords0 screenDistance sprite_h sprite_w).z ∧
      (unproject
          { project (glDrawEnemyBarSprite_worldCoords0 screenDistance sprite_h sprite_w)
              (mat4x4.ofScalar 1) (mul_mat projMat4 modelMat4) window with
            y := window.y + window.w }
          (mat4x4.ofScalar 1) (mul_mat projMat4 modelMat4) window stack).w = 1) :
    (project
        ⟨(glDrawEnemyBarSprite_worldCoords0 screenDistance sprite_h sprite_w).x,
          (glDrawEnemyBarSprite_worldCoords0 screenDistance sprite_h sprite_w).y -
            glDrawEnemyBarSprite_glWorldOffsetY screenDistance sprite_h sprite_w enemy_hp
              glWorldOffsetY projMat4 modelMat4 window stack,
          (glDrawEnemyBarSprite_worldCoords0 screenDistance sprite_h sprite_w).z, 1⟩
        (mat4x4.ofScalar 1) (mul_mat projMat4 modelMat4) window).y = window.y + window.w := by
  rw [glWorldOffsetY_live _ _ _ _ _ _ _ _ _ hlive, if_pos htrig]
  generalize hadj : ({ project (glDrawEnemyBarSprite_worldCoords0 screenDistance sprite_h
      sprite_w) (mat4x4.ofScalar 1) (mul_mat projMat4 modelMat4) window with
      y := window.y + window.w } : vec4) = adj at hsame ⊢
  have hadjw : adj.w = 1 := by
    rw [← hadj, project_eq, mul_mat_vec4_one]
    have e : (⟨(glDrawEnemyBarSprite_worldCoords0 screenDistance sprite_h sprite_w).x,
        (glDrawEnemyBarSprite_worldCoords0 screenDistance sprite_h sprite_w).y,
        (glDrawEnemyBarSprite_worldCoords0 screenDistance sprite_h sprite_w).z, 1⟩ : vec4) =
        glDrawEnemyBarSprite_worldCoords0 screenDistance sprite_h sprite_w := rfl
    rw [e]
    simp only []
    field_simp
  have hadjy : adj.y = window.y + window.w := by rw [← hadj]
  have hrt := project_unproject adj (mul_mat projMat4 modelMat4) window stack hdet hw hh hadjw
    hsame.2.2
  have hpt : (⟨(glDrawEnemyBarSprite_worldCoords0 screenDistance sprite_h sprite_w).x,
      (glDrawEnemyBarSprite_worldCoords0 screenDistance sprite_h sprite_w).y -
        ((glDrawEnemyBarSprite_worldCoords0 screenDistance sprite_h sprite_w).y -
          (unproject adj (mat4x4.ofScalar 1) (mul_mat projMat4 modelMat4) window stack).y),
      (glDrawEnemyBarSprite_worldCoords0 screenDistance sprite_h sprite_w).z, 1⟩ : vec4) =
      unproject adj (mat4x4.ofScalar 1) (mul_mat projMat4 modelMat4) window stack := by
    rw [← hsame.1, ← hsame.2.1]
    cases hu : unproject adj (mat4x4.ofScalar 1) (mul_mat projMat4 modelMat4) window stack with
    | mk ux uy uz uw =>
      have : uw = 1 := by rw [hu] at hsame; exact hsame.2.2
      subst this
      simp
  rw [hpt, hrt, hadjy]


theorem exampleProjview_clamp (stack : Nat → ℚ) :
    mul_mat exampleProjview (mat4x4.ofScalar 1) = exampleProjview ∧
    project (glDrawEnemyBarSprite_worldCoords0 0 80 10) (mat4x4.ofScalar 1)
        exampleProjview ⟨0, 0, 800, 600⟩ = ⟨400, 780, 32 / 33, 1⟩ ∧
    unproject ⟨400, 600, 32 / 33, 1⟩ (mat4x4.ofScalar 1) exampleProjview ⟨0, 0, 800, 600⟩
        stack = ⟨0, 25, 5, 1⟩ ∧
    exampleProjview.w.z = 2830 / 99 ∧
    (mul_mat_vec4 exampleProjview (glDrawEnemyBarSprite_worldCoords0 0 80 10)).w = 25 := by
  have he : exampleProjview =
      ⟨⟨3 / 4, 0, 0, 0⟩, ⟨0, 1, 0, 0⟩, ⟨0, 0, -101 / 99, -1⟩, ⟨0, 0, 2830 / 99, 30⟩⟩ := by
    norm_num [exampleProjview, perspective, translate_mat, mul_mat, mat4x4.ofScalar,
      add_vec4, pow_vec4]
  refine ⟨by simp [mul_mat, mat4x4.ofScalar, add_vec4, pow_vec4], ?_, ?_, ?_, ?_⟩
  · rw [project_eq, mul_mat_vec4_one, he]
    norm_num [glDrawEnemyBarSprite_worldCoords0, mul_mat_vec4, Int.tdiv]
  · have hp : project ⟨0, 25, 5, 1⟩ (mat4x4.ofScalar 1) exampleProjview ⟨0, 0, 800, 600⟩ =
        ⟨400, 600, 32 / 33, 1⟩ := by
      rw [project_eq, mul_mat_vec4_one, he]
      norm_num [mul_mat_vec4]
    have hr := roundtrip_aux ⟨0, 25, 5, 1⟩ exampleProjview ⟨0, 0, 800, 600⟩ stack
      exampleProjview_det (by norm_num) (by norm_num) (by rw [he]; norm_num [mul_mat_vec4])
    rw [hp] at hr
    exact hr
  · rw [he]
  · rw [he]
    norm_num [glDrawEnemyBarSprite_worldCoords0, mul_mat_vec4, Int.tdiv]

/-- Claim C24, amended, for the view `exampleProjview`, which is not pitched: the corner
`(0, 40, 5)` projects to `y = 780`, the unprojected point is `(0, 25, 5)`, and the corner
displaced by the offset projects to the bound 600. -/
theorem screen_clamp_keeps_visible_witness :
    (1 : Int) > 0 ∧ (mul_mat exampleProjview (mat4x4.ofScalar 1)).det ≠ 0 ∧
      (project (glDrawEnemyBarSprite_worldCoords0 0 80 10) (mat4x4.ofScalar 1)
          (mul_mat exampleProjview (mat4x4.ofScalar 1)) ⟨0, 0, 800, 600⟩).y ≥
        (⟨0, 0, 800, 600⟩ : vec4).w + (⟨0, 0, 800, 600⟩ : vec4).y ∧
      (project
          ⟨(glDrawEnemyBarSprite_worldCoords0 0 80 10).x,
            (glDrawEnemyBarSprite_worldCoords0 0 80 10).y -
              glDrawEnemyBarSprite_glWorldOffsetY 0 80 10 1 0 exampleProjview
                (mat4x4.ofScalar 1) ⟨0, 0, 800, 600⟩ (fun _ => 0),
            (glDrawEnemyBarSprite_worldCoords0 0 80 10).z, 1⟩
          (mat4x4.ofScalar 1) (mul_mat exampleProjview (mat4x4.ofScalar 1))
          ⟨0, 0, 800, 600⟩).y =
        (⟨0, 0, 800, 600⟩ : vec4).y + (⟨0, 0, 800, 600⟩ : vec4).w := by
  obtain ⟨hone, hp, hu, hwz, hcw⟩ := exampleProjview_clamp (fun _ => 0)
  have hdet : (mul_mat exampleProjview (mat4x4.ofScalar 1)).det ≠ 0 := by
    rw [hone]; exact exampleProjview_det
  have htrig : (project (glDrawEnemyBarSprite_worldCoords0 0 80 10) (mat4x4.ofScalar 1)
      (mul_mat exampleProjview (mat4x4.ofScalar 1)) ⟨0, 0, 800, 600⟩).y ≥
      (⟨0, 0, 800, 600⟩ : vec4).w + (⟨0, 0, 800, 600⟩ : vec4).y ∧
      (mul_mat exampleProjview (mat4x4.ofScalar 1)).w.z ≥ 0 := by
    rw [hone, hp, hwz]
    norm_num
  have hadj : ({ project (glDrawEnemyBarSprite_worldCoords0 0 80 10) (mat4x4.ofScalar 1)
      (mul_mat exampleProjview (mat4x4.ofScalar 1)) ⟨0, 0, 800, 600⟩ with
      y := (⟨0, 0, 800, 600⟩ : vec4).y + (⟨0, 0, 800, 600⟩ : vec4).w } : vec4) =
      ⟨400, 600, 32 / 33, 1⟩ := by
    rw [hone, hp]
    norm_num
  exact ⟨by decide, hdet, htrig.1,
    screen_clamp_keeps_visible 0 80 10 1 0 exampleProjview (mat4x4.ofScalar 1) ⟨0, 0, 800, 600⟩
      (fun _ => 0) (by decide) hdet (by norm_num) (by norm_num) htrig
      (by rw [hone, hcw]; norm_num)
      (by
        rw [hadj, hone, hu]
        norm_num [glDrawEnemyBarSprite_worldCoords0, Int.tdiv])⟩

theorem smoothCell_mono (rate s r : Int) (hrate : 0 ≤ rate) (hs : s ≤ r) :
    s ≤ smoothCell rate s r ∧ smoothCell rate s r ≤ r := by
  rw [smoothCell_eq]
  rcases abs_cases (s - r) with ⟨h, _⟩ | ⟨h, _⟩ <;> rw [h] <;> split_ifs <;> omega

/-- One 32-bit update of a grid whose map cells are at or below their raw values, where no
operation overflows: no cell gets darker and no map cell passes its raw value. -/
theorem update32_brightens (W H : Nat) (rate : Int) (lm ls : Int → Int) (hrate : 0 ≤ rate)
    (hstart : ∀ u v : Nat, u < W → v < H → ls (smoothedIndex H u v) ≤ lm (u * H + v))
    (hbound : ∀ u v : Nat, u < W → v < H →
      lm (u * H + v) - ls (smoothedIndex H u v) < 2 ^ 31 ∧
        -2 ^ 31 ≤ ls (smoothedIndex H u v) - rate * 4 ∧ lm (u * H + v) + rate * 4 < 2 ^ 31) :
    (∀ j : Int, ls j ≤ updateLightmapSmoothed32 W H rate lm ls j) ∧
      (∀ u v : Nat, u < W → v < H →
        updateLightmapSmoothed32 W H rate lm ls (smoothedIndex H u v) ≤ lm (u * H + v)) := by
  have hcell : ∀ u v : Nat, u < W → v < H →
      updateLightmapSmoothed32 W H rate lm ls (smoothedIndex H u v) =
        smoothCell rate (ls (smoothedIndex H u v)) (lm (u * H + v)) := by
    intro u v hu hv
    have h1 := hstart u v hu hv
    obtain ⟨h2, h3, h4⟩ := hbound u v hu hv
    rw [updateLightmapSmoothed32_cell W H rate lm ls u v hu hv,
      smoothCell32_eq_smoothCell rate _ _ hrate (by rw [abs_lt]; constructor <;> omega) h3
        (by omega)]
  constructor
  · intro j
    by_cases h : ∃ u v : Nat, u < W ∧ v < H ∧ j = smoothedIndex H u v
    · obtain ⟨u, v, hu, hv, rfl⟩ := h
      rw [hcell u v hu hv]
      exact (smoothCell_mono rate _ _ hrate (hstart u v hu hv)).1
    · rw [updateLightmapSmoothed32_other W H rate lm ls j]
      intro u v hu hv hj
      exact h ⟨u, v, hu, hv, hj⟩
  · intro u v hu hv
    rw [hcell u v hu hv]
    exact (smoothCell_mono rate _ _ hrate (hstart u v hu hv)).2

theorem iterate32_below_raw (W H : Nat) (rate : Int) (lm ls : Int → Int) (hrate : 0 ≤ rate)
    (hstart : ∀ u v : Nat, u < W → v < H → ls (smoothedIndex H u v) ≤ lm (u * H + v))
    (hbound : ∀ u v : Nat, u < W → v < H →
      lm (u * H + v) - ls (smoothedIndex H u v) < 2 ^ 31 ∧
        -2 ^ 31 ≤ ls (smoothedIndex H u v) - rate * 4 ∧ lm (u * H + v) + rate * 4 < 2 ^ 31)
    (n : Nat) :
    ∀ u v : Nat, u < W → v < H →
      ls (smoothedIndex H u v) ≤
          (updateLightmapSmoothed32 W H rate lm)^[n] ls (smoothedIndex H u v) ∧
        (updateLightmapSmoothed32 W H rate lm)^[n] ls (smoothedIndex H u v) ≤
          lm (u * H + v) := by
  induction n with
  | zero => exact fun u v hu hv => ⟨le_refl _, hstart u v hu hv⟩
  | succ n ih =>
    have hb := update32_brightens W H rate lm _ hrate (fun u v hu hv => (ih u v hu hv).2)
      (fun u v hu hv => by
        have h1 := ih u v hu hv
        have h2 := hbound u v hu hv
        omega)
    intro u v hu hv
    rw [Function.iterate_succ_apply']
    exact ⟨le_trans (ih u v hu hv).1 (hb.1 _), hb.2 u v hu hv⟩

theorem getLightAt_mono (H : Nat) (ls ls2 : Int → Int) (m a : ℚ) (fb : Bool) (x y : Int)
    (hm : 0 ≤ m) (hle : ∀ j : Int, ls j ≤ ls2 j) :
    getLightAt H ls m a fb x y ≤ getLightAt H ls2 m a fb x y := by
  unfold getLightAt
  split_ifs
  · exact le_refl _
  · have h1 : ((ls (y + 1 + (x + 1) * (H + 2) - 1 - (H + 2)) : Int) : ℚ) ≤
        ls2 (y + 1 + (x + 1) * (H + 2) - 1 - (H + 2)) := by exact_mod_cast hle _
    have h2 : ((ls (y + 1 + (x + 1) * (H + 2) - (H + 2)) : Int) : ℚ) ≤
        ls2 (y + 1 + (x + 1) * (H + 2) - (H + 2)) := by exact_mod_cast hle _
    have h3 : ((ls (y + 1 + (x + 1) * (H + 2) - 1) : Int) : ℚ) ≤
        ls2 (y + 1 + (x + 1) * (H + 2) - 1) := by exact_mod_cast hle _
    have h4 : ((ls (y + 1 + (x + 1) * (H + 2)) : Int) : ℚ) ≤
        ls2 (y + 1 + (x + 1) * (H + 2)) := by exact_mod_cast hle _
    simp only []
    apply min_le_min _ (le_refl _)
    apply max_le_max (le_refl _)
    apply mul_le_mul_of_nonneg_right _ (by norm_num)
    apply add_le_add _ (le_refl _)
    apply mul_le_mul_of_nonneg_right _ hm
    linarith

/-- Claim C25, as stated, fails: on a map of one cell with raw value 200 and a smoothed grid
of cells 100, at the update rate 2147483647 the 32-bit product `smoothingRate * 4` is `-4`,
the update takes the map cell to 96, and the sample at the vertex `(0, 0)` falls from
`400 / 1020` to `396 / 1020`. -/
theorem getLightAt32_monotone_brightening_counterexample :
    (100 : Int) ≤ 200 ∧
      updateLightmapSmoothed32 1 1 2147483647 (fun _ => 200) (fun _ => 100)
        (smoothedIndex 1 0 0) = 96 ∧
      getLightAt 1 (updateLightmapSmoothed32 1 1 2147483647 (fun _ => 200) (fun _ => 100)) 1 0
          false 0 0 <
        getLightAt 1 (fun _ => 100) 1 0 false 0 0 := by
  have h0 : updateLightmapSmoothed32 1 1 2147483647 (fun _ => 200) (fun _ => 100) 0 = 100 := by
    decide
  have h1 : updateLightmapSmoothed32 1 1 2147483647 (fun _ => 200) (fun _ => 100) 1 = 100 := by
    decide
  have h3 : updateLightmapSmoothed32 1 1 2147483647 (fun _ => 200) (fun _ => 100) 3 = 100 := by
    decide
  have h4 : updateLightmapSmoothed32 1 1 2147483647 (fun _ => 200) (fun _ => 100) 4 = 96 := by
    decide
  refine ⟨by decide, by decide, ?_⟩
  norm_num [getLightAt, h0, h1, h3, h4]

/-- Claim C25, amended: with the raw grid held constant, every smoothed cell `s` of the map
starting at or below its raw value `r`, a modifier that is not negative, a constant adder,
and an update rate that is not negative and for which no 32-bit operation of the loop body
overflows (`r - s < 2^31`, `-2^31 ≤ s - 4 * rate` and `r + 4 * rate < 2^31`), the value of
`getLightAt` at any vertex after `n + 1` updates is at least its value after `n` updates,
for every `n`. -/
theorem getLightAt32_monotone_brightening (W H : Nat) (rate : Int) (lm ls : Int → Int)
    (modifier adder : ℚ) (fullbright : Bool) (x y : Int) (n : Nat) (hrate : 0 ≤ rate)
    (hm : 0 ≤ modifier)
    (hstart : ∀ u v : Nat, u < W → v < H →
      ls (((v : Int) + 1) + ((u : Int) + 1) * ((H : Int) + 2)) ≤ lm (u * H + v))
    (hbound : ∀ u v : Nat, u < W → v < H →
      lm (u * H + v) - ls (((v : Int) + 1) + ((u : Int) + 1) * ((H : Int) + 2)) < 2 ^ 31 ∧
        -2 ^ 31 ≤ ls (((v : Int) + 1) + ((u : Int) + 1) * ((H : Int) + 2)) - rate * 4 ∧
        lm (u * H + v) + rate * 4 < 2 ^ 31) :
    getLightAt H ((updateLightmapSmoothed32 W H rate lm)^[n] ls) modifier adder fullbright x y ≤
      getLightAt H ((updateLightmapSmoothed32 W H rate lm)^[n + 1] ls) modifier adder
        fullbright x y := by
  apply getLightAt_mono H _ _ modifier adder fullbright x y hm
  intro j
  rw [Function.iterate_succ_apply']
  have hinv := iterate32_below_raw W H rate lm ls hrate hstart hbound n
  refine (update32_brightens W H rate lm _ hrate (fun u v hu hv => (hinv u v hu hv).2)
    (fun u v hu hv => ?_)).1 j
  have h1 := hinv u v hu hv
  have h2 := hbound u v hu hv
  simp only [smoothedIndex] at h1 ⊢
  omega

theorem exampleRawCentre_bounds (u v : Nat) :
    (0 : Int) ≤ exampleRawCentre (u * 3 + v) ∧ exampleRawCentre (u * 3 + v) ≤ 255 := by
  unfold exampleRawCentre
  split_ifs <;> decide

/-- Claim C25, amended, in the 3x3 scenario, from the first update to the second, at the
vertex `(1, 1)`. -/
theorem getLightAt32_monotone_brightening_witness :
    (0 : Int) ≤ 1 ∧ (0 : ℚ) ≤ 1 ∧
      getLightAt 3 ((updateLightmapSmoothed32 3 3 1 exampleRawCentre)^[1] (fun _ => 0)) 1 0 false
          1 1 ≤
        getLightAt 3 ((updateLightmapSmoothed32 3 3 1 exampleRawCentre)^[1 + 1] (fun _ => 0)) 1 0
          false 1 1 :=
  ⟨by decide, by norm_num,
    getLightAt32_monotone_brightening 3 3 1 exampleRawCentre (fun _ => 0) 1 0 false 1 1 1
      (by decide) (by norm_num) (fun u v _ _ => (exampleRawCentre_bounds u v).1)
      (fun u v _ _ => by
        have h := exampleRawCentre_bounds u v
        norm_num
        constructor <;> omega)⟩

/-- Claim C28: with the adder 1020 of an emissive tile, a modifier that is not negative and
four cells that are not negative, `getLightAt` returns exactly 1. -/
theorem getLightAt_emissive_full_bright (H : Nat) (ls : Int → Int) (modifier : ℚ)
    (fullbright : Bool) (x y : Int) (hm : 0 ≤ modifier)
    (hcells : ∀ i ∈ getLightAt_reads H x y, 0 ≤ ls i) :
    getLightAt H ls modifier 1020 fullbright x y = 1 := by
  have h1 : (0 : ℚ) ≤ ls (y + 1 + (x + 1) * (H + 2) - 1 - (H + 2)) := by
    exact_mod_cast hcells _ (by simp [getLightAt_reads])
  have h2 : (0 : ℚ) ≤ ls (y + 1 + (x + 1) * (H + 2) - (H + 2)) := by
    exact_mod_cast hcells _ (by simp [getLightAt_reads])
  have h3 : (0 : ℚ) ≤ ls (y + 1 + (x + 1) * (H + 2) - 1) := by
    exact_mod_cast hcells _ (by simp [getLightAt_reads])
  have h4 : (0 : ℚ) ≤ ls (y + 1 + (x + 1) * (H + 2)) := by
    exact_mod_cast hcells _ (by simp [getLightAt_reads])
  unfold getLightAt
  split_ifs
  · rfl
  · simp only []
    have hsum : (0 : ℚ) ≤ (0 + (ls (y + 1 + (x + 1) * (H + 2) - 1 - (H + 2)) : ℚ) +
        ls (y + 1 + (x + 1) * (H + 2) - (H + 2)) + ls (y + 1 + (x + 1) * (H + 2) - 1) +
        ls (y + 1 + (x + 1) * (H + 2))) * modifier := by
      apply mul_nonneg _ hm
      linarith
    have hge : (1 : ℚ) ≤ ((0 + (ls (y + 1 + (x + 1) * (H + 2) - 1 - (H + 2)) : ℚ) +
        ls (y + 1 + (x + 1) * (H + 2) - (H + 2)) + ls (y + 1 + (x + 1) * (H + 2) - 1) +
        ls (y + 1 + (x + 1) * (H + 2))) * modifier + 1020) * (1 / (255 * 4)) := by
      linarith
    rw [min_eq_right]
    exact le_trans hge (le_max_right _ _)

/-- Claim C28 on a grid of cells 7 with the modifier 1/2. -/
theorem getLightAt_emissive_full_bright_witness :
    (0 : ℚ) ≤ 1 / 2 ∧ getLightAt 3 (fun _ => 7) (1 / 2) 1020 false 1 1 = 1 :=
  ⟨by norm_num,
    getLightAt_emissive_full_bright 3 (fun _ => 7) (1 / 2) false 1 1 (by norm_num)
      (fun _ _ => by norm_num)⟩

theorem iterate_reaches_raw (W H : Nat) (rate : Int) (lm ls : Int → Int) (u v : Nat)
    (hrate : 1 ≤ rate) (hu : u < W) (hv : v < H) (n : Nat)
    (hn : |ls (smoothedIndex H u v) - lm (u * H + v)| ≤ n) :
    (updateLightmapSmoothed W H rate lm)^[n] ls (smoothedIndex H u v) = lm (u * H + v) := by
  have h := iterate_dist W H rate lm u v hrate hu hv ls n
  have h0 : |(updateLightmapSmoothed W H rate lm)^[n] ls (smoothedIndex H u v) -
      lm (u * H + v)| ≤ 0 := by omega
  have := abs_nonpos_iff.1 h0
  omega

/-- The sample at a vertex whose four cells are map cells of the 3x3 scenario, on a grid
that holds the raw values there. -/
theorem centre_sample_of_reached (ls : Int → Int) (x y : Int) (hx : x = 1 ∨ x = 2)
    (hy : y = 1 ∨ y = 2)
    (hls : ∀ u v : Nat, u < 3 → v < 3 →
      ls (smoothedIndex 3 u v) = exampleRawCentre (u * 3 + v)) :
    getLightAt 3 ls 1 0 false x y = 1 / 4 := by
  have h00 := hls 0 0 (by decide) (by decide)
  have h01 := hls 0 1 (by decide) (by decide)
  have h02 := hls 0 2 (by decide) (by decide)
  have h10 := hls 1 0 (by decide) (by decide)
  have h11 := hls 1 1 (by decide) (by decide)
  have h12 := hls 1 2 (by decide) (by decide)
  have h20 := hls 2 0 (by decide) (by decide)
  have h21 := hls 2 1 (by decide) (by decide)
  have h22 := hls 2 2 (by decide) (by decide)
  simp only [smoothedIndex, exampleRawCentre] at h00 h01 h02 h10 h11 h12 h20 h21 h22
  norm_num at h00 h01 h02 h10 h11 h12 h20 h21 h22
  rcases hx with rfl | rfl <;> rcases hy with rfl | rfl <;>
    norm_num [getLightAt, h00, h01, h02, h10, h11, h12, h20, h21, h22]

theorem exampleRawCentre_range (u v : Nat) :
    |(0 : Int) - exampleRawCentre (u * 3 + v)| ≤ 255 := by
  unfold exampleRawCentre
  split_ifs <;> decide

/-- In the 3x3 scenario the 32-bit update at the default rate 1, run 255 times from a grid of
zeros, leaves the raw values in the map cells. -/
theorem exampleRawCentre_reached (u v : Nat) (hu : u < 3) (hv : v < 3) :
    (updateLightmapSmoothed32 3 3 1 exampleRawCentre)^[255] (fun _ => 0) (smoothedIndex 3 u v) =
      exampleRawCentre (u * 3 + v) := by
  have h := exampleRawCentre_bounds u v
  have habs : |(0 : Int) - exampleRawCentre (u * 3 + v)| ≤ 255 := by
    rw [abs_le]; constructor <;> omega
  have := iterate32_reaches_raw 3 3 1 exampleRawCentre (fun _ => 0) u v (by decide) hu hv
    (by
      have h2 : |(0 : Int) - exampleRawCentre ((u : Int) * ((3 : Nat) : Int) + v)| ≤ 255 := by
        exact_mod_cast habs
      show |(0 : Int) - exampleRawCentre ((u : Int) * ((3 : Nat) : Int) + v)| < 2 ^ 31
      omega)
    (by norm_num)
    (by
      have h2 : (0 : Int) ≤ exampleRawCentre ((u : Int) * ((3 : Nat) : Int) + v) ∧
          exampleRawCentre ((u : Int) * ((3 : Nat) : Int) + v) ≤ 255 := by
        exact_mod_cast h
      constructor <;> omega)
    255
    (by
      have h2 : |(0 : Int) - exampleRawCentre ((u : Int) * ((3 : Nat) : Int) + v)| ≤ 255 := by
        exact_mod_cast habs
      exact_mod_cast h2)
  exact_mod_cast this

/-- Claim C26, as stated, fails: in the 3x3 scenario, after 255 updates at the default rate
from a smoothed grid of zeros the smoothed grid holds the raw values, in 32-bit arithmetic
as over the integers, and the sample at the vertex `(1, 1)` is not 1. -/
theorem centre_sample32_limit_counterexample :
    (∀ u v : Nat, u < 3 → v < 3 →
      (updateLightmapSmoothed32 3 3 1 exampleRawCentre)^[255] (fun _ => 0)
          (smoothedIndex 3 u v) = exampleRawCentre (u * 3 + v)) ∧
      getLightAt 3 ((updateLightmapSmoothed32 3 3 1 exampleRawCentre)^[255] (fun _ => 0)) 1 0
        false 1 1 ≠ 1 ∧
      (∀ u v : Nat, u < 3 → v < 3 →
        (updateLightmapSmoothed 3 3 1 exampleRawCentre)^[255] (fun _ => 0)
            (smoothedIndex 3 u v) = exampleRawCentre (u * 3 + v)) ∧
      getLightAt 3 ((updateLightmapSmoothed 3 3 1 exampleRawCentre)^[255] (fun _ => 0)) 1 0
        false 1 1 ≠ 1 := by
  have hr : ∀ u v : Nat, u < 3 → v < 3 →
      (updateLightmapSmoothed 3 3 1 exampleRawCentre)^[255] (fun _ => 0) (smoothedIndex 3 u v) =
        exampleRawCentre (u * 3 + v) := by
    intro u v hu hv
    have := iterate_reaches_raw 3 3 1 exampleRawCentre (fun _ => 0) u v (by decide) hu hv 255
      (by exact_mod_cast exampleRawCentre_range u v)
    exact_mod_cast this
  refine ⟨exampleRawCentre_reached, ?_, hr, ?_⟩
  · rw [centre_sample_of_reached _ 1 1 (Or.inl rfl) (Or.inl rfl) exampleRawCentre_reached]
    norm_num
  · rw [centre_sample_of_reached _ 1 1 (Or.inl rfl) (Or.inl rfl) hr]
    norm_num

/-- Claim C26, amended: in the 3x3 scenario (raw 0 except 255 in the centre, modifier 1,
adder 0), at each of the four vertices whose 2x2 neighbourhood contains the centre cell,
once the smoothed grid has reached the raw grid the sample is `255 / (255 * 4) = 1/4`. -/
theorem centre_sample_reached (ls : Int → Int) (x y : Int) (hx : x = 1 ∨ x = 2)
    (hy : y = 1 ∨ y = 2)
    (hls : ∀ u v : Nat, u < 3 → v < 3 →
      ls (((v : Int) + 1) + ((u : Int) + 1) * (((3 : Nat) : Int) + 2)) =
        exampleRawCentre (u * 3 + v)) :
    getLightAt 3 ls 1 0 false x y = 255 / (255 * 4) ∧ getLightAt 3 ls 1 0 false x y = 1 / 4 := by
  have h := centre_sample_of_reached ls x y hx hy hls
  exact ⟨by rw [h]; norm_num, h⟩

/-- Claim C26, amended, at the vertex `(2, 1)` on the grid that 255 updates at the default
rate leave from a smoothed grid of zeros. -/
theorem centre_sample_reached_witness :
    ((2 : Int) = 1 ∨ (2 : Int) = 2) ∧ ((1 : Int) = 1 ∨ (1 : Int) = 2) ∧
      (∀ u v : Nat, u < 3 → v < 3 →
        (updateLightmapSmoothed32 3 3 1 exampleRawCentre)^[255] (fun _ => 0)
            (smoothedIndex 3 u v) = exampleRawCentre (u * 3 + v)) ∧
      getLightAt 3 ((updateLightmapSmoothed32 3 3 1 exampleRawCentre)^[255] (fun _ => 0)) 1 0
        false 2 1 = 1 / 4 :=
  ⟨Or.inr rfl, Or.inl rfl, exampleRawCentre_reached,
    (centre_sample_reached _ 2 1 (Or.inr rfl) (Or.inl rfl) exampleRawCentre_reached).2⟩

theorem smoothLoop_eq_foldl (H : Nat) (rate : Int) (lm : Int → Int) (n : Nat) :
    ∀ (v index si : Int) (ls : Int → Int),
      smoothLoop H rate lm n v index si ls =
        (smoothLoopVisits H n v index si).foldl (fun g p => smoothBody rate lm g p.1 p.2) ls := by
  induction n with
  | zero => intro v index si ls; rfl
  | succ n ih =>
    intro v index si ls
    simp only [smoothLoop, smoothLoopVisits, List.foldl_cons]
    exact ih _ _ _ _

theorem smoothLoopVisits_spec (H : Nat) (hH : 0 < H) (n : Nat) :
    ∀ (u v : Nat), v ≤ H →
      smoothLoopVisits H n v ((u * H + v : Nat) : Int) (smoothedIndex H u v) =
        (List.range' (u * H + v) n).map
          (fun i : Nat => ((i : Int), smoothedIndex H ((i / H : Nat) : Int) ((i % H : Nat) : Int))) := by
  induction n with
  | zero => intro u v _; rfl
  | succ n ih =>
    intro u v hv
    obtain ⟨u', v', hv', hidx, hsi, hvv⟩ : ∃ u' v' : Nat, v' < H ∧ u' * H + v' = u * H + v ∧
        (if (v : Int) = H then smoothedIndex H u v + 2 else smoothedIndex H u v) =
          smoothedIndex H u' v' ∧ (if (v : Int) = H then (0 : Int) else v) = v' := by
      by_cases h : v = H
      · refine ⟨u + 1, 0, hH, ?_, ?_, ?_⟩
        · subst h; ring
        · subst h; simp [smoothedIndex]; ring
        · subst h; simp
      · have hne : ¬ ((v : Int) = H) := by exact_mod_cast h
        refine ⟨u, v, by omega, rfl, ?_, ?_⟩
        · rw [if_neg hne]
        · rw [if_neg hne]
    have hdiv : (u * H + v) / H = u' := by
      rw [← hidx, Nat.add_comm, Nat.add_mul_div_right _ _ hH, Nat.div_eq_of_lt hv', Nat.zero_add]
    have hmod : (u * H + v) % H = v' := by
      rw [← hidx, Nat.add_comm, Nat.add_mul_mod_self_right, Nat.mod_eq_of_lt hv']
    have e1 : (v' : Int) + 1 = ((v' + 1 : Nat) : Int) := by push_cast; rfl
    have e2 : ((u * H + v : Nat) : Int) + 1 = ((u' * H + (v' + 1) : Nat) : Int) := by
      rw [← hidx]; push_cast; ring
    have e3 : smoothedIndex H u' v' + 1 = smoothedIndex H u' ((v' + 1 : Nat) : Int) := by
      simp only [smoothedIndex]; push_cast; ring
    simp only [smoothLoopVisits, List.range'_succ, List.map_cons]
    rw [hsi, hvv, e1, e2, e3, ih u' (v' + 1) (by omega), hdiv, hmod]
    have e4 : u' * H + (v' + 1) = u * H + v + 1 := by omega
    rw [e4]

theorem updateLightmapVisits_eq (W H : Nat) (hH : 0 < H) :
    updateLightmapVisits W H =
      (List.range (W * H)).map
        (fun i : Nat => ((i : Int), smoothedIndex H ((i / H : Nat) : Int) ((i % H : Nat) : Int))) := by
  have e0 : (2 + (H : Int) + 1) = smoothedIndex H ((0 : Nat) : Int) ((0 : Nat) : Int) := by
    simp only [smoothedIndex]; push_cast; ring
  have e1 : ((W : Int) * H - 0).toNat = W * H := by
    rw [sub_zero]; exact_mod_cast Int.toNat_natCast (W * H)
  have h := smoothLoopVisits_spec H hH (W * H) 0 0 (Nat.zero_le _)
  simp only [updateLightmapVisits]
  rw [e1, e0, List.range_eq_range']
  simpa using h

theorem updateLightmapSmoothed_eq_foldl (W H : Nat) (rate : Int) (lm ls : Int → Int) :
    updateLightmapSmoothed W H rate lm ls =
      (updateLightmapVisits W H).foldl (fun g p => smoothBody rate lm g p.1 p.2) ls := by
  simp only [updateLightmapSmoothed, updateLightmapVisits]
  exact smoothLoop_eq_foldl H rate lm _ _ _ _ ls


theorem truncToInt_natCast (n : Nat) : truncToInt (n : ℚ) = n := by
  have h0 : (0 : ℚ) ≤ n := Nat.cast_nonneg n
  simp [truncToInt, h0]

theorem visit_interior (W H : Nat) (i : Nat) (hi : i < W * H) :
    i / H < W ∧ i % H < H ∧ (i / H) * H + i % H = i := by
  have hH : 0 < H := by
    rcases Nat.eq_zero_or_pos H with h | h
    · subst h; simp at hi
    · exact h
  refine ⟨?_, Nat.mod_lt _ hH, Nat.div_add_mod' i H⟩
  apply Nat.div_lt_of_lt_mul
  rw [Nat.mul_comm]
  exact hi

/-- Claim C27: the smoothing loop runs its body `W * H` times; the iteration for the raw
index `u * H + v` uses the smoothed index `(v + 1) + (u + 1) * (H + 2)`, the cell
`getLightForEntity (u, v)` reads; no smoothed index is visited twice, every visited index
is non-negative and below `(W + 2) * (H + 2)`, and a cell that is not the cell of some
`(u, v)` is not visited and keeps its value. -/
theorem smoothing_loop_index_pairing (W H : Nat) (_hW : 1 ≤ W) (hH : 1 ≤ H) (rate : Int)
    (lm ls : Int → Int) :
    updateLightmapSmoothed W H rate lm ls =
        (updateLightmapVisits W H).foldl (fun g p => smoothBody rate lm g p.1 p.2) ls ∧
      (updateLightmapVisits W H).length = W * H ∧
      (∀ u v : Nat, u < W → v < H →
        (updateLightmapVisits W H)[u * H + v]? =
          some (((u : Int) * H + v), ((v : Int) + 1) + ((u : Int) + 1) * ((H : Int) + 2))) ∧
      (∀ u v : Nat, u < W → v < H →
        getLightForEntity W H ls (u : ℚ) (v : ℚ) =
          ((min (max 0 (ls (((v : Int) + 1) + ((u : Int) + 1) * ((H : Int) + 2)))) 255 : Int) : ℚ) *
            (1 / 255)) ∧
      ((updateLightmapVisits W H).map Prod.snd).Nodup ∧
      (∀ p ∈ updateLightmapVisits W H,
        0 ≤ p.1 ∧ p.1 < (W : Int) * H ∧ 0 ≤ p.2 ∧ p.2 < ((W : Int) + 2) * (H + 2)) ∧
      (∀ j : Int,
        (∀ u v : Nat, u < W → v < H → j ≠ ((v : Int) + 1) + ((u : Int) + 1) * ((H : Int) + 2)) →
          j ∉ (updateLightmapVisits W H).map Prod.snd ∧
            updateLightmapSmoothed W H rate lm ls j = ls j) := by
  have hH0 : 0 < H := hH
  have hmem : ∀ p ∈ updateLightmapVisits W H, ∃ i : Nat, i < W * H ∧
      p = ((i : Int), smoothedIndex H ((i / H : Nat) : Int) ((i % H : Nat) : Int)) := by
    intro p hp
    rw [updateLightmapVisits_eq W H hH0, List.mem_map] at hp
    obtain ⟨i, hi, rfl⟩ := hp
    exact ⟨i, List.mem_range.1 hi, rfl⟩
  refine ⟨updateLightmapSmoothed_eq_foldl W H rate lm ls, ?_, ?_, ?_, ?_, ?_, ?_⟩
  · rw [updateLightmapVisits_eq W H hH0]
    simp
  · intro u v hu hv
    have hlt := cell_index_lt W H u v hu hv
    have hdiv : (u * H + v) / H = u := by
      rw [Nat.add_comm, Nat.add_mul_div_right _ _ hH0, Nat.div_eq_of_lt hv, Nat.zero_add]
    have hmod : (u * H + v) % H = v := by
      rw [Nat.add_comm, Nat.add_mul_mod_self_right, Nat.mod_eq_of_lt hv]
    rw [updateLightmapVisits_eq W H hH0, List.getElem?_map, List.getElem?_range hlt]
    simp only [Option.map_some', hdiv, hmod, smoothedIndex]
    push_cast
    rfl
  · intro u v hu hv
    have h := getLightForEntity_inside W H ls (u : ℚ) (v : ℚ) (Nat.cast_nonneg u)
      (Nat.cast_nonneg v) (by exact_mod_cast hu) (by exact_mod_cast hv)
    rw [truncToInt_natCast, truncToInt_natCast] at h
    exact h
  · rw [updateLightmapVisits_eq W H hH0, List.map_map]
    refine List.Nodup.map_on ?_ (List.nodup_range _)
    intro i hi k hk hik
    simp only [Function.comp] at hik
    have hi' := visit_interior W H i (List.mem_range.1 hi)
    have hk' := visit_interior W H k (List.mem_range.1 hk)
    have := smoothedIndex_inj H (i / H) (i % H) (k / H) (k % H) hi'.2.1 hk'.2.1 hik
    rw [← hi'.2.2, ← hk'.2.2, this.1, this.2]
  · intro p hp
    obtain ⟨i, hi, rfl⟩ := hmem p hp
    have hi' := visit_interior W H i hi
    have hb := padded_index_bounds W H ((i / H : Nat) : Int) ((i % H : Nat) : Int)
      (Int.natCast_nonneg _) (by exact_mod_cast hi'.1.le) (Int.natCast_nonneg _)
      (by exact_mod_cast hi'.2.1.le)
    simp only [smoothedIndex]
    refine ⟨Int.natCast_nonneg _, by exact_mod_cast hi, ?_, hb.2⟩
    have := hb.1
    have hH' : (0 : Int) ≤ H := Int.natCast_nonneg _
    linarith
  · intro j hj
    constructor
    · intro hjm
      rw [List.mem_map] at hjm
      obtain ⟨p, hp, rfl⟩ := hjm
      obtain ⟨i, hi, rfl⟩ := hmem p hp
      have hi' := visit_interior W H i hi
      exact hj (i / H) (i % H) hi'.1 hi'.2.1 rfl
    · exact updateLightmapSmoothed_other W H rate lm ls j (fun u v hu hv => hj u v hu hv)

/-- Claim C27 on a 2x3 map: the six visits in order. -/
theorem smoothing_loop_index_pairing_witness :
    1 ≤ 2 ∧ 1 ≤ 3 ∧
      updateLightmapVisits 2 3 = [(0, 6), (1, 7), (2, 8), (3, 11), (4, 12), (5, 13)] ∧
      (updateLightmapVisits 2 3).length = 2 * 3 :=
  ⟨by decide, by decide, by decide,
    (smoothing_loop_index_pairing 2 3 (by decide) (by decide) 1 (fun _ => 0) (fun _ => 0)).2.1⟩

theorem sparse_det (a b c d e : ℚ) :
    invertMatrix4x4_det ⟨⟨a, 0, 0, 0⟩, ⟨0, b, 0, 0⟩, ⟨0, 0, c, d⟩, ⟨0, 0, e, 0⟩⟩ =
      -(a * b * d * e) := by
  simp only [invertMatrix4x4_det, invertMatrix4x4_inv]
  ring

theorem perspective_det (tanf : ℚ → ℚ) (PI fov aspect near far : ℚ)
    (hh : tanf (fov / 360 * PI) ≠ 0) (ha : aspect ≠ 0) (hfn : far ≠ near) :
    (perspective tanf PI fov aspect near far).det =
      -2 * far * near /
        ((far - near) * (tanf (fov / 360 * PI) * aspect) * tanf (fov / 360 * PI)) := by
  have hsub : far - near ≠ 0 := sub_ne_zero.2 hfn
  have h1 : (perspective tanf PI fov aspect near far).det =
      invertMatrix4x4_det (perspective tanf PI fov aspect near far) :=
    (invertMatrix4x4_det_eq _).symm
  rw [h1, perspective_eq, sparse_det]
  generalize tanf (fov / 360 * PI) = h at hh ⊢
  field_simp
  left
  ring


/-- Claim C29: for a non-zero `h = tanf(fov / 360 * PI)` and `w = h * aspect` and
`far ≠ near`, the determinant of the perspective matrix is
`-2 * far * near / ((far - near) * w * h)`, so `invertMatrix4x4` succeeds on it exactly when
`near ≠ 0` and `far ≠ 0`; and the `w` component of the matrix applied to `(x, y, z, 1)` is
`-z`. -/
theorem perspective_invertible (tanf : ℚ → ℚ) (PI fov aspect near far : ℚ) (out : Nat → ℚ)
    (x y z : ℚ) (hh : tanf (fov / 360 * PI) ≠ 0) (hw : tanf (fov / 360 * PI) * aspect ≠ 0)
    (hfn : far ≠ near) :
    (perspective tanf PI fov aspect near far).det =
        -2 * far * near /
          ((far - near) * (tanf (fov / 360 * PI) * aspect) * tanf (fov / 360 * PI)) ∧
      ((invertMatrix4x4 (perspective tanf PI fov aspect near far) out).1 = true ↔
        near ≠ 0 ∧ far ≠ 0) ∧
      (mul_mat_vec4 (perspective tanf PI fov aspect near far) ⟨x, y, z, 1⟩).w = -z := by
  have ha : aspect ≠ 0 := fun h => hw (by rw [h, mul_zero])
  have hsub : far - near ≠ 0 := sub_ne_zero.2 hfn
  have hdet := perspective_det tanf PI fov aspect near far hh ha hfn
  refine ⟨hdet, ?_, ?_⟩
  · rw [invertMatrix4x4_fst, hdet]
    simp only [Bool.not_eq_true', decide_eq_false_iff_not, ne_eq]
    rw [div_eq_zero_iff]
    constructor
    · intro h
      constructor
      · intro hn
        exact h (Or.inl (by rw [hn]; ring))
      · intro hf
        exact h (Or.inl (by rw [hf]; ring))
    · rintro ⟨hn, hf⟩ h
      rcases h with h | h
      · have : far * near = 0 := by linarith
        rcases mul_eq_zero.1 this with h1 | h1
        · exact hf h1
        · exact hn h1
      · exact (mul_ne_zero (mul_ne_zero hsub hw) hh) h
  · rw [perspective_eq]
    simp [mul_mat_vec4]

/-- Claim C29 at field of view 90 (half-angle tangent 1), aspect 4/3, near 1, far 100. -/
theorem perspective_invertible_witness :
    (fun _ => 1 : ℚ → ℚ) (90 / 360 * (22 / 7)) ≠ 0 ∧ (100 : ℚ) ≠ 1 ∧
      (invertMatrix4x4 (perspective (fun _ => 1) (22 / 7) 90 (4 / 3) 1 100) (fun _ => 0)).1 =
        true :=
  ⟨by norm_num, by norm_num,
    ((perspective_invertible (fun _ => 1) (22 / 7) 90 (4 / 3) 1 100 (fun _ => 0) 0 0 0
      (by norm_num) (by norm_num) (by norm_num)).2.1).2 ⟨by norm_num, by norm_num⟩⟩

theorem rotate_mat_rotate_eq (cos sin sqrtf : ℚ → ℚ) (PI angle : ℚ) (v : vec4) :
    rotate_mat_rotate cos sin sqrtf PI angle v =
      rodriguesMatrix (cos (angle / 180 * PI)) (sin (angle / 180 * PI)) (normal_vec4 sqrtf v) := by
  rw [rodriguesMatrix_eq]
  simp only [rotate_mat_rotate, pow_vec4, mat4x4.ofScalar, mat4x4.mk.injEq, vec4.mk.injEq]
  refine ⟨⟨?_, ?_, ?_, ?_⟩, ⟨?_, ?_, ?_, ?_⟩, ⟨?_, ?_, ?_, ?_⟩, ?_⟩
  all_goals first
    | trivial
    | ring

theorem rodrigues_block3 (c s : ℚ) (n : vec4) :
    (rodriguesMatrix c s n).block3 =
      Matrix.of ![![c + (1 - c) * (n.x * n.x), (1 - c) * (n.x * n.y) + s * -n.z,
                    (1 - c) * (n.x * n.z) + s * n.y],
                  ![(1 - c) * (n.y * n.x) + s * n.z, c + (1 - c) * (n.y * n.y),
                    (1 - c) * (n.y * n.z) + s * -n.x],
                  ![(1 - c) * (n.z * n.x) + s * -n.y, (1 - c) * (n.z * n.y) + s * n.x,
                    c + (1 - c) * (n.z * n.z)]] := by
  rw [rodriguesMatrix_eq]
  rfl

theorem rodrigues_orthogonal (c s : ℚ) (n : vec4) (hn : n.x * n.x + n.y * n.y + n.z * n.z = 1)
    (hcs : c * c + s * s = 1) :
    (rodriguesMatrix c s n).block3.transpose * (rodriguesMatrix c s n).block3 = 1 := by
  rw [rodrigues_block3]
  ext i j
  fin_cases i <;> fin_cases j <;>
    simp [Matrix.mul_apply, Fin.sum_univ_succ, Matrix.transpose_apply]
  · linear_combination (s * s + n.x * n.x * (1 - c) * (1 - c)) * hn + (1 - n.x * n.x) * hcs
  · linear_combination (n.x * n.y * (1 - c) * (1 - c)) * hn + (-(n.x * n.y)) * hcs
  · linear_combination (n.x * n.z * (1 - c) * (1 - c)) * hn + (-(n.x * n.z)) * hcs
  · linear_combination (n.y * n.x * (1 - c) * (1 - c)) * hn + (-(n.y * n.x)) * hcs
  · linear_combination (s * s + n.y * n.y * (1 - c) * (1 - c)) * hn + (1 - n.y * n.y) * hcs
  · linear_combination (n.y * n.z * (1 - c) * (1 - c)) * hn + (-(n.y * n.z)) * hcs
  · linear_combination (n.z * n.x * (1 - c) * (1 - c)) * hn + (-(n.z * n.x)) * hcs
  · linear_combination (n.z * n.y * (1 - c) * (1 - c)) * hn + (-(n.z * n.y)) * hcs
  · linear_combination (s * s + n.z * n.z * (1 - c) * (1 - c)) * hn + (1 - n.z * n.z) * hcs

theorem rodrigues_det (c s : ℚ) (n : vec4) (hn : n.x * n.x + n.y * n.y + n.z * n.z = 1)
    (hcs : c * c + s * s = 1) :
    (rodriguesMatrix c s n).block3.det = 1 := by
  rw [rodrigues_block3, Matrix.det_fin_three]
  simp
  linear_combination
    (s * s + (1 - c) * (c * c + s * s * (n.x * n.x + n.y * n.y + n.z * n.z))) * hn + hcs


theorem rotate_mat_rotate_w_axis :
    (rotate_mat_rotate (fun _ => 3 / 5) (fun _ => 4 / 5) (fun _ => 5) (22 / 7) 90
        ⟨3, 0, 0, 4⟩).block3.transpose *
      (rotate_mat_rotate (fun _ => 3 / 5) (fun _ => 4 / 5) (fun _ => 5) (22 / 7) 90
        ⟨3, 0, 0, 4⟩).block3 ≠ 1 := by
  intro h
  have h00 := congrFun (congrFun h 0) 0
  rw [rotate_mat_rotate_eq, rodrigues_block3] at h00
  simp [Matrix.mul_apply, Fin.sum_univ_succ, Matrix.transpose_apply, normal_vec4,
    length_vec4] at h00
  norm_num at h00

/-- Claim C30: for an axis with `w = 0` and non-zero length and an angle whose cosine and
sine satisfy `cos^2 + sin^2 = 1`, the 3x3 block `R` of the matrix `rotate` that `rotate_mat`
builds and applies satisfies `R^T * R = 1` and `det R = 1`; for the axis `(3, 0, 0, 4)`,
of length 5 with `w ≠ 0`, it is not orthogonal, because `normal_vec4` divides by the
length over all four components. -/
theorem rotate_block_proper_rotation (cos sin sqrtf : ℚ → ℚ) (PI angle : ℚ) (m : mat4x4)
    (v : vec4) (hw : v.w = 0) (hlen : length_vec4 sqrtf v ≠ 0)
    (hsq : length_vec4 sqrtf v * length_vec4 sqrtf v =
      v.x * v.x + v.y * v.y + v.z * v.z + v.w * v.w)
    (hcs : cos (angle / 180 * PI) * cos (angle / 180 * PI) +
      sin (angle / 180 * PI) * sin (angle / 180 * PI) = 1) :
    rotate_mat cos sin sqrtf PI m angle v =
        { x := add_vec4
            (add_vec4 (pow_vec4 m.x (rotate_mat_rotate cos sin sqrtf PI angle v).x.x)
              (pow_vec4 m.y (rotate_mat_rotate cos sin sqrtf PI angle v).x.y))
            (pow_vec4 m.z (rotate_mat_rotate cos sin sqrtf PI angle v).x.z)
          y := add_vec4
            (add_vec4 (pow_vec4 m.x (rotate_mat_rotate cos sin sqrtf PI angle v).y.x)
              (pow_vec4 m.y (rotate_mat_rotate cos sin sqrtf PI angle v).y.y))
            (pow_vec4 m.z (rotate_mat_rotate cos sin sqrtf PI angle v).y.z)
          z := add_vec4
            (add_vec4 (pow_vec4 m.x (rotate_mat_rotate cos sin sqrtf PI angle v).z.x)
              (pow_vec4 m.y (rotate_mat_rotate cos sin sqrtf PI angle v).z.y))
            (pow_vec4 m.z (rotate_mat_rotate cos sin sqrtf PI angle v).z.z)
          w := m.w } ∧
      (rotate_mat_rotate cos sin sqrtf PI angle v).block3.transpose *
          (rotate_mat_rotate cos sin sqrtf PI angle v).block3 = 1 ∧
      (rotate_mat_rotate cos sin sqrtf PI angle v).block3.det = 1 ∧
      ((⟨3, 0, 0, 4⟩ : vec4).w ≠ 0 ∧
        length_vec4 (fun _ => 5) ⟨3, 0, 0, 4⟩ * length_vec4 (fun _ => 5) ⟨3, 0, 0, 4⟩ =
          3 * 3 + 0 * 0 + 0 * 0 + 4 * 4 ∧
        (rotate_mat_rotate (fun _ => 3 / 5) (fun _ => 4 / 5) (fun _ => 5) (22 / 7) 90
            ⟨3, 0, 0, 4⟩).block3.transpose *
          (rotate_mat_rotate (fun _ => 3 / 5) (fun _ => 4 / 5) (fun _ => 5) (22 / 7) 90
            ⟨3, 0, 0, 4⟩).block3 ≠ 1) := by
  have hn := (normal_vec4_unit sqrtf v hw hlen hsq).1
  refine ⟨rfl, ?_, ?_, by norm_num, by norm_num [length_vec4], rotate_mat_rotate_w_axis⟩
  · rw [rotate_mat_rotate_eq]
    exact rodrigues_orthogonal _ _ _ hn hcs
  · rw [rotate_mat_rotate_eq]
    exact rodrigues_det _ _ _ hn hcs

/-- Claim C30 at the axis `(0, 3, 4, 0)` of length 5, with cosine 3/5 and sine 4/5. -/
theorem rotate_block_proper_rotation_witness :
    (⟨0, 3, 4, 0⟩ : vec4).w = 0 ∧ length_vec4 (fun _ => 5) ⟨0, 3, 4, 0⟩ ≠ 0 ∧
      (3 / 5 : ℚ) * (3 / 5) + (4 / 5) * (4 / 5) = 1 ∧
      (rotate_mat_rotate (fun _ => 3 / 5) (fun _ => 4 / 5) (fun _ => 5) (22 / 7) 90
          ⟨0, 3, 4, 0⟩).block3.det = 1 :=
  ⟨rfl, by norm_num [length_vec4], by norm_num,
    (rotate_block_proper_rotation (fun _ => 3 / 5) (fun _ => 4 / 5) (fun _ => 5) (22 / 7) 90
      exampleMatrix ⟨0, 3, 4, 0⟩ rfl (by norm_num [length_vec4]) (by norm_num [length_vec4])
      (by norm_num)).2.2.1⟩

end Barony
